import Mathlib

/-!
# bpftrace: tracepoint format parser

A shallow embedding of `src/tracepoint_format_parser.cpp`.

* `std::string` is a list of characters (`Str`); positions are natural numbers and
  `std::string::npos` is `none`. A `size_t` difference that is only used as a `substr`
  count is `none` when it wraps: such a count exceeds every string length.
* `int` values are integers; `std::stoi` fails outside the 32-bit range and the
  arithmetic on `int` wraps to 32 bits (`wrap32`). Overflow of `int` is undefined in the
  source: there the wrap is a stand-in, and `arithmetic_defined` says when a call of
  `parse_field` stays clear of it.
* A C++ exception is the `error` case of `Except Exc`; for `parse`, whose effects stay
  after an exception, it is the `Outcome.threw` case next to the state reached.
* `bpftrace.btf_set_` and the static `struct_list` are lists used as sets (`emplace`).
* An input stream is the list of lines `getline` yields from it; a stream that failed to
  open yields none.
* What `parse` calls but this file does not define (tracefs paths, `has_wildcard`,
  `has_ap_of_probetype`, `glob`, opening a file) is a field of `Env`.
-/

namespace bpftrace

/-- A `std::string`. -/
abbrev Str := List Char

/-- The exceptions the standard library calls of the parser can throw. -/
inductive Exc where
  | invalid_argument
  | out_of_range
  deriving DecidableEq

instance instDecidableEqExcept {ε α : Type} [DecidableEq ε] [DecidableEq α] :
    DecidableEq (Except ε α) := fun a b =>
  match a, b with
  | Except.ok x, Except.ok y =>
    if h : x = y then isTrue (by rw [h]) else isFalse (fun h2 => h (Except.ok.inj h2))
  | Except.error x, Except.error y =>
    if h : x = y then isTrue (by rw [h]) else isFalse (fun h2 => h (Except.error.inj h2))
  | Except.ok _, Except.error _ => isFalse (fun h => Except.noConfusion h)
  | Except.error _, Except.ok _ => isFalse (fun h => Except.noConfusion h)

/-! ## `std::string` operations -/

/-- First index at which `needle` is a prefix of the rest of `s` (`std::string::find`
from position 0). -/
def find_at (needle : Str) : Str → Option Nat
  | [] => if needle = [] then some 0 else none
  | c :: t =>
    if needle.isPrefixOf (c :: t) then some 0
    else (find_at needle t).map (· + 1)

/-- Embedding of `s.find(needle, pos)`: the first match at an index `≥ pos`, `none` for `npos`. -/
def find (s needle : Str) (pos : Nat) : Option Nat :=
  if pos ≤ s.length then (find_at needle (s.drop pos)).map (· + pos) else none

/-- Embedding of `s.find(c, pos)` for a single character. -/
def find_char (s : Str) (c : Char) (pos : Nat) : Option Nat :=
  find s [c] pos

/-- Embedding of `s.find_last_of(chars)`: the last index holding one of `chars`. -/
def find_last_of (chars : Str) : Str → Option Nat
  | [] => none
  | c :: t =>
    match find_last_of chars t with
    | some i => some (i + 1)
    | none => if c ∈ chars then some 0 else none

/-- Embedding of `s.find_first_not_of(chars)`: the first index holding none of `chars`. -/
def find_first_not_of (chars : Str) : Str → Option Nat
  | [] => none
  | c :: t =>
    if c ∈ chars then (find_first_not_of chars t).map (· + 1) else some 0

/-- Embedding of `s.substr(pos, count)` for `pos ≤ s.size()`. -/
def substr (s : Str) (pos count : Nat) : Str :=
  (s.drop pos).take count

/-- Embedding of `s.substr(pos)`: up to the end of the string. -/
def substr_from (s : Str) (pos : Nat) : Str :=
  s.drop pos

/-! ## `int`, `std::stoi`, `std::to_string` -/

def INT_MAX : Int := 2147483647

def INT_MIN : Int := -2147483648

/-- Two's complement wrap of an integer to the 32-bit `int` range. -/
def wrap32 (x : Int) : Int :=
  (x + 2147483648) % 4294967296 - 2147483648

/-- The `isspace` class of the C locale. -/
def isspace (c : Char) : Bool :=
  c = ' ' || c = '\t' || c = '\n' || c = '\x0b' || c = '\x0c' || c = '\r'

/-- The `isdigit` class. -/
def isdigit (c : Char) : Bool :=
  '0'.toNat ≤ c.toNat && c.toNat ≤ '9'.toNat

/-- Value of a run of decimal digits. -/
def decimal (ds : Str) : Nat :=
  ds.foldl (fun acc c => 10 * acc + (c.toNat - '0'.toNat)) 0

/-- The optional sign read by `strtol`: whether it is `-`, and what follows it. -/
def stoi_sign : Str → Bool × Str
  | '-' :: t => (true, t)
  | '+' :: t => (false, t)
  | s => (false, s)

/-- Embedding of `std::stoi(s)`: skips leading white space, reads an optional sign and the longest
run of decimal digits, ignores what follows; throws `std::invalid_argument` when there
is no digit and `std::out_of_range` when the value does not fit an `int`. -/
def stoi (s : Str) : Except Exc Int :=
  let signed := stoi_sign (s.dropWhile isspace)
  let ds := signed.2.takeWhile isdigit
  if ds = [] then Except.error Exc.invalid_argument
  else
    let v : Int := if signed.1 then -(decimal ds : Int) else (decimal ds : Int)
    if v < INT_MIN ∨ INT_MAX < v then Except.error Exc.out_of_range
    else Except.ok v

/-- Embedding of `std::to_string(int)`. -/
def to_string (n : Int) : Str :=
  if n < 0 then '-' :: Nat.toDigits 10 n.natAbs else Nat.toDigits 10 n.toNat

/-! ## `bpftrace.btf_set_` -/

/-- Embedding of `set.emplace(s)`: adds `s` unless it is already present. -/
def emplace (set : List Str) (s : Str) : List Str :=
  if s ∈ set then set else set ++ [s]

/-! ## `TracepointFormatParser` -/

namespace TracepointFormatParser

/-- Embedding of `get_struct_name(category, event_name)`. -/
def get_struct_name (category event_name : Str) : Str :=
  "struct _tracepoint_".toList ++ category ++ "_".toList ++ event_name

/-- Embedding of `adjust_integer_types(field_type, size)`. -/
def adjust_integer_types (field_type : Str) (size : Int) : Str :=
  let new_type := field_type
  if size = 8 then
    let new_type := if field_type = "int".toList then "s64".toList else new_type
    let new_type :=
      if field_type = "unsigned int".toList ∨ field_type = "unsigned".toList ∨
          field_type = "u32".toList ∨ field_type = "pid_t".toList ∨
          field_type = "uid_t".toList ∨ field_type = "gid_t".toList
      then "u64".toList else new_type
    new_type
  else new_type

/-- The padding loop of `parse_field`: `for (i = 0; i < gap; i++) extra += ...`. -/
def padding (offset gap : Int) : Str :=
  (List.range gap.toNat).foldl
    (fun (extra : Str) (i : Nat) =>
      extra ++ ("  char __pad_".toList ++ to_string (wrap32 (wrap32 (offset - gap) + (i : Int)))
        ++ ";\n".toList))
    []

/-- Embedding of `arr_size_end_pos - arr_size_pos - 1` as a `substr` count. The subtraction is on
`size_t`: when `arr_size_end_pos` is `npos` or lies before `arr_size_pos` it wraps to a
value larger than any string, and `substr` then runs to the end (`none`). -/
def arr_count (arr_size_pos : Nat) (arr_size_end_pos : Option Nat) : Option Nat :=
  match arr_size_end_pos with
  | some e => if arr_size_pos < e then some (e - arr_size_pos - 1) else none
  | none => none

/-- Result of `parse_field`: the returned text, `*last_offset` and `bpftrace.btf_set_`
after the call. -/
structure FieldResult where
  text : Str
  last_offset : Int
  btf_set : List Str
  deriving DecidableEq

/-- Embedding of `parse_field(line, last_offset, bpftrace)`. -/
def parse_field (line : Str) (last_offset : Int) (btf_set : List Str) :
    Except Exc FieldResult :=
  let unchanged : Except Exc FieldResult := Except.ok ⟨[], last_offset, btf_set⟩
  match find line "field:".toList 0 with
  | none => unchanged
  | some field_pos =>
  match find_char line ';' field_pos with
  | none => unchanged
  | some field_semi_pos =>
  match find line "offset:".toList field_semi_pos with
  | none => unchanged
  | some offset_pos =>
  match find_char line ';' offset_pos with
  | none => unchanged
  | some offset_semi_pos =>
  match find line "size:".toList offset_semi_pos with
  | none => unchanged
  | some size_pos =>
  match find_char line ';' size_pos with
  | none => unchanged
  | some size_semi_pos =>
  match stoi (substr line (size_pos + 5) (size_semi_pos - size_pos - 5)) with
  | Except.error e => Except.error e
  | Except.ok size =>
  match stoi (substr line (offset_pos + 7) (offset_semi_pos - offset_pos - 7)) with
  | Except.error e => Except.error e
  | Except.ok offset =>
  let extra : Str :=
    if offset ≠ 0 ∧ last_offset ≠ 0 then padding offset (wrap32 (offset - last_offset))
    else []
  let last_offset := wrap32 (offset + size)
  let field := substr line (field_pos + 6) (field_semi_pos - field_pos - 6)
  match find_last_of "\t ".toList field with
  | none => Except.ok ⟨[], last_offset, btf_set⟩
  | some field_type_end_pos =>
  let field_type := substr field 0 field_type_end_pos
  let field_name := substr_from field (field_type_end_pos + 1)
  let field_type :=
    if (find field_type "__data_loc".toList 0).isSome then
      "__attribute__((annotate(\"tp_data_loc\"))) int".toList
    else field_type
  let arr_size_pos := find_char field_name '[' 0
  let arr_size_end_pos := find_char field_name ']' 0
  let field_type :=
    if arr_size_pos.isNone then adjust_integer_types field_type size else field_type
  let btf_set := emplace btf_set field_type
  let btf_set :=
    match arr_size_pos with
    | some p =>
      let arr_size :=
        match arr_count p arr_size_end_pos with
        | some n => substr field_name (p + 1) n
        | none => substr_from field_name (p + 1)
      if (find_first_not_of "0123456789".toList arr_size).isSome then
        emplace btf_set arr_size
      else btf_set
    | none => btf_set
  Except.ok ⟨extra ++ "  ".toList ++ field_type ++ " ".toList ++ field_name ++ ";\n".toList,
    last_offset, btf_set⟩

/-- The `getline` loop of `get_tracepoint_struct`; `format_file` is the sequence of lines
the stream yields. -/
def read_fields : List Str → Str → Int → List Str → Except Exc (Str × List Str)
  | [], format_struct, _, btf_set => Except.ok (format_struct, btf_set)
  | line :: rest, format_struct, last_offset, btf_set =>
    match parse_field line last_offset btf_set with
    | Except.error e => Except.error e
    | Except.ok r => read_fields rest (format_struct ++ r.text) r.last_offset r.btf_set

/-- Embedding of `get_tracepoint_struct(format_file, category, event_name, bpftrace)`: the returned
declaration and `bpftrace.btf_set_` afterwards. -/
def get_tracepoint_struct (format_file : List Str) (category event_name : Str)
    (btf_set : List Str) : Except Exc (Str × List Str) :=
  let format_struct := get_struct_name category event_name ++ "\n\x7b\n".toList
  let last_offset : Int := 0
  match read_fields format_file format_struct last_offset btf_set with
  | Except.error e => Except.error e
  | Except.ok (format_struct, btf_set) => Except.ok (format_struct ++ "\x7d;\n".toList, btf_set)

/-! ## Format lines of the documented shape -/

/-- The parts of a format line
`<pre>field:<type> <name>;<mid1>offset:<offset>;<mid2>size:<size>;<rest>`. -/
structure FieldLine where
  pre : Str
  type : Str
  name : Str
  mid1 : Str
  offset : Str
  mid2 : Str
  size : Str
  rest : Str
  deriving DecidableEq

/-- The text of the line. -/
def FieldLine.text (f : FieldLine) : Str :=
  f.pre ++ "field:".toList ++ f.type ++ " ".toList ++ f.name ++ ";".toList ++ f.mid1 ++
    "offset:".toList ++ f.offset ++ ";".toList ++ f.mid2 ++ "size:".toList ++ f.size ++
    ";".toList ++ f.rest

/-- Only spaces and tabs. -/
def is_blank (s : Str) : Bool :=
  s.all (fun c => c = ' ' || c = '\t')

/-- A non-empty run of decimal digits whose value fits an `int`. -/
def is_number (s : Str) : Bool :=
  !s.isEmpty && s.all isdigit && decide ((decimal s : Int) ≤ INT_MAX)

/-- A well-formed field line: blank separators, a type and a name without `;`, a name
without blanks, and decimal offset and size that fit an `int`. -/
def FieldLine.well_formed (f : FieldLine) : Bool :=
  is_blank f.pre && is_blank f.mid1 && is_blank f.mid2 &&
    !f.type.contains ';' && !f.name.contains ';' &&
    !f.name.contains ' ' && !f.name.contains '\t' &&
    is_number f.offset && is_number f.size

/-- The offset the line declares. -/
def FieldLine.offset_value (f : FieldLine) : Int := (decimal f.offset : Int)

/-- The size the line declares. -/
def FieldLine.size_value (f : FieldLine) : Int := (decimal f.size : Int)

/-- The field type `parse_field` writes for a line with the given parts: the
`__data_loc` rewrite, then `adjust_integer_types` for a name without `[`. -/
def FieldLine.emitted_type (f : FieldLine) : Str :=
  let field_type :=
    if (find f.type "__data_loc".toList 0).isSome then
      "__attribute__((annotate(\"tp_data_loc\"))) int".toList
    else f.type
  if (find_char f.name '[' 0).isNone then adjust_integer_types field_type f.size_value
  else field_type

/-- The text between `[` and `]` of an array name, as `parse_field` extracts it. -/
def array_length (field_name : Str) (p : Nat) : Str :=
  match arr_count p (find_char field_name ']' 0) with
  | some n => substr field_name (p + 1) n
  | none => substr_from field_name (p + 1)

/-- What `parse_field` leaves in `btf_set_` for a line with the given parts. -/
def FieldLine.recorded (f : FieldLine) (btf_set : List Str) : List Str :=
  let btf_set := emplace btf_set f.emitted_type
  match find_char f.name '[' 0 with
  | some p =>
    if (find_first_not_of "0123456789".toList (array_length f.name p)).isSome then
      emplace btf_set (array_length f.name p)
    else btf_set
  | none => btf_set

/-- The padding `parse_field` writes before a field at `offset` when the previous field
ended at `last_offset`. -/
def FieldLine.extra (f : FieldLine) (last_offset : Int) : Str :=
  if f.offset_value ≠ 0 ∧ last_offset ≠ 0 then
    padding f.offset_value (wrap32 (f.offset_value - last_offset))
  else []

/-- The body of a declaration as the specification words it: the concatenation, in
file order, of the texts `parse_field` returns for the lines, with `last_offset` and
`btf_set_` threaded through. -/
def fields_text : List Str → Int → List Str → Except Exc (Str × List Str)
  | [], _, btf_set => Except.ok ([], btf_set)
  | line :: rest, last_offset, btf_set =>
    match parse_field line last_offset btf_set with
    | Except.error e => Except.error e
    | Except.ok r =>
      match fields_text rest r.last_offset r.btf_set with
      | Except.error e => Except.error e
      | Except.ok (body, btf_set) => Except.ok (r.text ++ body, btf_set)

/-- One padding declaration, `  char __pad_<n>;`. -/
def pad_decl (n : Nat) : Str :=
  "  char __pad_".toList ++ to_string (n : Int) ++ ";\n".toList

/-- The padding declarations for the `count` bytes from `first` on, one per byte. -/
def pad_decls (first count : Nat) : Str :=
  ((List.range' first count).map pad_decl).flatten

/-- The offset the line declares, as a natural number. -/
def FieldLine.offset_nat (f : FieldLine) : Nat := decimal f.offset

/-- The size the line declares, as a natural number. -/
def FieldLine.size_nat (f : FieldLine) : Nat := decimal f.size

/-! ## The record layout of a declaration -/

/-- A member of the emitted record: a padding byte `char __pad_<n>`, or a field with the
type and name written and the offset and size its format line declares. -/
inductive Decl where
  | pad (n : Nat)
  | field (type name : Str) (offset size : Nat)
  deriving DecidableEq

/-- The text of a member. -/
def Decl.render : Decl → Str
  | Decl.pad n => pad_decl n
  | Decl.field type name _ _ => "  ".toList ++ type ++ " ".toList ++ name ++ ";\n".toList

/-- Whether the member is a field of the format file. -/
def Decl.is_field : Decl → Bool
  | Decl.pad _ => false
  | Decl.field _ _ _ _ => true

/-- Number of `char __pad_` declarations among the members. -/
def pad_count (ds : List Decl) : Nat :=
  (ds.filter (fun d => !d.is_field)).length

/-- Sum of the declared sizes of the fields among the members. -/
def field_sizes : List Decl → Nat
  | [] => 0
  | Decl.pad _ :: ds => field_sizes ds
  | Decl.field _ _ _ size :: ds => size + field_sizes ds

/-- The member a well-formed line declares. -/
def FieldLine.member (f : FieldLine) : Decl :=
  Decl.field f.emitted_type f.name f.offset_nat f.size_nat

/-- The members of the record for a sequence of lines, the previous field ending at
`last`: before each field one padding byte per byte of the gap. -/
def layout : Nat → List FieldLine → List Decl
  | _, [] => []
  | last, f :: fs =>
    (List.range' last (f.offset_nat - last)).map Decl.pad ++
      f.member :: layout (f.offset_nat + f.size_nat) fs

/-- Each field starts no earlier than the previous one ends. -/
def ordered_from : Nat → List FieldLine → Prop
  | _, [] => True
  | last, f :: fs => last ≤ f.offset_nat ∧ ordered_from (f.offset_nat + f.size_nat) fs

/-- Every member sits at the byte its number or declared offset names. -/
def consistent : Nat → List Decl → Prop
  | _, [] => True
  | pos, Decl.pad n :: ds => n = pos ∧ consistent (pos + 1) ds
  | pos, Decl.field _ _ offset size :: ds => offset = pos ∧ consistent (pos + size) ds

/-- Three well-formed lines: `int a` at 0..4, `long b` at 8..16 and `char c[4]` at 16..20. -/
def sample_fields : List FieldLine :=
  [⟨"\t".toList, "int".toList, "a".toList, "\t".toList, "0".toList, "\t".toList,
      "4".toList, "\tsigned:1;".toList⟩,
   ⟨"\t".toList, "long".toList, "b".toList, "\t".toList, "8".toList, "\t".toList,
      "8".toList, "\tsigned:1;".toList⟩,
   ⟨"\t".toList, "char".toList, "c[4]".toList, "\t".toList, "16".toList, "\t".toList,
      "4".toList, "\tsigned:0;".toList⟩]

/-! ## `TracepointFormatParser::parse` -/

/-- Embedding of `bpftrace.btf_set_` when the `getline` loop of `get_tracepoint_struct` ends, by
running out of lines or by an exception of `parse_field`. -/
def btf_set_after : List Str → Int → List Str → List Str
  | [], _, btf_set => btf_set
  | line :: rest, last_offset, btf_set =>
    match parse_field line last_offset btf_set with
    | Except.error _ => btf_set
    | Except.ok r => btf_set_after rest r.last_offset r.btf_set

/-- An `ast::AttachPoint`: `provider:target:func`. -/
structure AttachPoint where
  provider : Str
  target : Str
  func : Str
  deriving DecidableEq

/-- An `ast::Probe`. -/
structure Probe where
  attach_points : List AttachPoint
  deriving DecidableEq

/-- An `ast::Program`. -/
structure Program where
  probes : List Probe
  c_definitions : Str
  deriving DecidableEq

inductive Severity where
  | error
  | warning
  deriving DecidableEq

/-- A diagnostic added by `ap->addError()` or `ap->addWarning()`: the attach point it is
on, the message streamed into it and the hints added to it. -/
structure Diagnostic where
  severity : Severity
  ap : AttachPoint
  msg : Str
  hints : List Str
  deriving DecidableEq

/-- What `glob(3)` returns: the matched paths, `GLOB_NOMATCH`, or another error together
with the text of `strerror(errno)`. -/
inductive GlobResult where
  | matched (gl_pathv : List Str)
  | nomatch
  | failed (strerror : Str)
  deriving DecidableEq

/-- What `parse` reads from outside this file: the BTF and verbosity flags, the tracefs
helpers, `util::has_wildcard`, `Probe::has_ap_of_probetype(ProbeType::tracepoint)`, the
file system as seen by `glob` and by `std::ifstream` (the lines `getline` yields, or the
text of `strerror(errno)` when the stream fails). -/
structure Env where
  has_btf_data : Bool
  bt_verbose : Bool
  events : Str
  event_format_file : Str → Str → Str
  has_wildcard : Str → Bool
  has_ap_of_probetype : Probe → Bool
  glob : Str → GlobResult
  ifstream : Str → Except Str (List Str)

/-- What `parse` changes: `program->c_definitions`, the static `struct_list`,
`bpftrace.btf_set_` and the diagnostics. -/
structure ParseState where
  c_definitions : Str
  struct_list : List Str
  btf_set : List Str
  diagnostics : List Diagnostic
  deriving DecidableEq

/-- How a call ends: `return b`, or an exception that leaves it. -/
inductive Outcome where
  | returned (b : Bool)
  | threw (e : Exc)
  deriving DecidableEq

/-- Embedding of `s.substr(pos, count)` with its range check; `count = none` stands for a count past
the end of the string. -/
def substr_checked (s : Str) (pos : Nat) (count : Option Nat) : Except Exc Str :=
  if pos ≤ s.length then
    match count with
    | some n => Except.ok (substr s pos n)
    | none => Except.ok (substr_from s pos)
  else Except.error Exc.out_of_range

/-- The `size_t` difference `a - b` as a `substr` count: past the end of any string
(`none`) when `a` is `npos` or the difference wraps. -/
def count_sub (a : Option Nat) (b : Nat) : Option Nat :=
  match a with
  | some x => if b ≤ x then some (x - b) else none
  | none => none

/-- The loop over `glob_result.gl_pathv` (wildcard expansion). The second component is
`none` when the loop runs to its end. -/
def parse_glob_paths (env : Env) : List Str → ParseState → ParseState × Option Outcome
  | [], st => (st, none)
  | filename :: rest, st =>
    let format_file : List Str :=
      match env.ifstream filename with
      | Except.ok lines => lines
      | Except.error _ => []
    let pre := env.events ++ "/".toList
    let pos := pre.length
    match substr_checked filename pos (count_sub (find_char filename '/' pos) pos) with
    | Except.error e => (st, some (Outcome.threw e))
    | Except.ok real_category =>
    let pos := pre.length + real_category.length + 1
    match substr_checked filename pos
        (count_sub (some filename.length) ("/format".toList.length + pos)) with
    | Except.error e => (st, some (Outcome.threw e))
    | Except.ok real_event =>
    let struct_name := get_struct_name real_category real_event
    if struct_name ∉ st.struct_list then
      match get_tracepoint_struct format_file real_category real_event st.btf_set with
      | Except.error e =>
        ({ st with btf_set := btf_set_after format_file 0 st.btf_set }, some (Outcome.threw e))
      | Except.ok (decl, btf_set) =>
        parse_glob_paths env rest
          { st with
            c_definitions := st.c_definitions ++ decl
            struct_list := emplace st.struct_list struct_name
            btf_set := btf_set }
    else parse_glob_paths env rest st

/-- The body of the loop over `probe->attach_points`. The second component is `none`
when the loop goes on to the next attach point. -/
def parse_attach_point (env : Env) (ap : AttachPoint) (st : ParseState) :
    ParseState × Option Outcome :=
  if ap.provider = "tracepoint".toList then
    let category := ap.target
    let event_name := ap.func
    let format_file_path := env.event_format_file category event_name
    if env.has_wildcard category ∨ env.has_wildcard event_name then
      match env.glob format_file_path with
      | GlobResult.nomatch =>
        let hints :=
          if category = "syscall".toList then
            ["Did you mean syscalls:".toList ++ event_name ++ "?".toList]
          else []
        ({ st with diagnostics := st.diagnostics ++
            [⟨Severity.error, ap,
              "tracepoints not found: ".toList ++ category ++ ":".toList ++ event_name,
              hints⟩] },
          some (Outcome.returned false))
      | GlobResult.failed strerror =>
        ({ st with diagnostics := st.diagnostics ++
            [⟨Severity.error, ap, "unexpected error: ".toList ++ strerror, []⟩] },
          some (Outcome.returned false))
      | GlobResult.matched gl_pathv => parse_glob_paths env gl_pathv st
    else
      let opened := env.ifstream format_file_path
      let msg := "tracepoint not found: ".toList ++ category ++ ":".toList ++ event_name
      let hints :=
        if category = "syscall".toList then
          ["Did you mean syscalls:".toList ++ event_name ++ "?".toList]
        else []
      let warned : Option ParseState :=
        match opened with
        | Except.error strerror =>
          if env.bt_verbose then
            some { st with diagnostics := st.diagnostics ++
              [⟨Severity.warning, ap, msg ++ strerror ++ ": ".toList ++ format_file_path,
                hints⟩] }
          else none
        | Except.ok _ => some st
      match warned with
      | none =>
        ({ st with diagnostics := st.diagnostics ++ [⟨Severity.warning, ap, msg, hints⟩] },
          none)
      | some st =>
        let format_file : List Str :=
          match opened with
          | Except.ok lines => lines
          | Except.error _ => []
        let struct_name := get_struct_name category event_name
        if struct_name ∉ st.struct_list then
          let st := { st with struct_list := emplace st.struct_list struct_name }
          match get_tracepoint_struct format_file category event_name st.btf_set with
          | Except.error e =>
            ({ st with btf_set := btf_set_after format_file 0 st.btf_set },
              some (Outcome.threw e))
          | Except.ok (decl, btf_set) =>
            ({ st with c_definitions := st.c_definitions ++ decl, btf_set := btf_set }, none)
        else (st, none)
  else (st, none)

/-- The loop over `probe->attach_points`. -/
def parse_attach_points (env : Env) :
    List AttachPoint → ParseState → ParseState × Option Outcome
  | [], st => (st, none)
  | ap :: rest, st =>
    match parse_attach_point env ap st with
    | (st, none) => parse_attach_points env rest st
    | (st, some o) => (st, some o)

/-- The loop over `probes_with_tracepoint`. -/
def parse_probes (env : Env) : List Probe → ParseState → ParseState × Option Outcome
  | [], st => (st, none)
  | probe :: rest, st =>
    match parse_attach_points env probe.attach_points st with
    | (st, none) => parse_probes env rest st
    | (st, some o) => (st, some o)

/-- Embedding of `TracepointFormatParser::parse(ctx, bpftrace)` on the program `ctx.root`, given
`struct_list`, `bpftrace.btf_set_` and the diagnostics so far. -/
def parse (env : Env) (program : Program) (struct_list btf_set : List Str)
    (diagnostics : List Diagnostic) : ParseState × Outcome :=
  let st : ParseState := ⟨program.c_definitions, struct_list, btf_set, diagnostics⟩
  let probes_with_tracepoint := program.probes.filter env.has_ap_of_probetype
  if probes_with_tracepoint.isEmpty then (st, Outcome.returned true)
  else
    let st :=
      if !env.has_btf_data then
        { st with c_definitions := st.c_definitions ++ "#include <linux/types.h>\n".toList }
      else st
    match parse_probes env probes_with_tracepoint st with
    | (st, none) => (st, Outcome.returned true)
    | (st, some o) => (st, o)

/-- Between the states `before` and `after` exactly the declarations `decls` (struct name
and text of each, in order) were appended to `c_definitions`: every text is headed by its
struct name, no name occurs twice, no name was in `struct_list` before, every name is in
`struct_list` afterwards, and `struct_list` lost nothing. -/
def Appended (before after : ParseState) (decls : List (Str × Str)) : Prop :=
  after.c_definitions = before.c_definitions ++ (decls.map Prod.snd).flatten ∧
  (decls.map Prod.fst).Nodup ∧
  (∀ d ∈ decls, d.1 ∉ before.struct_list ∧ d.1 ∈ after.struct_list ∧
    ∃ body : Str, d.2 = d.1 ++ "\n\x7b\n".toList ++ body ++ "\x7d;\n".toList) ∧
  ∀ n ∈ before.struct_list, n ∈ after.struct_list

/-- Successive calls of `parse`, each with its environment and its program: the static
`struct_list` (and `btf_set_`) of one call is what the next call starts from. The result
lists the state after each call. -/
def parse_calls : List (Env × Program) → List Str → List Str → List ParseState
  | [], _, _ => []
  | (env, program) :: rest, struct_list, btf_set =>
    (parse env program struct_list btf_set []).1 ::
      parse_calls rest (parse env program struct_list btf_set []).1.struct_list
        (parse env program struct_list btf_set []).1.btf_set

/-- A tracefs with the single event `sched:sched_switch`; no glob pattern matches. -/
def sample_env : Env where
  has_btf_data := false
  bt_verbose := false
  events := "/events".toList
  event_format_file := fun category event_name =>
    "/events/".toList ++ category ++ "/".toList ++ event_name ++ "/format".toList
  has_wildcard := fun s => s.contains '*'
  has_ap_of_probetype := fun probe =>
    probe.attach_points.any (fun ap => decide (ap.provider = "tracepoint".toList))
  glob := fun _ => GlobResult.nomatch
  ifstream := fun path =>
    if path = "/events/sched/sched_switch/format".toList then
      Except.ok ["name: sched_switch".toList,
        "\tfield:int prev_pid;\toffset:0;\tsize:4;\tsigned:1;".toList]
    else Except.error "No such file or directory".toList

/-- The program `tracepoint:sched:sched_switch, tracepoint:syscall:open* { }`. -/
def sample_program : Program :=
  ⟨[⟨[⟨"tracepoint".toList, "sched".toList, "sched_switch".toList⟩,
      ⟨"tracepoint".toList, "syscall".toList, "open*".toList⟩]⟩], []⟩

/-- The program `tracepoint:sys*:enter, tracepoint:syscall:open* { }`. -/
def two_wildcards_program : Program :=
  ⟨[⟨[⟨"tracepoint".toList, "sys*".toList, "enter".toList⟩,
      ⟨"tracepoint".toList, "syscall".toList, "open*".toList⟩]⟩], []⟩

/-- The program `tracepoint:sys*:enter, tracepoint:foo:bar { }`. -/
def wildcard_then_single_program : Program :=
  ⟨[⟨[⟨"tracepoint".toList, "sys*".toList, "enter".toList⟩,
      ⟨"tracepoint".toList, "foo".toList, "bar".toList⟩]⟩], []⟩

/-- The program `tracepoint:foo:bar, tracepoint:sched:sched_switch { }`. -/
def missing_then_present_program : Program :=
  ⟨[⟨[⟨"tracepoint".toList, "foo".toList, "bar".toList⟩,
      ⟨"tracepoint".toList, "sched".toList, "sched_switch".toList⟩]⟩], []⟩

/-- A tracefs whose event `net:bad` has a format file with an empty offset. -/
def malformed_env : Env where
  has_btf_data := true
  bt_verbose := false
  events := "/events".toList
  event_format_file := fun category event_name =>
    "/events/".toList ++ category ++ "/".toList ++ event_name ++ "/format".toList
  has_wildcard := fun s => s.contains '*'
  has_ap_of_probetype := fun probe =>
    probe.attach_points.any (fun ap => decide (ap.provider = "tracepoint".toList))
  glob := fun _ => GlobResult.nomatch
  ifstream := fun path =>
    if path = "/events/net/bad/format".toList then
      Except.ok ["name: bad".toList,
        "\tfield:int a;\toffset:;\tsize:4;\tsigned:1;".toList]
    else Except.error "No such file or directory".toList

/-- The program `tracepoint:net:bad { }`. -/
def malformed_program : Program :=
  ⟨[⟨[⟨"tracepoint".toList, "net".toList, "bad".toList⟩]⟩], []⟩

/-- The tracefs of `sample_env`, in verbose mode. -/
def verbose_env : Env :=
  { sample_env with bt_verbose := true }

/-- The program `tracepoint:foo:bar { }`. -/
def missing_program : Program :=
  ⟨[⟨[⟨"tracepoint".toList, "foo".toList, "bar".toList⟩]⟩], []⟩

/-- The program `kprobe:f { } BEGIN { }`. -/
def kprobe_program : Program :=
  ⟨[⟨[⟨"kprobe".toList, "f".toList, []⟩]⟩, ⟨[⟨"BEGIN".toList, [], []⟩]⟩],
    "struct x;\n".toList⟩


/-- Embedding of the decomposition of a matched file name in the loop over
`glob_result.gl_pathv`: `real_category` and `real_event`, given `tracefs::events()`. -/
def real_names (events filename : Str) : Except Exc (Str × Str) :=
  let pre := events ++ "/".toList
  let pos := pre.length
  match substr_checked filename pos (count_sub (find_char filename '/' pos) pos) with
  | Except.error e => Except.error e
  | Except.ok real_category =>
  let pos := pre.length + real_category.length + 1
  match substr_checked filename pos
      (count_sub (some filename.length) ("/format".toList.length + pos)) with
  | Except.error e => Except.error e
  | Except.ok real_event => Except.ok (real_category, real_event)


/-- The members `get_tracepoint_struct` declares for a sequence of lines, the previous
field ending at `last`: before a field, one padding byte per byte of the gap, unless the
offset of the field or `last` is 0. -/
def members : Nat → List FieldLine → List Decl
  | _, [] => []
  | last, f :: fs =>
    (if f.offset_nat ≠ 0 ∧ last ≠ 0 then
        (List.range' last (f.offset_nat - last)).map Decl.pad
      else []) ++
      f.member :: members (f.offset_nat + f.size_nat) fs

/-- The name of the padding field for byte `n`. -/
def pad_name (n : Nat) : Str :=
  "__pad_".toList ++ to_string (n : Int)

/-- The names of the padding fields among the members, in order. -/
def pad_names : List Decl → List Str
  | [] => []
  | Decl.pad n :: ds => pad_name n :: pad_names ds
  | Decl.field _ _ _ _ :: ds => pad_names ds


/-- Whether the value fits an `int`. -/
def is_int (x : Int) : Bool :=
  decide (INT_MIN ≤ x) && decide (x ≤ INT_MAX)

/-- Whether the `int` arithmetic of `parse_field` stays in range on a line with the given
offset and size when it is entered with `last_offset`: the subtraction
`offset - *last_offset`, made when neither is 0, and the addition `offset + size`. Where it
does not, the behaviour of the source is undefined: `parse_field` wraps there, and what it
returns says nothing of the source. -/
def arithmetic_defined (offset size last_offset : Int) : Bool :=
  is_int last_offset &&
    (decide (offset = 0) || decide (last_offset = 0) || is_int (offset - last_offset)) &&
    is_int (offset + size)

/-- The padding the source writes when its arithmetic is defined: when neither the offset
nor `last_offset` is 0, one `char __pad_<n>` per byte `n` from `last_offset` up to, and
without, the offset. -/
def pad_text (offset last_offset : Int) : Str :=
  if offset ≠ 0 ∧ last_offset ≠ 0 then
    ((List.range (offset - last_offset).toNat).map
      (fun i : Nat =>
        "  char __pad_".toList ++ to_string (last_offset + (i : Int)) ++ ";\n".toList)).flatten
  else []


/-- The name a member declares: `__pad_<n>` for a padding byte, the name written for a
field. -/
def Decl.declared : Decl → Str
  | Decl.pad n => pad_name n
  | Decl.field _ name _ _ => name

/-- Whether the text holds `__pad_`. -/
def holds_pad (s : Str) : Bool :=
  (find s "__pad_".toList 0).isSome

/-- The well-formed lines `int a` at 0..4 and `char __pad_5` at 8..9. -/
def clash_fields : List FieldLine :=
  [⟨[], "int".toList, "a".toList, " ".toList, "0".toList, " ".toList, "4".toList, []⟩,
   ⟨[], "char".toList, "__pad_5".toList, " ".toList, "8".toList, " ".toList,
      "1".toList, []⟩]


/-- The lines of a text: it is cut at every `'\n'`; `cur` is the line being read. What
follows the last `'\n'` is a line when it is not empty. -/
def text_lines_from : Str → Str → List Str
  | [], cur => if cur = [] then [] else [cur]
  | c :: rest, cur =>
    if c = '\n' then cur :: text_lines_from rest [] else text_lines_from rest (cur ++ [c])

/-- The lines of a text. -/
def text_lines (text : Str) : List Str :=
  text_lines_from text []

/-- Whether a line of C text begins the definition of a tracepoint struct: it begins with
`struct _tracepoint_`, the way every name `get_struct_name` returns does. -/
def is_header (line : Str) : Bool :=
  "struct _tracepoint_".toList.isPrefixOf line

/-- The lines of a text that begin the definition of a tracepoint struct, in order. -/
def headers (text : Str) : List Str :=
  (text_lines text).filter is_header

/-- The text made of the given lines, each ended by `'\n'`. -/
def unlines (ls : List Str) : Str :=
  (ls.map (fun l => l ++ ['\n'])).flatten

/-- The text is made of whole lines, none of which begins the definition of a tracepoint
struct. -/
def Plain (text : Str) : Prop :=
  ∃ ls : List Str, text = unlines ls ∧ ∀ l ∈ ls, '\n' ∉ l ∧ is_header l = false

/-- What the file system yields holds no line break: neither the lines `getline` reads
from a file, nor the paths `glob` matches. -/
def Env.line_based (env : Env) : Prop :=
  (∀ path lines, env.ifstream path = Except.ok lines → ∀ l ∈ lines, '\n' ∉ l) ∧
  ∀ pattern paths, env.glob pattern = GlobResult.matched paths → ∀ p ∈ paths, '\n' ∉ p

/-- The attach points of the program hold no line break in their target and function. -/
def Program.single_line (program : Program) : Prop :=
  ∀ probe ∈ program.probes, ∀ ap ∈ probe.attach_points, '\n' ∉ ap.target ∧ '\n' ∉ ap.func

/-- Between the states `before` and `after` the declarations `decls` were appended, as
`Appended` says, and each of them adds one line that begins the definition of a
tracepoint struct to the text: its first, which is its struct name. -/
def Declared (before after : ParseState) (decls : List (Str × Str)) : Prop :=
  Appended before after decls ∧
    ∀ d ∈ decls, ∀ rest : Str, headers (d.2 ++ rest) = d.1 :: headers rest


end TracepointFormatParser

/-! ## The semantic analyser (from the specification and its tests)

The analyser itself is not among the sources; `tests/semantic_analyser.cpp` is. What
follows models, from the specification and the diagnostics the tests expect, the rules
for map value types, map scalarity, aggregation calls and scratch variable assignments
over a fragment of the language: literals, typed builtins, variables, maps, calls, casts,
the ternary operator, assignments, `let` and `if`. The analysis is one pass in encounter
order. Of the checks of calls the model holds the must-assign rule and the map argument
of `delete`, `print`, `clear`, `zero`, `len` and `has_key`; the other argument checks and
every other rule are outside the model. -/

namespace SemanticAnalyser

/-- Modelled from the spec: the aggregation kinds of the type variant `aggregation`
(the `SizedType` declaration is missing). -/
inductive AggKind where
  | count | sum | usum | min | umin | max | umax | avg | uavg | stats | ustats
  | hist | lhist | tseries
  deriving DecidableEq

/-- Modelled from the spec: the part of `SizedType` (missing) the modelled rules need:
no type yet, integers with width and signedness, strings with capacity, records by name,
aggregations. -/
inductive SizedType where
  | none
  | integer (bits : Nat) (signed : Bool)
  | string (capacity : Nat)
  | record (name : Str)
  | aggregation (kind : AggKind)
  deriving DecidableEq

/-- Modelled from the spec: the name of an aggregation kind, as in `count_t`. -/
def AggKind.name : AggKind → Str
  | AggKind.count => "count".toList
  | AggKind.sum => "sum".toList
  | AggKind.usum => "usum".toList
  | AggKind.min => "min".toList
  | AggKind.umin => "umin".toList
  | AggKind.max => "max".toList
  | AggKind.umax => "umax".toList
  | AggKind.avg => "avg".toList
  | AggKind.uavg => "uavg".toList
  | AggKind.stats => "stats".toList
  | AggKind.ustats => "ustats".toList
  | AggKind.hist => "hist".toList
  | AggKind.lhist => "lhist".toList
  | AggKind.tseries => "tseries".toList

/-- Modelled from the spec: the type name printed in diagnostics (`typestr`, missing):
`int64`, `uint8`, `string`, `struct task_struct`, `count_t`. -/
def typestr : SizedType → Str
  | SizedType.none => "none".toList
  | SizedType.integer bits true => "int".toList ++ to_string (bits : Int)
  | SizedType.integer bits false => "uint".toList ++ to_string (bits : Int)
  | SizedType.string _ => "string".toList
  | SizedType.record name => name
  | SizedType.aggregation kind => kind.name ++ "_t".toList

/-- Modelled from the spec: the expressions of the modelled fragment of the AST (missing).
`loc` stands for the source span of a node; `builtin` is a leaf whose type earlier rules
resolved, such as `pid` or `*curtask`. -/
inductive Expr where
  | integer (value : Int)
  | string (value : Str)
  | builtin (name : Str) (type : SizedType)
  | variable (loc : Nat) (name : Str)
  | map (loc : Nat) (name : Str)
  | map_access (loc : Nat) (name : Str) (key : Expr)
  | call (loc : Nat) (func : Str) (args : List Expr)
  | cast (type : SizedType) (expr : Expr)
  | ternary (cond left right : Expr)

/-- Modelled from the spec: the statements of the modelled fragment of the AST (missing):
an expression statement, `@name = rhs` or `@name[key] = rhs`, `$name = rhs`,
`let $name [: type] [= init]` and `if (cond) then_block else else_block`. -/
inductive Stmt where
  | expr (e : Expr)
  | assign_map (loc : Nat) (map_loc : Nat) (name : Str) (key : Option Expr) (rhs : Expr)
  | assign_var (loc : Nat) (name : Str) (rhs : Expr)
  | var_decl (loc : Nat) (name : Str) (type : Option SizedType) (init : Option Expr)
  | if_ (cond : Expr) (then_block else_block : List Stmt)

/-- Modelled from the spec: a diagnostic `(severity, source span, message, optional hint)`
of the diagnostics sink (missing). -/
structure Diag where
  severity : TracepointFormatParser.Severity
  loc : Nat
  msg : Str
  hint : Option Str
  deriving DecidableEq

/-- Modelled from the spec: an error without hint. -/
def error (loc : Nat) (msg : Str) : Diag :=
  ⟨TracepointFormatParser.Severity.error, loc, msg, none⟩

/-- Modelled from the spec: what the lexical scratch table (missing) holds for a variable:
its type (`none` until the first assignment), whether a `let` gave that type, and whether
a `let` introduced the variable. -/
structure VarInfo where
  type : SizedType
  declared : Bool
  by_let : Bool
  deriving DecidableEq

/-- Modelled from the spec: the resolved type the analyser attaches to an assignment to
a map (part of the decorated AST): the statement, the map, the type the map already
contained (`none` when none yet), the type of the value stored, and the value when the
right-hand side is an integer literal. -/
structure Store where
  loc : Nat
  name : Str
  previous : SizedType
  value : SizedType
  literal : Option Int
  deriving DecidableEq

/-- Modelled from the spec: the state of the analysis: the global map table (value type
and scalarity per map, both fixed by the first use), the stack of scratch frames
(innermost first), the decoration of the stores, and the diagnostics in encounter
order. -/
structure Analysis where
  value_type : Str → SizedType
  scalar : Str → Option Bool
  frames : List (Str → Option VarInfo)
  stores : List Store
  diagnostics : List Diag

/-- Modelled from the spec: the builtins that must be assigned directly to a map. -/
def must_assign (func : Str) : Bool :=
  func ∈ ["hist".toList, "lhist".toList, "tseries".toList, "count".toList, "sum".toList,
    "min".toList, "max".toList, "avg".toList, "stats".toList]

/-- Modelled from the spec: the aggregation a call returns; for `sum`, `min`, `max`,
`avg` and `stats` it depends on the signedness of the operand. -/
def agg_kind (func : Str) (operand : Option SizedType) : Option AggKind :=
  let unsigned : Bool :=
    match operand with
    | some (SizedType.integer _ false) => true
    | _ => false
  if func = "count".toList then some AggKind.count
  else if func = "sum".toList then some (if unsigned then AggKind.usum else AggKind.sum)
  else if func = "min".toList then some (if unsigned then AggKind.umin else AggKind.min)
  else if func = "max".toList then some (if unsigned then AggKind.umax else AggKind.max)
  else if func = "avg".toList then some (if unsigned then AggKind.uavg else AggKind.avg)
  else if func = "stats".toList then
    some (if unsigned then AggKind.ustats else AggKind.stats)
  else if func = "hist".toList then some AggKind.hist
  else if func = "lhist".toList then some AggKind.lhist
  else if func = "tseries".toList then some AggKind.tseries
  else none

/-- Modelled from the spec: the type of a call: an aggregation for the aggregation
builtins, unresolved for the calls the model does not cover. -/
def return_type (func : Str) (arg_types : List SizedType) : SizedType :=
  match agg_kind func arg_types.head? with
  | some kind => SizedType.aggregation kind
  | none => SizedType.none

/-- Modelled from the spec: the type of an integer literal: `int64` when the value fits,
else `uint64`. -/
def literal_type (value : Int) : SizedType :=
  if value ≤ 9223372036854775807 then SizedType.integer 64 true
  else SizedType.integer 64 false

/-- Modelled from the spec: the least value of an integer type. -/
def int_min (bits : Nat) (signed : Bool) : Int :=
  if signed then -((2 : Int) ^ (bits - 1)) else 0

/-- Modelled from the spec: the greatest value of an integer type. -/
def int_max (bits : Nat) (signed : Bool) : Int :=
  if signed then (2 : Int) ^ (bits - 1) - 1 else (2 : Int) ^ bits - 1

/-- Modelled from the spec: map values of integer type are promoted to 64 bits. -/
def promote : SizedType → SizedType
  | SizedType.integer _ signed => SizedType.integer 64 signed
  | t => t

/-- Modelled from the spec: whether a value of type `value` may be stored where `stored`
was fixed: the same type, or two strings (the capacity widens). -/
def compatible (stored value : SizedType) : Bool :=
  match stored, value with
  | SizedType.string _, SizedType.string _ => true
  | a, b => decide (a = b)

/-- Modelled from the spec: the type kept after a compatible store: strings widen to the
larger capacity. -/
def widen (stored value : SizedType) : SizedType :=
  match stored, value with
  | SizedType.string a, SizedType.string b => SizedType.string (max a b)
  | a, _ => a

/-- Modelled from the spec: a use of a map: where, which map, with a key or without. -/
structure MapUse where
  loc : Nat
  name : Str
  keyed : Bool
  deriving DecidableEq

/-- Modelled from the spec: the error for a use that disagrees with the scalarity fixed
by the first use. -/
def scalar_error (u : MapUse) : Diag :=
  if u.keyed then
    error u.loc (u.name ++ (" used as a map with an explicit key (non-scalar map), " ++
      "previously used without an explicit key (scalar map)").toList)
  else
    error u.loc (u.name ++ (" used as a map without an explicit key (scalar map), " ++
      "previously used with an explicit key (non-scalar map)").toList)

/-- Modelled from the spec: a use of a map against the scalarity table: the first use
fixes the scalarity, a later use that disagrees is an error. -/
def use_map (u : MapUse) (scalar : Str → Option Bool) :
    (Str → Option Bool) × List Diag :=
  match scalar u.name with
  | none => (fun n => if n = u.name then some (!u.keyed) else scalar n, [])
  | some s => if s = !u.keyed then (scalar, []) else (scalar, [scalar_error u])

/-- Modelled from the spec: lookup in the scratch frames, innermost first. -/
def lookup_var : List (Str → Option VarInfo) → Str → Option VarInfo
  | [], _ => none
  | f :: fs, name =>
    match f name with
    | some info => some info
    | none => lookup_var fs name

/-- Modelled from the spec: replaces what the innermost frame that binds `name` holds. -/
def set_var : List (Str → Option VarInfo) → Str → VarInfo → List (Str → Option VarInfo)
  | [], _, _ => []
  | f :: fs, name, info =>
    if (f name).isSome then (fun n => if n = name then some info else f n) :: fs
    else f :: set_var fs name info

/-- Modelled from the spec: binds `name` in the innermost frame. -/
def bind_var : List (Str → Option VarInfo) → Str → VarInfo → List (Str → Option VarInfo)
  | [], name, info => [fun n => if n = name then some info else none]
  | f :: fs, name, info => (fun n => if n = name then some info else f n) :: fs

/-- Modelled from the spec: the builtins whose first argument names a map (call
checkers, and the tests `builtin_functions`, `call_delete`, `call_print`, `call_clear`,
`call_zero`, `call_len`, `call_has_key`). -/
def map_builtin (func : Str) : Bool :=
  func ∈ ["delete".toList, "print".toList, "clear".toList, "zero".toList, "len".toList,
    "has_key".toList]

/-- Modelled from the spec: what a call asks of the map its first argument names, when
it asks something: `some true` for a map with explicit keys, `some false` for a map
without. `delete(@m)` asks for a scalar map; `delete(@m, key)`, the older `delete(@m[key])`,
`len(@m)` and `has_key(@m, key)` ask for a non-scalar map; `print`, `clear` and `zero`
take both. -/
def expects_keys (func : Str) : List Expr → Option (Str × Bool)
  | [Expr.map _ name] =>
    if func = "delete".toList then some (name, false)
    else if func = "len".toList then some (name, true)
    else none
  | [Expr.map_access _ name _] =>
    if func = "delete".toList then some (name, true) else none
  | [Expr.map _ name, _] =>
    if func = "delete".toList ∨ func = "has_key".toList then some (name, true) else none
  | _ => none

/-- Modelled from the spec: the error of a call whose map argument names a map of the
other scalarity than the call expects; no error while the scalarity is not fixed. -/
def map_call_errors (loc : Nat) (func : Str) (args : List Expr)
    (scalar : Str → Option Bool) : List Diag :=
  match expects_keys func args with
  | some (name, true) =>
    if scalar name = some true then
      [error loc ("call to ".toList ++ func ++
        "() expects a map with explicit keys (non-scalar map)".toList)]
    else []
  | some (name, false) =>
    if scalar name = some false then
      [error loc ("call to ".toList ++ func ++
        "() expects a map without explicit keys (scalar map)".toList)]
    else []
  | none => []

mutual
/-- Modelled from the spec: the visit of an expression, bottom-up. `direct` says that the
expression is the right-hand side of an assignment to a map. Returns the scalarity
table, the diagnostics added and the type of the expression. -/
def visit_expr (value_type : Str → SizedType) (frames : List (Str → Option VarInfo))
    (direct : Bool) : Expr → (Str → Option Bool) → (Str → Option Bool) × List Diag × SizedType
  | Expr.integer value, scalar => (scalar, [], literal_type value)
  | Expr.string value, scalar => (scalar, [], SizedType.string (value.length + 1))
  | Expr.builtin _ type, scalar => (scalar, [], type)
  | Expr.variable loc name, scalar =>
    match lookup_var frames name with
    | some info => (scalar, [], info.type)
    | none =>
      (scalar, [error loc ("Undefined or undeclared variable: ".toList ++ name)],
        SizedType.none)
  | Expr.map loc name, scalar =>
    ((use_map ⟨loc, name, false⟩ scalar).1, (use_map ⟨loc, name, false⟩ scalar).2,
      value_type name)
  | Expr.map_access loc name key, scalar =>
    ((use_map ⟨loc, name, true⟩ (visit_expr value_type frames false key scalar).1).1,
      (visit_expr value_type frames false key scalar).2.1 ++
        (use_map ⟨loc, name, true⟩ (visit_expr value_type frames false key scalar).1).2,
      value_type name)
  | Expr.call loc func args, scalar =>
    if must_assign func = true ∧ direct = false then
      ((visit_args value_type frames func args scalar).1,
        (visit_args value_type frames func args scalar).2.1 ++
          [error loc (func ++ "() must be assigned directly to a map".toList)],
        SizedType.none)
    else
      ((visit_args value_type frames func args scalar).1,
        (visit_args value_type frames func args scalar).2.1 ++
          map_call_errors loc func args scalar,
        return_type func (visit_args value_type frames func args scalar).2.2)
  | Expr.cast type expr, scalar =>
    ((visit_expr value_type frames false expr scalar).1,
      (visit_expr value_type frames false expr scalar).2.1, type)
  | Expr.ternary cond left right, scalar =>
    ((visit_expr value_type frames false right
        (visit_expr value_type frames false left
          (visit_expr value_type frames false cond scalar).1).1).1,
      (visit_expr value_type frames false cond scalar).2.1 ++
        (visit_expr value_type frames false left
          (visit_expr value_type frames false cond scalar).1).2.1 ++
        (visit_expr value_type frames false right
          (visit_expr value_type frames false left
            (visit_expr value_type frames false cond scalar).1).1).2.1,
      (visit_expr value_type frames false left
        (visit_expr value_type frames false cond scalar).1).2.2)
/-- Modelled from the spec: the visit of the arguments of a call, left to right. -/
def visit_exprs (value_type : Str → SizedType) (frames : List (Str → Option VarInfo)) :
    List Expr → (Str → Option Bool) → (Str → Option Bool) × List Diag × List SizedType
  | [], scalar => (scalar, [], [])
  | e :: es, scalar =>
    ((visit_exprs value_type frames es (visit_expr value_type frames false e scalar).1).1,
      (visit_expr value_type frames false e scalar).2.1 ++
        (visit_exprs value_type frames es
          (visit_expr value_type frames false e scalar).1).2.1,
      (visit_expr value_type frames false e scalar).2.2 ::
        (visit_exprs value_type frames es
          (visit_expr value_type frames false e scalar).1).2.2)
/-- Modelled from the spec: the visit of the arguments of a call of `func`, left to
right. The first argument of a map builtin, when it is a map, names the map the call
works on: it is not a use of the map with or without a key, and does not touch the
scalarity table. So does the first argument `@m[key]` of the older form of `delete`,
whose key is visited. Every other argument is visited as an expression. -/
def visit_args (value_type : Str → SizedType) (frames : List (Str → Option VarInfo))
    (func : Str) :
    List Expr → (Str → Option Bool) → (Str → Option Bool) × List Diag × List SizedType
  | [], scalar => (scalar, [], [])
  | e :: es, scalar =>
    let whole : (Str → Option Bool) × List Diag × SizedType :=
      visit_expr value_type frames false e scalar
    let first : (Str → Option Bool) × List Diag × SizedType :=
      match e with
      | Expr.map _ name =>
        if map_builtin func = true then (scalar, [], value_type name) else whole
      | Expr.map_access _ name key =>
        if func = "delete".toList then
          ((visit_expr value_type frames false key scalar).1,
            (visit_expr value_type frames false key scalar).2.1, value_type name)
        else whole
      | _ => whole
    ((visit_exprs value_type frames es first.1).1,
      first.2.1 ++ (visit_exprs value_type frames es first.1).2.1,
      first.2.2 :: (visit_exprs value_type frames es first.1).2.2)
end

/-- Modelled from the spec: whether the type is an integer type. -/
def is_integer : SizedType → Bool
  | SizedType.integer _ _ => true
  | _ => false

/-- Modelled from the spec: the aggregations whose value an integer cast yields. -/
def castable : AggKind → Bool
  | AggKind.stats => false
  | AggKind.ustats => false
  | AggKind.hist => false
  | AggKind.lhist => false
  | AggKind.tseries => false
  | _ => true

/-- Modelled from the spec: the call the map-to-map error proposes for each kind. -/
def example_call : AggKind → Str
  | AggKind.count => "count()".toList
  | AggKind.sum => "sum(retval)".toList
  | AggKind.usum => "sum(retval)".toList
  | AggKind.min => "min(retval)".toList
  | AggKind.umin => "min(retval)".toList
  | AggKind.max => "max(retval)".toList
  | AggKind.umax => "max(retval)".toList
  | AggKind.avg => "avg(retval)".toList
  | AggKind.uavg => "avg(retval)".toList
  | AggKind.stats => "stats(arg2)".toList
  | AggKind.ustats => "stats(arg2)".toList
  | AggKind.hist => "hist(retval)".toList
  | AggKind.lhist => "lhist(rand %10, 0, 10, 1)".toList
  | AggKind.tseries => "tseries(rand %10, 10s, 1)".toList

/-- Modelled from the spec: the error for an aggregation read from the map `source` and
assigned to the map `dest`, with the hint to cast when a cast can give the value. -/
def map_to_map_error (loc : Nat) (dest source : Str) (kind : AggKind) : Diag :=
  ⟨TracepointFormatParser.Severity.error, loc,
    "Map value '".toList ++ typestr (SizedType.aggregation kind) ++
      ("' cannot be assigned from one map to another. " ++
        "The function that returns this type must be called directly e.g. `").toList ++
      dest ++ " = ".toList ++ example_call kind ++ ";`.".toList,
    if castable kind then
      some ("Add a cast to integer if you want the value of the aggregate, e.g. `".toList
        ++ dest ++ " = (int64)".toList ++ source ++ ";`.".toList)
    else none⟩

/-- Modelled from the spec: the error for a value of another type than the one the map or
variable `name` holds; `holder` is the wording for what holds it. -/
def mismatch_error (loc : Nat) (name : Str) (holder : Str) (value stored : SizedType) :
    Diag :=
  error loc ("Type mismatch for ".toList ++ name ++
    ": trying to assign value of type '".toList ++ typestr value ++ "' when ".toList ++
    holder ++ " '".toList ++ typestr stored ++ "'".toList)

/-- Modelled from the spec: the error for an integer literal outside the range of the
integer type the map or variable `name` holds. -/
def fit_error (loc : Nat) (name : Str) (value : Int) (holder : Str) (stored : SizedType) :
    Diag :=
  error loc ("Type mismatch for ".toList ++ name ++ ": trying to assign value '".toList ++
    to_string value ++ "' which does not fit into the ".toList ++ holder ++
    " of type '".toList ++ typestr stored ++ "'".toList)

/-- Modelled from the spec: the map and the kind when the right-hand side reads an
aggregation from a map. -/
def loaded_aggregation : Expr → SizedType → Option (Str × AggKind)
  | Expr.map _ source, SizedType.aggregation kind => some (source, kind)
  | Expr.map_access _ source _, SizedType.aggregation kind => some (source, kind)
  | _, _ => none

/-- Modelled from the spec: the integer literal the expression is, if it is one. -/
def literal_of : Expr → Option Int
  | Expr.integer value => some value
  | _ => none

/-- Modelled from the spec: an aggregation read from a map is cast to an integer when the
destination map holds integers and a cast can give the value; otherwise it is an error.
Returns the type of the value after that and the diagnostics. -/
def check_map_to_map (loc : Nat) (dest : Str) (rhs : Expr) (value stored : SizedType) :
    SizedType × List Diag :=
  match loaded_aggregation rhs value with
  | some (source, kind) =>
    if is_integer stored = true ∧ castable kind = true then (SizedType.integer 64 true, [])
    else (value, [map_to_map_error loc dest source kind])
  | none => (value, [])

/-- Modelled from the spec: the diagnostics for an integer literal assigned where the
integer type `integer bits signed` is fixed: a negative literal has a signed type, which
an unsigned holder does not take; any other literal must lie within the range. -/
def check_literal (loc : Nat) (name : Str) (holder already : Str) (bits : Nat)
    (signed : Bool) (value : Int) : List Diag :=
  if value < 0 ∧ signed = false then
    [mismatch_error loc name already (literal_type value) (SizedType.integer bits signed)]
  else if value < int_min bits signed ∨ int_max bits signed < value then
    [fit_error loc name value holder (SizedType.integer bits signed)]
  else []

/-- Modelled from the spec: the check of a value stored in the map `name`, whose value
type so far is `stored`: the first typed value fixes the type, later values must agree
with it. Returns the value type of the map afterwards and the diagnostics. -/
def check_map_value (loc : Nat) (name : Str) (stored value : SizedType)
    (literal : Option Int) : SizedType × List Diag :=
  if stored = SizedType.none then (promote value, [])
  else
    match stored, literal with
    | SizedType.integer bits signed, some v =>
      (stored, check_literal loc name "map".toList
        "map already contains a value of type".toList bits signed v)
    | _, _ =>
      if value = SizedType.none then (stored, [])
      else if compatible stored (promote value) = true then
        (widen stored (promote value), [])
      else
        (stored, [mismatch_error loc name "map already contains a value of type".toList
          (promote value) stored])

/-- Modelled from the spec: the type resolved for the value of a store: an integer
literal that is accepted takes the integer type of the map, any other value its own
promoted type. -/
def resolved_value (stored value : SizedType) (literal : Option Int) : SizedType :=
  match stored, literal with
  | SizedType.integer bits signed, some v =>
    if (check_literal 0 [] [] [] bits signed v).isEmpty then stored else promote value
  | _, _ => promote value

/-- Modelled from the spec: the check of a value assigned to the scratch variable `name`
that is bound to `info`. Returns what the variable is bound to afterwards and the
diagnostics. -/
def check_var_value (loc : Nat) (name : Str) (info : VarInfo) (value : SizedType)
    (literal : Option Int) : VarInfo × List Diag :=
  let already : Str :=
    if info.declared then "variable already has a type".toList
    else "variable already contains a value of type".toList
  if value = SizedType.none then (info, [])
  else if info.type = SizedType.none then ({ info with type := value }, [])
  else
    match info.type, literal, value with
    | SizedType.integer bits signed, some v, _ =>
      (info, check_literal loc name "variable".toList already bits signed v)
    | SizedType.integer bits signed, none, SizedType.integer bits2 signed2 =>
      if signed2 ≠ signed then (info, [mismatch_error loc name already value info.type])
      else if bits < bits2 then
        (info, [error loc ("Integer size mismatch. Assignment type '".toList ++
          typestr value ++ "' is larger than the variable type '".toList ++
          typestr info.type ++ "'.".toList)])
      else (info, [])
    | _, _, _ =>
      if compatible info.type value = true then
        ({ info with type := widen info.type value }, [])
      else (info, [mismatch_error loc name already value info.type])

/-- Modelled from the spec: `$name = rhs` once the right-hand side, of type `value`, has
been visited: the first assignment binds the variable in the innermost frame, a later
one is checked against the type the variable has. -/
def assign_var_value (loc : Nat) (name : Str) (rhs : Expr) (value : SizedType)
    (t : Analysis) : Analysis :=
  match lookup_var t.frames name with
  | none => { t with frames := bind_var t.frames name ⟨value, false, false⟩ }
  | some info =>
    { t with
      frames := set_var t.frames name (check_var_value loc name info value (literal_of rhs)).1
      diagnostics := t.diagnostics ++
        (check_var_value loc name info value (literal_of rhs)).2 }

/-- Modelled from the spec: `@name = rhs` once the right-hand side, of type `value`, the
key and the map itself have been visited: the map-to-map rule for aggregations, then the
check of the value type; the store is recorded with its resolved types. -/
def assign_map_value (loc : Nat) (name : Str) (rhs : Expr) (value : SizedType)
    (t : Analysis) : Analysis :=
  { t with
    value_type := fun n =>
      if n = name then
        (check_map_value loc name (t.value_type name)
          (check_map_to_map loc name rhs value (t.value_type name)).1 (literal_of rhs)).1
      else t.value_type n
    stores := t.stores ++
      [⟨loc, name, t.value_type name,
        resolved_value (t.value_type name)
          (check_map_to_map loc name rhs value (t.value_type name)).1 (literal_of rhs),
        literal_of rhs⟩]
    diagnostics := t.diagnostics ++
      (check_map_to_map loc name rhs value (t.value_type name)).2 ++
      (check_map_value loc name (t.value_type name)
        (check_map_to_map loc name rhs value (t.value_type name)).1 (literal_of rhs)).2 }

/-- Modelled from the spec: the visit of an expression in a statement: its diagnostics
join the sink, its map uses the scalarity table. Returns the type as well. -/
def visit_in (direct : Bool) (e : Expr) (t : Analysis) : Analysis × SizedType :=
  ({ t with
      scalar := (visit_expr t.value_type t.frames direct e t.scalar).1
      diagnostics := t.diagnostics ++ (visit_expr t.value_type t.frames direct e t.scalar).2.1 },
    (visit_expr t.value_type t.frames direct e t.scalar).2.2)

/-- Modelled from the spec: the use of the map on the left of an assignment. -/
def use_in (u : MapUse) (t : Analysis) : Analysis :=
  { t with
    scalar := (use_map u t.scalar).1
    diagnostics := t.diagnostics ++ (use_map u t.scalar).2 }

/-- Modelled from the spec: the visit of the optional key of an assignment to a map. -/
def visit_key (key : Option Expr) (t : Analysis) : Analysis :=
  match key with
  | some k => (visit_in false k t).1
  | none => t

/-- Modelled from the spec: `let $name [: type]`: a name that is already bound in an
enclosing frame is an error (no shadowing, declarations come first); otherwise the name
is bound in the innermost frame. -/
def declare_var (loc : Nat) (name : Str) (type : Option SizedType) (t : Analysis) :
    Analysis :=
  match lookup_var t.frames name with
  | some info =>
    { t with diagnostics := t.diagnostics ++
        [error loc
          (if info.by_let then
            "Variable ".toList ++ name ++
              " was already declared. Variable shadowing is not allowed.".toList
          else
            ("Variable declarations need to occur before variable usage or assignment. "
              ++ "Variable: ").toList ++ name)] }
  | none =>
    { t with frames := bind_var t.frames name ⟨type.getD SizedType.none, type.isSome, true⟩ }

mutual
/-- Modelled from the spec: the visit of a statement. -/
def visit_stmt : Stmt → Analysis → Analysis
  | Stmt.expr e, t => (visit_in false e t).1
  | Stmt.assign_map loc map_loc name key rhs, t =>
    assign_map_value loc name rhs (visit_in true rhs t).2
      (use_in ⟨map_loc, name, key.isSome⟩ (visit_key key (visit_in true rhs t).1))
  | Stmt.assign_var loc name rhs, t =>
    assign_var_value loc name rhs (visit_in false rhs t).2 (visit_in false rhs t).1
  | Stmt.var_decl loc name type init, t =>
    match init with
    | none => declare_var loc name type t
    | some rhs =>
      assign_var_value loc name rhs (visit_in false rhs (declare_var loc name type t)).2
        (visit_in false rhs (declare_var loc name type t)).1
  | Stmt.if_ cond then_block else_block, t =>
    let t1 := (visit_in false cond t).1
    let t2 := visit_block then_block { t1 with frames := (fun _ => none) :: t1.frames }
    let t3 := { t2 with frames := t2.frames.tail }
    let t4 := visit_block else_block { t3 with frames := (fun _ => none) :: t3.frames }
    { t4 with frames := t4.frames.tail }
/-- Modelled from the spec: the visit of the statements of a block, in order. -/
def visit_block : List Stmt → Analysis → Analysis
  | [], t => t
  | s :: rest, t => visit_block rest (visit_stmt s t)
end

/-- Modelled from the spec: the state before anything is analysed: no map, no variable,
no diagnostic. -/
def initial : Analysis :=
  ⟨fun _ => SizedType.none, fun _ => none, [fun _ => none], [], []⟩

/-- Modelled from the spec: the analysis of the probes of a program in order, one list
of statements per probe: maps are global, scratch variables are local to their probe. -/
def analyse_probes : List (List Stmt) → Analysis → Analysis
  | [], t => t
  | body :: rest, t =>
    analyse_probes rest (visit_block body { t with frames := [fun _ => none] })

/-- Modelled from the spec: the semantic analysis of a program. -/
def analyse (program : List (List Stmt)) : Analysis :=
  analyse_probes program initial

/-- Modelled from the spec: the program is considered failed if any error was emitted. -/
def failed (t : Analysis) : Bool :=
  t.diagnostics.any (fun d => decide (d.severity = TracepointFormatParser.Severity.error))

/-! ### The vocabulary of the properties -/

mutual
/-- The calls inside an expression, the expression itself included, each with its
location and the name of the function. -/
def Expr.calls : Expr → List (Nat × Str)
  | Expr.integer _ => []
  | Expr.string _ => []
  | Expr.builtin _ _ => []
  | Expr.variable _ _ => []
  | Expr.map _ _ => []
  | Expr.map_access _ _ key => key.calls
  | Expr.call loc func args => (loc, func) :: calls_of args
  | Expr.cast _ expr => expr.calls
  | Expr.ternary cond left right => cond.calls ++ left.calls ++ right.calls
/-- The calls inside the expressions of a list. -/
def calls_of : List Expr → List (Nat × Str)
  | [] => []
  | e :: es => e.calls ++ calls_of es
end

/-- The calls inside an expression that are not the expression itself. -/
def Expr.calls_below : Expr → List (Nat × Str)
  | Expr.call _ _ args => calls_of args
  | e => e.calls

/-- The calls inside an optional expression. -/
def calls_in : Option Expr → List (Nat × Str)
  | some e => e.calls
  | none => []

mutual
/-- The calls of a statement that are not the right-hand side of an assignment to a
map: those of an expression statement, of the right-hand side of an assignment to a
variable, of the initial value of a `let`, of a map key, of an `if` condition, and those
below the right-hand side of an assignment to a map (the operands of a ternary, the
arguments of the call). -/
def Stmt.misplaced_calls : Stmt → List (Nat × Str)
  | Stmt.expr e => e.calls
  | Stmt.assign_map _ _ _ key rhs => rhs.calls_below ++ calls_in key
  | Stmt.assign_var _ _ rhs => rhs.calls
  | Stmt.var_decl _ _ _ init => calls_in init
  | Stmt.if_ cond then_block else_block =>
    cond.calls ++ block_misplaced_calls then_block ++ block_misplaced_calls else_block
/-- The misplaced calls of the statements of a block. -/
def block_misplaced_calls : List Stmt → List (Nat × Str)
  | [] => []
  | s :: rest => s.misplaced_calls ++ block_misplaced_calls rest
end

/-- The misplaced calls of a program. -/
def program_misplaced_calls : List (List Stmt) → List (Nat × Str)
  | [] => []
  | body :: rest => block_misplaced_calls body ++ program_misplaced_calls rest

mutual
/-- The uses of maps in an expression, in the order the analyser meets them. -/
def Expr.uses : Expr → List MapUse
  | Expr.integer _ => []
  | Expr.string _ => []
  | Expr.builtin _ _ => []
  | Expr.variable _ _ => []
  | Expr.map loc name => [⟨loc, name, false⟩]
  | Expr.map_access loc name key => key.uses ++ [⟨loc, name, true⟩]
  | Expr.call _ func args => args_uses func args
  | Expr.cast _ expr => expr.uses
  | Expr.ternary cond left right => cond.uses ++ left.uses ++ right.uses
/-- The uses of maps in the expressions of a list. -/
def uses_of : List Expr → List MapUse
  | [] => []
  | e :: es => e.uses ++ uses_of es
/-- The uses of maps in the arguments of a call of `func`: the map the first argument of
a map builtin names (`@m` in `delete(@m)`, `print(@m)`, `clear(@m)`, `zero(@m)`,
`len(@m)`, `has_key(@m, key)`, `delete(@m, key)` and `delete(@m[key])`) is not a use with
or without a key; the uses inside the key of `delete(@m[key])` and in every other
argument count. -/
def args_uses (func : Str) : List Expr → List MapUse
  | [] => []
  | e :: es =>
    let whole : List MapUse := e.uses
    (match e with
      | Expr.map _ _ => if map_builtin func = true then [] else whole
      | Expr.map_access _ _ key => if func = "delete".toList then key.uses else whole
      | _ => whole) ++ uses_of es
end

/-- The uses of maps in an optional expression. -/
def uses_in : Option Expr → List MapUse
  | some e => e.uses
  | none => []

mutual
/-- The uses of maps in a statement, in the order the analyser meets them: for an
assignment to a map the right-hand side, then the key, then the map assigned. -/
def Stmt.uses : Stmt → List MapUse
  | Stmt.expr e => e.uses
  | Stmt.assign_map _ map_loc name key rhs =>
    rhs.uses ++ uses_in key ++ [⟨map_loc, name, key.isSome⟩]
  | Stmt.assign_var _ _ rhs => rhs.uses
  | Stmt.var_decl _ _ _ init => uses_in init
  | Stmt.if_ cond then_block else_block =>
    cond.uses ++ block_uses then_block ++ block_uses else_block
/-- The uses of maps in the statements of a block. -/
def block_uses : List Stmt → List MapUse
  | [] => []
  | s :: rest => s.uses ++ block_uses rest
end

/-- The scalarity table after a sequence of uses. -/
def track : List MapUse → (Str → Option Bool) → (Str → Option Bool)
  | [], scalar => scalar
  | u :: rest, scalar => track rest (use_map u scalar).1

/-- The scalarity errors of a sequence of uses. -/
def scalar_diags : List MapUse → (Str → Option Bool) → List Diag
  | [], _ => []
  | u :: rest, scalar => (use_map u scalar).2 ++ scalar_diags rest (use_map u scalar).1

mutual
/-- The assignments to maps in a statement, in order: the location, the map and the
literal on the right-hand side of each. -/
def Stmt.assignments : Stmt → List (Nat × Str × Option Int)
  | Stmt.expr _ => []
  | Stmt.assign_map loc _ name _ rhs => [(loc, name, literal_of rhs)]
  | Stmt.assign_var _ _ _ => []
  | Stmt.var_decl _ _ _ _ => []
  | Stmt.if_ _ then_block else_block =>
    block_assignments then_block ++ block_assignments else_block
/-- The assignments to maps in the statements of a block. -/
def block_assignments : List Stmt → List (Nat × Str × Option Int)
  | [] => []
  | s :: rest => s.assignments ++ block_assignments rest
end

/-- The value type the first store with a resolved type fixes for the map `name`, among
the stores given; `none` when there is no such store. -/
def fixed (name : Str) : List Store → SizedType
  | [] => SizedType.none
  | s :: rest =>
    if s.name = name ∧ s.value ≠ SizedType.none then s.value else fixed name rest

/-- The errors a store calls for, given the type the map already contained. -/
def store_errors (s : Store) : List Diag :=
  if s.previous = SizedType.none then []
  else
    match s.previous, s.literal with
    | SizedType.integer bits signed, some v =>
      check_literal s.loc s.name "map".toList
        "map already contains a value of type".toList bits signed v
    | _, _ =>
      if s.value = SizedType.none then []
      else if compatible s.previous s.value = true then []
      else
        [mismatch_error s.loc s.name "map already contains a value of type".toList
          s.value s.previous]

/-- The analysis `after` continues the analysis `before` through the uses of maps `uses`:
its scalarity table is the one the uses lead to, it keeps the diagnostics of `before` and
holds the scalarity errors of the uses. -/
def Follows (uses : List MapUse) (before after : Analysis) : Prop :=
  after.scalar = track uses before.scalar ∧
    (∀ d ∈ before.diagnostics, d ∈ after.diagnostics) ∧
    ∀ d ∈ scalar_diags uses before.scalar, d ∈ after.diagnostics


/-- The stores of the analysis are consistent: the type each map holds agrees with the
type its first typed store fixed; at every store the type the map already contained
agreed with the type fixed before; the value of every store was resolved against the
type the map already contained, and the errors the store calls for were reported. -/
def Sound (t : Analysis) : Prop :=
  (∀ name, compatible (fixed name t.stores) (t.value_type name) = true) ∧
    (∀ pre s post, t.stores = pre ++ s :: post →
      compatible (fixed s.name pre) s.previous = true) ∧
    ∀ s ∈ t.stores,
      (∃ value, s.value = resolved_value s.previous value s.literal) ∧
        ∀ d ∈ store_errors s, d ∈ t.diagnostics


/-- The assignment a store decorates: its location, the map and the literal on the
right-hand side. -/
def Store.site (s : Store) : Nat × Str × Option Int :=
  (s.loc, s.name, s.literal)


end SemanticAnalyser

/-! ## `bfd-disasm.cpp`: `is_aligned_buf`

* `uint64_t` values are natural numbers below `2 ^ 64`; the addition on them wraps.
* The disassembler set up for the buffer is a function from the position to the `int`
  that `disassemble(pc, &info)` returns there.
* The `do ... while` loop runs on fuel: `none` stands for a loop that has not ended
  when the fuel is used up.
-/

/-- The values of `AlignState` (declared in `bfd-disasm.h`) that `is_aligned_buf` returns. -/
inductive AlignState where
  | Ok
  | NotAlign
  | Fail
  deriving DecidableEq

/-- What `is_aligned_buf` reads from outside `bfd-disasm.cpp`: `util::get_pid_exe("self")`,
whether `bfd_openr` gives a handle for a path, whether `bfd_check_format` accepts it, and
what the disassembler returns at each position of the buffer. -/
structure Bfd where
  get_pid_exe : Option Str
  bfd_openr : Str → Bool
  bfd_check_format : Str → Bool
  disassemble : Nat → Int

/-- Embedding of `static_cast<uint64_t>(count)`. -/
def to_uint64 (count : Int) : Nat :=
  (count % 18446744073709551616).toNat

/-- The `do ... while` loop of `is_aligned_buf`, entered with the given `pc`; `none` when
the fuel runs out before the loop ends. -/
def is_aligned_loop (disassemble : Nat → Int) (size offset : Nat) :
    Nat → Nat → Option AlignState
  | 0, _ => none
  | fuel + 1, pc =>
    let count := disassemble pc
    let pc := (pc + to_uint64 count) % 18446744073709551616
    if pc = offset then some AlignState.Ok
    else if 0 < to_uint64 count ∧ pc < size ∧ pc < offset then
      is_aligned_loop disassemble size offset fuel pc
    else some AlignState.NotAlign

/-- Embedding of `is_aligned_buf(buf, size, offset)`, the buffer being seen through the
disassembler. -/
def is_aligned_buf (bfd : Bfd) (size offset : Nat) (fuel : Nat) : Option AlignState :=
  match bfd.get_pid_exe with
  | none => some AlignState.Fail
  | some tpath =>
    if bfd.bfd_openr tpath = false then some AlignState.Fail
    else if bfd.bfd_check_format tpath = false then some AlignState.Fail
    else is_aligned_loop bfd.disassemble size offset fuel 0

/-- The instruction boundaries reached by decoding from `start`: the first is `start` plus
the length of the instruction at `start`, each next one adds the length of the
instruction at the previous one. -/
def boundary (disassemble : Nat → Int) (start : Nat) : Nat → Nat
  | 0 => start + (disassemble start).toNat
  | k + 1 => boundary disassemble start k + (disassemble (boundary disassemble start k)).toNat

/-- A binary that opens, with instructions of 3 bytes at the positions divisible by 8 and
of 5 bytes elsewhere: the boundaries from 0 are 3, 8, 11, 16, ... -/
def sample_bfd : Bfd :=
  ⟨some "/proc/self/exe".toList, fun _ => true, fun _ => true,
    fun pc => if pc % 8 = 0 then 3 else 5⟩

/-- A binary that opens, all of whose instructions have the same length. -/
def uniform_bfd (length : Int) : Bfd :=
  ⟨some "/proc/self/exe".toList, fun _ => true, fun _ => true, fun _ => length⟩


end bpftrace

open bpftrace bpftrace.TracepointFormatParser

namespace bpftrace

theorem find_at_skip (h : Char) (nt : Str) (P R : Str) (hP : h ∉ P) :
    find_at (h :: nt) (P ++ (h :: nt) ++ R) = some P.length := by
  induction P with
  | nil =>
    simp [find_at]
  | cons c P ih =>
    have hc : h ≠ c := by
      intro e; apply hP; simp [e]
    have hP2 : h ∉ P := by
      intro e; apply hP; simp [e]
    have ih2 := ih hP2
    simp only [List.append_assoc, List.cons_append] at ih2
    simp [find_at, hc, ih2]

theorem find_append (A B needle : Str) :
    find (A ++ B) needle A.length = (find_at needle B).map (· + A.length) := by
  simp [find]

theorem find_skip (A P R : Str) (h : Char) (nt : Str) (hP : h ∉ P) (n : Nat)
    (hn : n = A.length) :
    find (A ++ (P ++ (h :: nt) ++ R)) (h :: nt) n = some (n + P.length) := by
  subst hn
  rw [find_append, find_at_skip h nt P R hP]
  simp [Nat.add_comm]

theorem substr_mid (A B C : Str) (n m : Nat) (hn : n = A.length) (hm : m = B.length) :
    substr (A ++ (B ++ C)) n m = B := by
  subst hn; subst hm
  simp [substr]

theorem find_last_of_none (chars N : Str) (hN : ∀ c ∈ N, c ∉ chars) :
    find_last_of chars N = none := by
  induction N with
  | nil => rfl
  | cons c N ih =>
    have h1 : c ∉ chars := hN c (by simp)
    have h2 : find_last_of chars N = none := ih (fun d hd => hN d (by simp [hd]))
    simp [find_last_of, h1, h2]

theorem find_last_of_split (chars T N : Str) (c : Char) (hc : c ∈ chars)
    (hN : ∀ d ∈ N, d ∉ chars) :
    find_last_of chars (T ++ c :: N) = some T.length := by
  induction T with
  | nil => simp [find_last_of, find_last_of_none chars N hN, hc]
  | cons t T ih => simp [find_last_of, ih]

theorem isdigit_not_space (c : Char) (h : isdigit c = true) : isspace c = false := by
  unfold isspace
  unfold isdigit at h
  simp only [Bool.and_eq_true, decide_eq_true_eq] at h
  have h0 : '0'.toNat = 48 := by decide
  have h9 : '9'.toNat = 57 := by decide
  rw [h0, h9] at h
  have e1 : c ≠ ' ' := by intro e; subst e; revert h; decide
  have e2 : c ≠ '\t' := by intro e; subst e; revert h; decide
  have e3 : c ≠ '\n' := by intro e; subst e; revert h; decide
  have e4 : c ≠ '\x0b' := by intro e; subst e; revert h; decide
  have e5 : c ≠ '\x0c' := by intro e; subst e; revert h; decide
  have e6 : c ≠ '\r' := by intro e; subst e; revert h; decide
  simp [e1, e2, e3, e4, e5, e6]

theorem isdigit_not_sign (c : Char) (h : isdigit c = true) : c ≠ '-' ∧ c ≠ '+' := by
  unfold isdigit at h
  simp only [Bool.and_eq_true, decide_eq_true_eq] at h
  constructor
  · intro e; subst e; revert h; decide
  · intro e; subst e; revert h; decide

theorem stoi_digits (ds : Str) (hne : ds ≠ []) (hd : ∀ c ∈ ds, isdigit c = true)
    (hmax : (decimal ds : Int) ≤ INT_MAX) : stoi ds = Except.ok (decimal ds : Int) := by
  cases ds with
  | nil => exact absurd rfl hne
  | cons d t =>
    have hd0 : isdigit d = true := hd d (by simp)
    have hsp := isdigit_not_space d hd0
    have hsg := isdigit_not_sign d hd0
    have htw : List.takeWhile isdigit (d :: t) = d :: t := by
      rw [List.takeWhile_eq_self_iff]
      exact hd
    have hmin : ¬ ((decimal (d :: t) : Int) < INT_MIN) := by
      have : (0 : Int) ≤ (decimal (d :: t) : Int) := Int.ofNat_nonneg _
      unfold INT_MIN
      omega
    have hdw : List.dropWhile isspace (d :: t) = d :: t := by
      simp [List.dropWhile_cons, hsp]
    have hsn : stoi_sign (d :: t) = (false, d :: t) := by
      unfold stoi_sign
      split
      · rename_i heq; exact absurd (List.cons.inj heq).1 hsg.1
      · rename_i heq; exact absurd (List.cons.inj heq).1 hsg.2
      · rfl
    unfold stoi
    rw [hdw, hsn]
    simp [htw, hmin, not_lt.mpr hmax]

theorem blank_not_mem (s : Str) (h : is_blank s = true) (c : Char) (h1 : c ≠ ' ')
    (h2 : c ≠ '\t') : c ∉ s := by
  intro hc
  unfold is_blank at h
  rw [List.all_eq_true] at h
  have := h c hc
  simp [h1, h2] at this

theorem digits_not_mem (s : Str) (h : s.all isdigit = true) (c : Char)
    (hc : isdigit c = false) : c ∉ s := by
  intro hm
  rw [List.all_eq_true] at h
  have := h c hm
  rw [hc] at this
  exact Bool.noConfusion this

/-- The scan of a well-formed line: the three numbers and the field text that
`parse_field` extracts. -/
theorem scan_well_formed (f : FieldLine) (hf : f.well_formed = true) :
    ∃ p1 p2 p3 p4 p5 p6 : Nat,
      find f.text "field:".toList 0 = some p1 ∧
      find_char f.text ';' p1 = some p2 ∧
      find f.text "offset:".toList p2 = some p3 ∧
      find_char f.text ';' p3 = some p4 ∧
      find f.text "size:".toList p4 = some p5 ∧
      find_char f.text ';' p5 = some p6 ∧
      substr f.text (p5 + 5) (p6 - p5 - 5) = f.size ∧
      substr f.text (p3 + 7) (p4 - p3 - 7) = f.offset ∧
      substr f.text (p1 + 6) (p2 - p1 - 6) = f.type ++ ' ' :: f.name := by
  unfold FieldLine.well_formed at hf
  simp only [Bool.and_eq_true, Bool.not_eq_true', List.contains_eq_any_beq] at hf
  obtain ⟨⟨⟨⟨⟨⟨⟨⟨hpre, hmid1⟩, hmid2⟩, hts⟩, hns⟩, hnb⟩, hnt⟩, hoff⟩, hsz⟩ := hf
  unfold is_number at hoff hsz
  simp only [Bool.and_eq_true, Bool.not_eq_true', decide_eq_true_eq] at hoff hsz
  have hts2 : ';' ∉ f.type := by
    intro h; rw [List.any_eq_false] at hts; exact hts _ h (by simp)
  have hns2 : ';' ∉ f.name := by
    intro h; rw [List.any_eq_false] at hns; exact hns _ h (by simp)
  have hod : ';' ∉ f.offset := digits_not_mem _ hoff.1.2 _ (by decide)
  have hsd : ';' ∉ f.size := digits_not_mem _ hsz.1.2 _ (by decide)
  have kf : "field:".toList = ['f', 'i', 'e', 'l', 'd', ':'] := rfl
  have ko : "offset:".toList = ['o', 'f', 'f', 's', 'e', 't', ':'] := rfl
  have ks : "size:".toList = ['s', 'i', 'z', 'e', ':'] := rfl
  have k1 : ";".toList = [';'] := rfl
  have k2 : " ".toList = [' '] := rfl
  refine ⟨f.pre.length, f.pre.length + (6 + f.type.length + 1 + f.name.length),
    f.pre.length + (6 + f.type.length + 1 + f.name.length) + (1 + f.mid1.length),
    f.pre.length + (6 + f.type.length + 1 + f.name.length) + (1 + f.mid1.length)
      + (7 + f.offset.length),
    f.pre.length + (6 + f.type.length + 1 + f.name.length) + (1 + f.mid1.length)
      + (7 + f.offset.length) + (1 + f.mid2.length),
    f.pre.length + (6 + f.type.length + 1 + f.name.length) + (1 + f.mid1.length)
      + (7 + f.offset.length) + (1 + f.mid2.length) + (5 + f.size.length),
    ?_, ?_, ?_, ?_, ?_, ?_, ?_, ?_, ?_⟩
  · have e : f.text = [] ++ (f.pre ++ ('f' :: ['i', 'e', 'l', 'd', ':']) ++
        (f.type ++ ' ' :: f.name ++ ';' :: f.mid1 ++ "offset:".toList ++ f.offset ++
          ';' :: f.mid2 ++ "size:".toList ++ f.size ++ ';' :: f.rest)) := by
      simp [FieldLine.text, kf, k1, k2]
    rw [e, kf]
    have := find_skip [] f.pre (f.type ++ ' ' :: f.name ++ ';' :: f.mid1 ++ "offset:".toList
      ++ f.offset ++ ';' :: f.mid2 ++ "size:".toList ++ f.size ++ ';' :: f.rest) 'f'
      ['i', 'e', 'l', 'd', ':'] (blank_not_mem _ hpre _ (by decide) (by decide)) 0 rfl
    simpa using this
  · have e : f.text = f.pre ++ ((['f', 'i', 'e', 'l', 'd', ':'] ++ f.type ++ ' ' :: f.name)
        ++ (';' :: []) ++ (f.mid1 ++ "offset:".toList ++ f.offset ++
          ';' :: f.mid2 ++ "size:".toList ++ f.size ++ ';' :: f.rest)) := by
      simp [FieldLine.text, kf, k1, k2]
    have hP : ';' ∉ (['f', 'i', 'e', 'l', 'd', ':'] ++ f.type ++ ' ' :: f.name) := by
      simp [hts2, hns2]
    unfold find_char
    rw [e, find_skip _ _ _ ';' [] hP _ rfl]
    simp
    omega
  · have e : f.text = (f.pre ++ "field:".toList ++ f.type ++ ' ' :: f.name) ++
        ((';' :: f.mid1) ++ ('o' :: ['f', 'f', 's', 'e', 't', ':']) ++ (f.offset ++
          ';' :: f.mid2 ++ "size:".toList ++ f.size ++ ';' :: f.rest)) := by
      simp [FieldLine.text, ko, k1, k2]
    have hP : 'o' ∉ (';' :: f.mid1) := by
      have := blank_not_mem _ hmid1 'o' (by decide) (by decide)
      simp [this]
    rw [e, ko, find_skip _ _ _ 'o' _ hP _ (by simp [kf]; omega)]
    simp
    try omega
  · have e : f.text = (f.pre ++ "field:".toList ++ f.type ++ ' ' :: f.name ++ ';' :: f.mid1)
        ++ ((['o', 'f', 'f', 's', 'e', 't', ':'] ++ f.offset) ++ (';' :: []) ++
          (f.mid2 ++ "size:".toList ++ f.size ++ ';' :: f.rest)) := by
      simp [FieldLine.text, ko, k1, k2]
    have hP : ';' ∉ (['o', 'f', 'f', 's', 'e', 't', ':'] ++ f.offset) := by
      simp [hod]
    unfold find_char
    rw [e, find_skip _ _ _ ';' [] hP _ (by simp [kf]; omega)]
    simp
    try omega
  · have e : f.text = (f.pre ++ "field:".toList ++ f.type ++ ' ' :: f.name ++ ';' :: f.mid1
        ++ "offset:".toList ++ f.offset) ++ ((';' :: f.mid2) ++ ('s' :: ['i', 'z', 'e', ':'])
          ++ (f.size ++ ';' :: f.rest)) := by
      simp [FieldLine.text, ks, k1, k2]
    have hP : 's' ∉ (';' :: f.mid2) := by
      have := blank_not_mem _ hmid2 's' (by decide) (by decide)
      simp [this]
    rw [e, ks, find_skip _ _ _ 's' _ hP _ (by simp [kf, ko]; omega)]
    simp
    try omega
  · have e : f.text = (f.pre ++ "field:".toList ++ f.type ++ ' ' :: f.name ++ ';' :: f.mid1
        ++ "offset:".toList ++ f.offset ++ ';' :: f.mid2) ++ ((['s', 'i', 'z', 'e', ':'] ++
          f.size) ++ (';' :: []) ++ f.rest) := by
      simp [FieldLine.text, ks, k1, k2]
    have hP : ';' ∉ (['s', 'i', 'z', 'e', ':'] ++ f.size) := by
      simp [hsd]
    unfold find_char
    rw [e, find_skip _ _ _ ';' [] hP _ (by simp [kf, ko]; omega)]
    simp
    try omega
  · have e : f.text = (f.pre ++ "field:".toList ++ f.type ++ ' ' :: f.name ++ ';' :: f.mid1
        ++ "offset:".toList ++ f.offset ++ ';' :: f.mid2 ++ "size:".toList) ++
          (f.size ++ (';' :: f.rest)) := by
      simp [FieldLine.text, k1, k2]
    rw [e]
    exact substr_mid _ _ _ _ _ (by simp [kf, ko, ks]; omega) (by omega)
  · have e : f.text = (f.pre ++ "field:".toList ++ f.type ++ ' ' :: f.name ++ ';' :: f.mid1
        ++ "offset:".toList) ++ (f.offset ++ (';' :: f.mid2 ++ "size:".toList ++ f.size ++
          ';' :: f.rest)) := by
      simp [FieldLine.text, k1, k2]
    rw [e]
    exact substr_mid _ _ _ _ _ (by simp [kf, ko]; omega) (by omega)
  · have e : f.text = (f.pre ++ "field:".toList) ++ ((f.type ++ ' ' :: f.name) ++
        (';' :: f.mid1 ++ "offset:".toList ++ f.offset ++ ';' :: f.mid2 ++ "size:".toList ++
          f.size ++ ';' :: f.rest)) := by
      simp [FieldLine.text, k1, k2]
    rw [e]
    exact substr_mid _ _ _ _ _ (by simp [kf]) (by simp; omega)

theorem substr_type (T N : Str) (c : Char) : substr (T ++ c :: N) 0 T.length = T := by
  simp [substr]

theorem substr_from_name (T N : Str) (c : Char) :
    substr_from (T ++ c :: N) (T.length + 1) = N := by
  have : T ++ c :: N = (T ++ [c]) ++ N := by simp
  rw [substr_from, this]
  exact List.drop_left' (by simp)

/-- The result of `parse_field` on a well-formed line. -/
theorem parse_field_well_formed (f : FieldLine) (hf : f.well_formed = true)
    (last_offset : Int) (btf_set : List Str) :
    parse_field f.text last_offset btf_set = Except.ok
      ⟨f.extra last_offset ++ "  ".toList ++ f.emitted_type ++ " ".toList ++ f.name
          ++ ";\n".toList,
        wrap32 (f.offset_value + f.size_value), f.recorded btf_set⟩ := by
  obtain ⟨p1, p2, p3, p4, p5, p6, h1, h2, h3, h4, h5, h6, h7, h8, h9⟩ :=
    scan_well_formed f hf
  unfold FieldLine.well_formed at hf
  simp only [Bool.and_eq_true, Bool.not_eq_true', List.contains_eq_any_beq] at hf
  obtain ⟨⟨⟨⟨⟨⟨⟨⟨_, _⟩, _⟩, _⟩, _⟩, hnb⟩, hnt⟩, hoff⟩, hsz⟩ := hf
  unfold is_number at hoff hsz
  simp only [Bool.and_eq_true, Bool.not_eq_true', decide_eq_true_eq] at hoff hsz
  have so := stoi_digits f.offset (by intro e; simp [e] at hoff)
    (by have := hoff.1.2; rw [List.all_eq_true] at this; exact this) hoff.2
  have ss := stoi_digits f.size (by intro e; simp [e] at hsz)
    (by have := hsz.1.2; rw [List.all_eq_true] at this; exact this) hsz.2
  have hl : find_last_of "\t ".toList (f.type ++ ' ' :: f.name) = some f.type.length := by
    apply find_last_of_split
    · decide
    · intro d hd hmem
      have hm : d = '\t' ∨ d = ' ' := by
        have : "\t ".toList = ['\t', ' '] := rfl
        rw [this] at hmem
        simpa using hmem
      rw [List.any_eq_false] at hnb hnt
      rcases hm with e | e
      · exact hnt d hd (by simp [e])
      · exact hnb d hd (by simp [e])
  unfold parse_field
  simp only [h1, h2, h3, h4, h5, h6, h7, h8, h9, so, ss, hl, substr_type, substr_from_name]
  rfl

theorem read_fields_eq (lines : List Str) (acc : Str) (last_offset : Int)
    (btf_set : List Str) :
    read_fields lines acc last_offset btf_set =
      match fields_text lines last_offset btf_set with
      | Except.error e => Except.error e
      | Except.ok (body, set) => Except.ok (acc ++ body, set) := by
  induction lines generalizing acc last_offset btf_set with
  | nil => simp [read_fields, fields_text]
  | cons line rest ih =>
    unfold read_fields fields_text
    cases h : parse_field line last_offset btf_set with
    | error e => rfl
    | ok r =>
      simp only [ih]
      cases h2 : fields_text rest r.last_offset r.btf_set with
      | error e => rfl
      | ok b => simp

theorem parse_field_no_field (line : Str) (h : find line "field:".toList 0 = none)
    (last_offset : Int) (btf_set : List Str) :
    parse_field line last_offset btf_set = Except.ok ⟨[], last_offset, btf_set⟩ := by
  unfold parse_field
  simp only [h]

theorem fields_text_no_field (lines : List Str)
    (h : ∀ line ∈ lines, find line "field:".toList 0 = none)
    (last_offset : Int) (btf_set : List Str) :
    fields_text lines last_offset btf_set = Except.ok ([], btf_set) := by
  induction lines with
  | nil => rfl
  | cons line rest ih =>
    unfold fields_text
    rw [parse_field_no_field line (h line (by simp))]
    simp only [ih (fun l hl => h l (by simp [hl]))]
    rfl

theorem get_tracepoint_struct_eq (category event_name : Str) (format_file : List Str)
    (btf_set : List Str) :
    get_tracepoint_struct format_file category event_name btf_set =
      match fields_text format_file 0 btf_set with
      | Except.error e => Except.error e
      | Except.ok (body, set) =>
        Except.ok ("struct _tracepoint_".toList ++ category ++ "_".toList ++ event_name
          ++ "\n\x7b\n".toList ++ body ++ "\x7d;\n".toList, set) := by
  unfold get_tracepoint_struct
  simp only [read_fields_eq]
  cases h : fields_text format_file 0 btf_set with
  | error e => rfl
  | ok b => simp [get_struct_name]

/-- C1: `get_tracepoint_struct` returns `struct _tracepoint_<category>_<event>`, then
`\n{\n`, then the concatenation in file order of what `parse_field` returns for each
line (with `last_offset` threaded from 0, an exception of `parse_field` passing through),
then `};\n`; a file without any `field:` line gives the declaration with an empty
body. -/
theorem get_tracepoint_struct_shape (category event_name : Str) (format_file : List Str)
    (btf_set : List Str) :
    (get_tracepoint_struct format_file category event_name btf_set =
      match fields_text format_file 0 btf_set with
      | Except.error e => Except.error e
      | Except.ok (body, set) =>
        Except.ok ("struct _tracepoint_".toList ++ category ++ "_".toList ++ event_name
          ++ "\n\x7b\n".toList ++ body ++ "\x7d;\n".toList, set)) ∧
    get_struct_name category event_name =
      "struct _tracepoint_".toList ++ category ++ "_".toList ++ event_name ∧
    ((∀ line ∈ format_file, find line "field:".toList 0 = none) →
      get_tracepoint_struct format_file category event_name btf_set =
        Except.ok (get_struct_name category event_name ++ "\n\x7b\n".toList ++ "\x7d;\n".toList,
          btf_set)) := by
  have main := get_tracepoint_struct_eq category event_name format_file btf_set
  refine ⟨main, rfl, ?_⟩
  intro h
  rw [main, fields_text_no_field format_file h]
  simp [get_struct_name]

/-- C1 at a format file: the header lines carry no field, the two field lines do. -/
theorem get_tracepoint_struct_shape_witness :
    (∀ line ∈ ["name: sched_switch".toList, "format:".toList],
      find line "field:".toList 0 = none) ∧
    get_tracepoint_struct ["name: sched_switch".toList, "format:".toList]
      "sched".toList "sched_switch".toList [] =
        Except.ok ("struct _tracepoint_sched_sched_switch\n\x7b\n\x7d;\n".toList, []) :=
  ⟨by decide,
   (get_tracepoint_struct_shape "sched".toList "sched_switch".toList
      ["name: sched_switch".toList, "format:".toList] []).2.2 (by decide)⟩

/-- C4: with size 8, `adjust_integer_types` maps `int` to `s64` and each of
`unsigned int`, `unsigned`, `u32`, `pid_t`, `uid_t`, `gid_t` to `u64`. -/
theorem adjust_integer_types_table :
    adjust_integer_types "int".toList 8 = "s64".toList ∧
    adjust_integer_types "unsigned int".toList 8 = "u64".toList ∧
    adjust_integer_types "unsigned".toList 8 = "u64".toList ∧
    adjust_integer_types "u32".toList 8 = "u64".toList ∧
    adjust_integer_types "pid_t".toList 8 = "u64".toList ∧
    adjust_integer_types "uid_t".toList 8 = "u64".toList ∧
    adjust_integer_types "gid_t".toList 8 = "u64".toList := by
  decide

/-- C5: `adjust_integer_types` returns its input unchanged for every type outside the
seven table entries at every size, and for every type at every size other than 8. -/
theorem adjust_integer_types_unchanged (field_type : Str) (size : Int)
    (h : (field_type ≠ "int".toList ∧ field_type ≠ "unsigned int".toList ∧
        field_type ≠ "unsigned".toList ∧ field_type ≠ "u32".toList ∧
        field_type ≠ "pid_t".toList ∧ field_type ≠ "uid_t".toList ∧
        field_type ≠ "gid_t".toList) ∨ size ≠ 8) :
    adjust_integer_types field_type size = field_type := by
  unfold adjust_integer_types
  rcases h with ⟨h1, h2, h3, h4, h5, h6, h7⟩ | h
  · simp only [h1, h2, h3, h4, h5, h6, h7, if_false, or_self, ite_self]
  · simp only [h, if_false]

/-- C5 at `long long unsigned int` with size 8 and at `int` with size 4. -/
theorem adjust_integer_types_unchanged_witness :
    adjust_integer_types "long long unsigned int".toList 8 = "long long unsigned int".toList ∧
    adjust_integer_types "int".toList 4 = "int".toList :=
  ⟨adjust_integer_types_unchanged "long long unsigned int".toList 8 (Or.inl (by decide)),
   adjust_integer_types_unchanged "int".toList 4 (Or.inr (by decide))⟩

theorem wrap32_id (x : Int) (h1 : INT_MIN ≤ x) (h2 : x ≤ INT_MAX) : wrap32 x = x := by
  unfold wrap32
  unfold INT_MIN at h1
  unfold INT_MAX at h2
  omega

theorem foldl_append_flatten (f g : Nat → Str) (l : List Nat) (init : Str)
    (h : ∀ i ∈ l, f i = g i) :
    l.foldl (fun acc i => acc ++ f i) init = init ++ (l.map g).flatten := by
  induction l generalizing init with
  | nil => simp
  | cons a l ih =>
    simp only [List.foldl_cons, List.map_cons, List.flatten_cons]
    rw [ih _ (fun i hi => h i (by simp [hi])), h a (by simp)]
    simp

theorem padding_eq (a g : Nat) (h : ((a + g : Nat) : Int) ≤ INT_MAX) :
    padding ((a + g : Nat) : Int) (g : Int) = pad_decls a g := by
  unfold padding pad_decls
  have hg : ((g : Nat) : Int).toNat = g := Int.toNat_natCast g
  rw [hg]
  rw [foldl_append_flatten _ (fun i => pad_decl (a + i))]
  · rw [List.range'_eq_map_range, List.map_map]
    simp [Function.comp_def]
  · intro i hi
    have hi2 : i < g := List.mem_range.mp hi
    have e1 : wrap32 (((a + g : Nat) : Int) - (g : Int)) = (a : Int) := by
      rw [wrap32_id]
      · omega
      · unfold INT_MIN; omega
      · unfold INT_MAX at *; omega
    have e2 : wrap32 ((a : Int) + (i : Int)) = ((a + i : Nat) : Int) := by
      rw [wrap32_id]
      · omega
      · unfold INT_MIN; omega
      · unfold INT_MAX at *; omega
    simp only [e1, e2, pad_decl]

theorem find_zero (s needle : Str) : find s needle 0 = find_at needle s := by
  simp [find]

theorem find_at_isSome_iff (needle s : Str) :
    (find_at needle s).isSome = true ↔ needle <:+: s := by
  induction s with
  | nil =>
    by_cases h : needle = []
    · simp [find_at, h]
    · simp [find_at, h]
  | cons c t ih =>
    rw [List.infix_cons_iff]
    unfold find_at
    by_cases hp : needle.isPrefixOf (c :: t) = true
    · simp only [hp, if_true, Option.isSome_some, true_iff]
      exact Or.inl (List.isPrefixOf_iff_prefix.mp hp)
    · simp only [hp, Bool.false_eq_true, if_false, Option.isSome_map']
      rw [ih]
      constructor
      · exact Or.inr
      · rintro (h | h)
        · exact absurd (List.isPrefixOf_iff_prefix.mpr h) hp
        · exact h

theorem find_char_isSome_iff (s : Str) (c : Char) :
    (find_char s c 0).isSome = true ↔ c ∈ s := by
  unfold find_char
  rw [find_zero, find_at_isSome_iff]
  constructor
  · intro h
    exact h.subset (by simp)
  · intro h
    obtain ⟨a, b, e⟩ := List.append_of_mem h
    exact ⟨a, b, by simp [e]⟩

theorem well_formed_bounds (f : FieldLine) (hf : f.well_formed = true) :
    (f.offset_nat : Int) ≤ INT_MAX ∧ (f.size_nat : Int) ≤ INT_MAX := by
  unfold FieldLine.well_formed at hf
  simp only [Bool.and_eq_true] at hf
  obtain ⟨⟨_, hoff⟩, hsz⟩ := hf
  unfold is_number at hoff hsz
  simp only [Bool.and_eq_true, decide_eq_true_eq] at hoff hsz
  exact ⟨hoff.2, hsz.2⟩

/-- The padding of a well-formed line that starts after the end of the previous field,
when that end is not 0. -/
theorem extra_gap (f : FieldLine) (hf : f.well_formed = true) (last : Nat)
    (hpos : 0 < last) (hle : last ≤ f.offset_nat) :
    f.extra (last : Int) = pad_decls last (f.offset_nat - last) := by
  have hb := (well_formed_bounds f hf).1
  unfold FieldLine.extra FieldLine.offset_value
  have e0 : decimal f.offset = f.offset_nat := rfl
  rw [e0]
  have hc : ((f.offset_nat : Int) ≠ 0 ∧ (last : Int) ≠ 0) := by
    constructor <;> omega
  rw [if_pos hc]
  have e1 : wrap32 ((f.offset_nat : Int) - (last : Int)) = ((f.offset_nat - last : Nat) : Int) := by
    rw [wrap32_id]
    · omega
    · unfold INT_MIN; omega
    · unfold INT_MAX at *; omega
  have e2 : (f.offset_nat : Int) = ((last + (f.offset_nat - last) : Nat) : Int) := by
    congr 1; omega
  rw [e1]
  conv_lhs => rw [e2]
  apply padding_eq
  rw [← e2]
  exact hb

/-- C2 (amended): for two successive well-formed field lines, the first ending at
`offset1 + size1 > 0` and the second starting at `offset2 > offset1 + size1`,
`parse_field` on the second line returns exactly `offset2 - (offset1 + size1)` padding
declarations `  char __pad_<n>;`, one per byte `n` from `offset1 + size1` to
`offset2 - 1`, followed by the declaration of the field. -/
theorem parse_field_fills_gap (f1 f2 : FieldLine) (hf1 : f1.well_formed = true)
    (hf2 : f2.well_formed = true) (hpos : 0 < f1.offset_nat + f1.size_nat)
    (hgap : f1.offset_nat + f1.size_nat < f2.offset_nat)
    (last_offset : Int) (btf_set : List Str) :
    ∃ r1 r2 : FieldResult,
      parse_field f1.text last_offset btf_set = Except.ok r1 ∧
      parse_field f2.text r1.last_offset r1.btf_set = Except.ok r2 ∧
      r2.text =
        ((List.range' (f1.offset_nat + f1.size_nat)
            (f2.offset_nat - (f1.offset_nat + f1.size_nat))).map pad_decl).flatten
          ++ ("  ".toList ++ f2.emitted_type ++ " ".toList ++ f2.name ++ ";\n".toList) ∧
      ((List.range' (f1.offset_nat + f1.size_nat)
          (f2.offset_nat - (f1.offset_nat + f1.size_nat))).map pad_decl).length =
        f2.offset_nat - (f1.offset_nat + f1.size_nat) := by
  have hb2 := (well_formed_bounds f2 hf2).1
  have hl : wrap32 (f1.offset_value + f1.size_value) =
      ((f1.offset_nat + f1.size_nat : Nat) : Int) := by
    unfold FieldLine.offset_value FieldLine.size_value
    have e0 : decimal f1.offset = f1.offset_nat := rfl
    have e1 : decimal f1.size = f1.size_nat := rfl
    rw [e0, e1, wrap32_id]
    · omega
    · unfold INT_MIN; omega
    · unfold INT_MAX at *; omega
  refine ⟨_, _, parse_field_well_formed f1 hf1 last_offset btf_set,
    parse_field_well_formed f2 hf2 _ _, ?_, by simp⟩
  simp only [hl]
  rw [extra_gap f2 hf2 _ hpos (le_of_lt hgap)]
  simp [pad_decls]

/-- C2 (amended) at `field:int a; offset:0; size:4;` followed by
`field:long b; offset:8; size:8;`. -/
theorem parse_field_fills_gap_witness :
    ∃ r1 r2 : FieldResult,
      parse_field "field:int a; offset:0; size:4;".toList 0 [] = Except.ok r1 ∧
      parse_field "field:long b; offset:8; size:8;".toList r1.last_offset r1.btf_set
        = Except.ok r2 ∧
      r2.text = ((List.range' 4 4).map pad_decl).flatten
          ++ "  long b;\n".toList ∧
      ((List.range' 4 4).map pad_decl).length = 4 :=
  parse_field_fills_gap
    ⟨[], "int".toList, "a".toList, " ".toList, "0".toList, " ".toList, "4".toList, []⟩
    ⟨[], "long".toList, "b".toList, " ".toList, "8".toList, " ".toList, "8".toList, []⟩
    (by decide) (by decide) (by decide) (by decide) 0 []

/-- C2 as stated fails: after the well-formed line `field:char data[0]; offset:0; size:0;`
the well-formed line `field:int b; offset:4; size:4;` starts 4 bytes after the end of
the first field, yet `parse_field` returns its declaration without any padding. -/
theorem parse_field_gap_counterexample :
    (FieldLine.mk [] "char".toList "data[0]".toList " ".toList "0".toList " ".toList
        "0".toList []).well_formed = true ∧
    (FieldLine.mk [] "int".toList "b".toList " ".toList "4".toList " ".toList
        "4".toList []).well_formed = true ∧
    (FieldLine.mk [] "char".toList "data[0]".toList " ".toList "0".toList " ".toList
        "0".toList []).text = "field:char data[0]; offset:0; size:0;".toList ∧
    (FieldLine.mk [] "int".toList "b".toList " ".toList "4".toList " ".toList
        "4".toList []).text = "field:int b; offset:4; size:4;".toList ∧
    parse_field "field:char data[0]; offset:0; size:0;".toList 0 [] =
      Except.ok ⟨"  char data[0];\n".toList, 0, ["char".toList]⟩ ∧
    parse_field "field:int b; offset:4; size:4;".toList 0 ["char".toList] =
      Except.ok ⟨"  int b;\n".toList, 8, ["char".toList, "int".toList]⟩ ∧
    "  int b;\n".toList ≠
      ((List.range' 0 4).map pad_decl).flatten ++ "  int b;\n".toList := by
  decide

theorem chain_ordered (f : FieldLine) (fs : List FieldLine)
    (h : List.Chain' (fun a b : FieldLine => a.offset_nat + a.size_nat ≤ b.offset_nat)
      (f :: fs)) :
    ordered_from (f.offset_nat + f.size_nat) fs := by
  induction fs generalizing f with
  | nil => trivial
  | cons g fs ih =>
    rw [List.chain'_cons] at h
    exact ⟨h.1, ih g h.2⟩

theorem consistent_pads (pos count : Nat) (ds : List Decl)
    (h : consistent (pos + count) ds) :
    consistent pos ((List.range' pos count).map Decl.pad ++ ds) := by
  induction count generalizing pos with
  | zero => simpa using h
  | succ n ih =>
    rw [List.range'_succ]
    simp only [List.map_cons, List.cons_append]
    refine ⟨rfl, ih (pos + 1) ?_⟩
    have : pos + 1 + n = pos + (n + 1) := by omega
    rw [this]; exact h

theorem consistent_layout (fs : List FieldLine) (last : Nat) (h : ordered_from last fs) :
    consistent last (layout last fs) := by
  induction fs generalizing last with
  | nil => trivial
  | cons f fs ih =>
    unfold layout
    apply consistent_pads
    have e : last + (f.offset_nat - last) = f.offset_nat := by
      have := h.1; omega
    rw [e]
    exact ⟨rfl, ih _ h.2⟩

theorem consistent_split (ds : List Decl) (pos : Nat) (h : consistent pos ds)
    (before after : List Decl) (d : Decl) (e : ds = before ++ d :: after) :
    match d with
    | Decl.pad n => pos + (pad_count before + field_sizes before) = n
    | Decl.field _ _ offset _ => pos + (pad_count before + field_sizes before) = offset := by
  induction before generalizing ds pos with
  | nil =>
    subst e
    cases d with
    | pad n => simpa [pad_count, field_sizes] using h.1.symm
    | field t n o sz => simpa [pad_count, field_sizes] using h.1.symm
  | cons b before ih =>
    subst e
    cases b with
    | pad m =>
      have := ih (before ++ d :: after) (pos + 1) h.2 rfl
      cases d with
      | pad n =>
        simp only [pad_count, field_sizes, List.filter_cons, Decl.is_field] at this ⊢
        simp only [Bool.not_false, if_true, List.length_cons]
        omega
      | field t n o sz =>
        simp only [pad_count, field_sizes, List.filter_cons, Decl.is_field] at this ⊢
        simp only [Bool.not_false, if_true, List.length_cons]
        omega
    | field t0 n0 o0 sz0 =>
      have := ih (before ++ d :: after) (pos + sz0) h.2 rfl
      cases d with
      | pad n =>
        simp only [pad_count, field_sizes, List.filter_cons, Decl.is_field] at this ⊢
        simp only [Bool.not_true, Bool.false_eq_true, if_false]
        omega
      | field t n o sz =>
        simp only [pad_count, field_sizes, List.filter_cons, Decl.is_field] at this ⊢
        simp only [Bool.not_true, Bool.false_eq_true, if_false]
        omega

theorem render_pads (first count : Nat) :
    (((List.range' first count).map Decl.pad).map Decl.render).flatten =
      pad_decls first count := by
  simp [pad_decls, List.map_map, Function.comp_def, Decl.render]

theorem end_fits (f : FieldLine) (fs : List FieldLine)
    (hwf : ∀ g ∈ fs, g.well_formed = true)
    (hord : ordered_from (f.offset_nat + f.size_nat) fs) (hne : fs ≠ []) :
    wrap32 (f.offset_value + f.size_value) = ((f.offset_nat + f.size_nat : Nat) : Int) := by
  cases fs with
  | nil => exact absurd rfl hne
  | cons g fs =>
    have hb := (well_formed_bounds g (hwf g (by simp))).1
    have hle := hord.1
    unfold FieldLine.offset_value FieldLine.size_value
    have e0 : decimal f.offset = f.offset_nat := rfl
    have e1 : decimal f.size = f.size_nat := rfl
    rw [e0, e1, wrap32_id]
    · omega
    · unfold INT_MIN; omega
    · unfold INT_MAX at *; omega

theorem fields_text_layout (fs : List FieldLine) (last : Nat) (lo : Int)
    (btf_set : List Str) (hlo : fs ≠ [] → lo = (last : Int)) (hpos : 0 < last)
    (hwf : ∀ f ∈ fs, f.well_formed = true) (hord : ordered_from last fs) :
    ∃ set, fields_text (fs.map FieldLine.text) lo btf_set =
      Except.ok (((layout last fs).map Decl.render).flatten, set) := by
  induction fs generalizing last lo btf_set with
  | nil => exact ⟨btf_set, rfl⟩
  | cons f fs ih =>
    have hf := hwf f (by simp)
    have hlo2 := hlo (by simp)
    subst hlo2
    have hnext : fs ≠ [] → wrap32 (f.offset_value + f.size_value)
        = ((f.offset_nat + f.size_nat : Nat) : Int) :=
      end_fits f fs (fun g hg => hwf g (by simp [hg])) hord.2
    have hpos2 : 0 < f.offset_nat + f.size_nat := by
      have := hord.1; omega
    obtain ⟨set, hset⟩ := ih (f.offset_nat + f.size_nat)
      (wrap32 (f.offset_value + f.size_value)) (f.recorded btf_set) hnext hpos2
      (fun g hg => hwf g (by simp [hg])) hord.2
    refine ⟨set, ?_⟩
    simp only [List.map_cons]
    unfold fields_text
    rw [parse_field_well_formed f hf]
    simp only [hset]
    rw [extra_gap f hf last hpos hord.1]
    simp only [layout, List.map_append, List.flatten_append, List.map_cons, List.flatten_cons,
      render_pads, FieldLine.member, Decl.render, List.append_assoc]

theorem layout_fields (fs : List FieldLine) (last : Nat) :
    (layout last fs).filter Decl.is_field = fs.map FieldLine.member := by
  induction fs generalizing last with
  | nil => rfl
  | cons f fs ih =>
    have hp : ∀ l : List Nat, (l.map Decl.pad).filter Decl.is_field = [] := by
      intro l
      induction l with
      | nil => rfl
      | cons a l ihl => simp [List.filter_cons, Decl.is_field, ihl]
    simp only [layout, List.filter_append, hp, List.nil_append, List.filter_cons,
      FieldLine.member, Decl.is_field, if_true, List.map_cons]
    rw [ih]

/-- C3: for well-formed field lines in increasing, non-overlapping offset order whose first
field has offset 0 and positive size, `get_tracepoint_struct` returns the declaration
whose members are `layout 0 fs`: its fields are those of the lines, in order, and before
each field the number of `char __pad_` declarations plus the sum of the declared sizes of
the fields equals the declared offset of that field. -/
theorem byte_exact_layout (fs : List FieldLine) (category event_name : Str)
    (btf_set : List Str) (hwf : ∀ f ∈ fs, f.well_formed = true)
    (hfirst : ∀ f rest, fs = f :: rest → f.offset_nat = 0 ∧ 0 < f.size_nat)
    (hord : List.Chain' (fun a b : FieldLine => a.offset_nat + a.size_nat ≤ b.offset_nat)
      fs) :
    (∃ set, get_tracepoint_struct (fs.map FieldLine.text) category event_name btf_set =
      Except.ok (get_struct_name category event_name ++ "\n\x7b\n".toList ++
        ((layout 0 fs).map Decl.render).flatten ++ "\x7d;\n".toList, set)) ∧
    (layout 0 fs).filter Decl.is_field = fs.map FieldLine.member ∧
    ∀ (before after : List Decl) (type name : Str) (offset size : Nat),
      layout 0 fs = before ++ Decl.field type name offset size :: after →
        pad_count before + field_sizes before = offset := by
  refine ⟨?_, layout_fields fs 0, ?_⟩
  · rw [get_tracepoint_struct_eq]
    cases fs with
    | nil => exact ⟨btf_set, by simp [fields_text, layout, get_struct_name]⟩
    | cons f rest =>
      obtain ⟨h0, hsz⟩ := hfirst f rest rfl
      have hf := hwf f (by simp)
      have hwf2 : ∀ g ∈ rest, g.well_formed = true := fun g hg => hwf g (by simp [hg])
      have hord2 := chain_ordered f rest hord
      obtain ⟨set, hset⟩ := fields_text_layout rest (f.offset_nat + f.size_nat)
        (wrap32 (f.offset_value + f.size_value)) (f.recorded btf_set)
        (end_fits f rest hwf2 hord2) (by omega) hwf2 hord2
      refine ⟨set, ?_⟩
      simp only [List.map_cons]
      unfold fields_text
      rw [parse_field_well_formed f hf]
      simp only [hset]
      have hx : f.extra 0 = [] := by
        unfold FieldLine.extra
        simp
      simp only [hx, layout, h0, Nat.sub_self, List.range'_zero, List.map_nil,
        List.nil_append, List.map_cons, List.flatten_cons, FieldLine.member, Decl.render,
        get_struct_name, List.append_assoc]
  · intro before after type name offset size e
    have hc : consistent 0 (layout 0 fs) := by
      apply consistent_layout
      cases fs with
      | nil => trivial
      | cons f rest => exact ⟨Nat.zero_le _, chain_ordered f rest hord⟩
    have := consistent_split _ 0 hc before after _ e
    simpa using this

/-- C3 at three lines with a gap between the first two fields. -/
theorem byte_exact_layout_witness :
    (∃ set, get_tracepoint_struct (sample_fields.map FieldLine.text) "sched".toList
        "wakeup".toList [] =
      Except.ok (get_struct_name "sched".toList "wakeup".toList ++ "\n\x7b\n".toList ++
        ((layout 0 sample_fields).map Decl.render).flatten ++ "\x7d;\n".toList, set)) ∧
    (layout 0 sample_fields).filter Decl.is_field = sample_fields.map FieldLine.member ∧
    ∀ (before after : List Decl) (type name : Str) (offset size : Nat),
      layout 0 sample_fields = before ++ Decl.field type name offset size :: after →
        pad_count before + field_sizes before = offset :=
  byte_exact_layout sample_fields "sched".toList "wakeup".toList [] (by decide)
    (fun f rest h => by
      have hf : f = ⟨"\t".toList, "int".toList, "a".toList, "\t".toList, "0".toList,
          "\t".toList, "4".toList, "\tsigned:1;".toList⟩ := (List.cons.inj h).1.symm
      subst hf
      decide)
    (by
      unfold sample_fields
      simp only [List.chain'_cons, List.chain'_singleton, and_true]
      decide)

theorem is_int_iff (x : Int) : is_int x = true ↔ INT_MIN ≤ x ∧ x ≤ INT_MAX := by
  simp [is_int]

theorem arithmetic_defined_iff (offset size last_offset : Int) :
    arithmetic_defined offset size last_offset = true ↔
      (INT_MIN ≤ last_offset ∧ last_offset ≤ INT_MAX) ∧
      (offset = 0 ∨ last_offset = 0 ∨
        (INT_MIN ≤ offset - last_offset ∧ offset - last_offset ≤ INT_MAX)) ∧
      (INT_MIN ≤ offset + size ∧ offset + size ≤ INT_MAX) := by
  simp [arithmetic_defined, is_int, and_assoc, or_assoc]

/-- Within the range of `int` the padding loop writes `pad_text`. -/
theorem padding_defined (offset last_offset : Int) (ho : offset ≤ INT_MAX)
    (hl : INT_MIN ≤ last_offset ∧ last_offset ≤ INT_MAX)
    (hs : INT_MIN ≤ offset - last_offset ∧ offset - last_offset ≤ INT_MAX) :
    padding offset (wrap32 (offset - last_offset)) =
      ((List.range (offset - last_offset).toNat).map
        (fun i : Nat =>
          "  char __pad_".toList ++ to_string (last_offset + (i : Int)) ++
            ";\n".toList)).flatten := by
  rw [wrap32_id _ hs.1 hs.2]
  unfold padding
  rw [foldl_append_flatten _
    (fun i : Nat =>
      "  char __pad_".toList ++ to_string (last_offset + (i : Int)) ++ ";\n".toList)]
  · simp
  · intro i hi
    have hi2 : i < (offset - last_offset).toNat := List.mem_range.mp hi
    have e1 : wrap32 (offset - (offset - last_offset)) = last_offset := by
      rw [wrap32_id]
      · omega
      · omega
      · omega
    have e2 : wrap32 (last_offset + (i : Int)) = last_offset + (i : Int) := by
      rw [wrap32_id]
      · unfold INT_MIN at *; omega
      · unfold INT_MAX at *; omega
    simp only [e1, e2, List.append_assoc]

theorem extra_defined (f : FieldLine) (hf : f.well_formed = true) (last_offset : Int)
    (hdef : arithmetic_defined f.offset_value f.size_value last_offset = true) :
    f.extra last_offset = pad_text f.offset_value last_offset := by
  have hb := (well_formed_bounds f hf).1
  have hv : f.offset_value = (f.offset_nat : Int) := rfl
  rw [arithmetic_defined_iff] at hdef
  obtain ⟨hl, hs, _⟩ := hdef
  unfold FieldLine.extra pad_text
  by_cases hc : f.offset_value ≠ 0 ∧ last_offset ≠ 0
  · rw [if_pos hc, if_pos hc]
    rcases hs with h0 | h0 | h0
    · exact absurd h0 hc.1
    · exact absurd h0 hc.2
    · exact padding_defined _ _ (by rw [hv]; exact hb) hl h0
  · rw [if_neg hc, if_neg hc]

theorem adjust_annotated (size : Int) :
    adjust_integer_types "__attribute__((annotate(\"tp_data_loc\"))) int".toList size =
      "__attribute__((annotate(\"tp_data_loc\"))) int".toList := by
  unfold adjust_integer_types
  split
  · decide
  · rfl

/-- C6 (amended): for a well-formed field line whose name contains `[` and whose type does
not contain `__data_loc`, entered with a `last_offset` for which the `int` arithmetic of
`parse_field` is defined, `parse_field` returns the padding followed by the declaration
with the declared type unchanged, whatever the size. -/
theorem array_field_type_unchanged (f : FieldLine) (hf : f.well_formed = true)
    (harr : '[' ∈ f.name) (hdl : ¬ ("__data_loc".toList <:+: f.type))
    (last_offset : Int) (btf_set : List Str)
    (hdef : arithmetic_defined f.offset_value f.size_value last_offset = true) :
    ∃ r : FieldResult, parse_field f.text last_offset btf_set = Except.ok r ∧
      r.text = pad_text f.offset_value last_offset ++
        ("  ".toList ++ f.type ++ " ".toList ++ f.name ++ ";\n".toList) := by
  refine ⟨_, parse_field_well_formed f hf last_offset btf_set, ?_⟩
  have h1 : (find f.type "__data_loc".toList 0).isSome = false := by
    rw [find_zero]
    rw [← Bool.not_eq_true, find_at_isSome_iff]
    exact hdl
  have h2 : (find_char f.name '[' 0).isNone = false := by
    have := (find_char_isSome_iff f.name '[').mpr harr
    rw [Option.isSome_iff_exists] at this
    obtain ⟨p, hp⟩ := this
    rw [hp]; rfl
  simp only [FieldLine.emitted_type, h1, h2, Bool.false_eq_true, if_false,
    List.append_assoc, extra_defined f hf last_offset hdef]

/-- C6 (amended) at `field:int arr[2]; offset:8; size:8;`, first in its file and after a
field that ended at byte 4: the type stays `int`. -/
theorem array_field_type_unchanged_witness :
    (∃ r : FieldResult,
      parse_field "field:int arr[2]; offset:8; size:8;".toList 0 [] = Except.ok r ∧
      r.text = pad_text 8 0 ++ "  int arr[2];\n".toList) ∧
    (∃ r : FieldResult,
      parse_field "field:int arr[2]; offset:8; size:8;".toList 4 [] = Except.ok r ∧
      r.text = pad_text 8 4 ++ "  int arr[2];\n".toList) ∧
    pad_text 8 0 = [] ∧
    pad_text 8 4 =
      "  char __pad_4;\n  char __pad_5;\n  char __pad_6;\n  char __pad_7;\n".toList :=
  ⟨array_field_type_unchanged
      ⟨[], "int".toList, "arr[2]".toList, " ".toList, "8".toList, " ".toList, "8".toList, []⟩
      (by decide) (by decide) (by decide) 0 [] (by decide),
    array_field_type_unchanged
      ⟨[], "int".toList, "arr[2]".toList, " ".toList, "8".toList, " ".toList, "8".toList, []⟩
      (by decide) (by decide) (by decide) 4 [] (by decide),
    by decide, by decide⟩

/-- C6 as stated fails: the line `field:int x; offset:-2147483648; size:0;` leaves
`last_offset` at `INT_MIN`; on the well-formed array line
`field:int arr[2]; offset:8; size:8;` that follows, the subtraction
`offset - *last_offset` is `8 - INT_MIN`, which no `int` holds: the behaviour of the source
is undefined there, and it need not emit the declaration. -/
theorem array_field_counterexample :
    (FieldLine.mk [] "int".toList "arr[2]".toList " ".toList "8".toList " ".toList
        "8".toList []).well_formed = true ∧
    (FieldLine.mk [] "int".toList "arr[2]".toList " ".toList "8".toList " ".toList
        "8".toList []).text = "field:int arr[2]; offset:8; size:8;".toList ∧
    parse_field "field:int x; offset:-2147483648; size:0;".toList 0 [] =
      Except.ok ⟨"  int x;\n".toList, -2147483648, ["int".toList]⟩ ∧
    arithmetic_defined (-2147483648) 0 0 = true ∧
    arithmetic_defined 8 8 (-2147483648) = false ∧
    is_int (8 - (-2147483648)) = false := by
  decide

/-- C7 (amended): for a well-formed field line whose type contains `__data_loc`, entered
with a `last_offset` for which the `int` arithmetic of `parse_field` is defined,
`parse_field` returns the padding followed by exactly
`  __attribute__((annotate("tp_data_loc"))) int <name>;\n`, whatever the declared type and
the size. -/
theorem data_loc_field_rewritten (f : FieldLine) (hf : f.well_formed = true)
    (hdl : "__data_loc".toList <:+: f.type) (last_offset : Int) (btf_set : List Str)
    (hdef : arithmetic_defined f.offset_value f.size_value last_offset = true) :
    ∃ r : FieldResult, parse_field f.text last_offset btf_set = Except.ok r ∧
      r.text = pad_text f.offset_value last_offset ++
        ("  __attribute__((annotate(\"tp_data_loc\"))) int ".toList ++ f.name
          ++ ";\n".toList) := by
  refine ⟨_, parse_field_well_formed f hf last_offset btf_set, ?_⟩
  have h1 : (find f.type "__data_loc".toList 0).isSome = true := by
    rw [find_zero, find_at_isSome_iff]
    exact hdl
  have e : f.emitted_type = "__attribute__((annotate(\"tp_data_loc\"))) int".toList := by
    simp only [FieldLine.emitted_type, h1, if_true, adjust_annotated, ite_self]
  simp only [e, List.append_assoc, extra_defined f hf last_offset hdef]
  rfl

/-- C7 (amended) at `field:__data_loc char[] name; offset:8; size:8;` with size 8, first in
its file and after a field that ended at byte 6. -/
theorem data_loc_field_rewritten_witness :
    (∃ r : FieldResult,
      parse_field "\tfield:__data_loc char[] name;\toffset:8;\tsize:8;\tsigned:1;".toList
        0 [] = Except.ok r ∧
      r.text = pad_text 8 0 ++
        "  __attribute__((annotate(\"tp_data_loc\"))) int name;\n".toList) ∧
    (∃ r : FieldResult,
      parse_field "\tfield:__data_loc char[] name;\toffset:8;\tsize:8;\tsigned:1;".toList
        6 [] = Except.ok r ∧
      r.text = pad_text 8 6 ++
        "  __attribute__((annotate(\"tp_data_loc\"))) int name;\n".toList) ∧
    pad_text 8 0 = [] ∧
    pad_text 8 6 = "  char __pad_6;\n  char __pad_7;\n".toList :=
  ⟨data_loc_field_rewritten
      ⟨"\t".toList, "__data_loc char[]".toList, "name".toList, "\t".toList, "8".toList,
        "\t".toList, "8".toList, "\tsigned:1;".toList⟩
      (by decide) (by decide) 0 [] (by decide),
    data_loc_field_rewritten
      ⟨"\t".toList, "__data_loc char[]".toList, "name".toList, "\t".toList, "8".toList,
        "\t".toList, "8".toList, "\tsigned:1;".toList⟩
      (by decide) (by decide) 6 [] (by decide),
    by decide, by decide⟩

/-- C7 as stated fails: the line `field:int x; offset:-2147483648; size:0;` leaves
`last_offset` at `INT_MIN`; on the well-formed line
`field:__data_loc char[] name; offset:8; size:8;` that follows, the subtraction
`offset - *last_offset` is `8 - INT_MIN`, which no `int` holds: the behaviour of the source
is undefined there, and it need not emit the declaration. -/
theorem data_loc_field_counterexample :
    (FieldLine.mk [] "__data_loc char[]".toList "name".toList " ".toList
        "8".toList " ".toList "8".toList []).well_formed = true ∧
    (FieldLine.mk [] "__data_loc char[]".toList "name".toList " ".toList
        "8".toList " ".toList "8".toList []).text =
      "field:__data_loc char[] name; offset:8; size:8;".toList ∧
    parse_field "field:int x; offset:-2147483648; size:0;".toList 0 [] =
      Except.ok ⟨"  int x;\n".toList, -2147483648, ["int".toList]⟩ ∧
    arithmetic_defined (-2147483648) 0 0 = true ∧
    arithmetic_defined 8 8 (-2147483648) = false ∧
    is_int (8 - (-2147483648)) = false := by
  decide

theorem mem_emplace_self (set : List Str) (x : Str) : x ∈ emplace set x := by
  unfold emplace
  split
  · assumption
  · simp

theorem mem_emplace_of_mem (set : List Str) (x s : Str) (h : s ∈ set) :
    s ∈ emplace set x := by
  unfold emplace
  split
  · exact h
  · simp [h]

theorem find_last_of_eq_none (chars s : Str) (h : find_last_of chars s = none) :
    ∀ c ∈ s, c ∉ chars := by
  induction s with
  | nil => intro c hc; cases hc
  | cons a t ih =>
    unfold find_last_of at h
    cases ht : find_last_of chars t with
    | some i => rw [ht] at h; cases h
    | none =>
      rw [ht] at h
      have ha : a ∉ chars := by
        intro hm; simp [hm] at h
      intro c hc
      rcases List.mem_cons.mp hc with e | e
      · rw [e]; exact ha
      · exact ih ht c e

theorem find_last_of_after (chars s : Str) (i : Nat) (h : find_last_of chars s = some i) :
    ∀ c ∈ s.drop (i + 1), c ∉ chars := by
  induction s generalizing i with
  | nil => cases h
  | cons a t ih =>
    unfold find_last_of at h
    cases ht : find_last_of chars t with
    | some j =>
      rw [ht] at h
      have e : i = j + 1 := by cases h; rfl
      subst e
      exact ih j ht
    | none =>
      rw [ht] at h
      by_cases hm : a ∈ chars
      · simp only [hm, if_true] at h
        have e : i = 0 := by cases h; rfl
        subst e
        exact find_last_of_eq_none chars t ht
      · simp [hm] at h

theorem find_first_not_of_isSome (chars s : Str) :
    (find_first_not_of chars s).isSome = true ↔ ∃ c ∈ s, c ∉ chars := by
  induction s with
  | nil => simp [find_first_not_of]
  | cons a t ih =>
    unfold find_first_not_of
    by_cases hm : a ∈ chars
    · simp only [hm, if_true, Option.isSome_map', ih]
      constructor
      · rintro ⟨c, hc, hn⟩; exact ⟨c, by simp [hc], hn⟩
      · rintro ⟨c, hc, hn⟩
        rcases List.mem_cons.mp hc with e | e
        · rw [e] at hn; exact absurd hm hn
        · exact ⟨c, e, hn⟩
    · simp only [hm, if_false, Option.isSome_some, true_iff]
      exact ⟨a, by simp, hm⟩

/-- C8: whenever `parse_field` returns a non-empty text, that text is
`<padding>  <type> <name>;\n` for a name without blanks, `btf_set_` afterwards contains the
written type and, when the name holds `[` and the length after it (up to `]`) has a
character that is not a decimal digit, that length; every element `btf_set_` held before
the call is still in it. -/
theorem parse_field_records_types (line : Str) (last_offset : Int) (btf_set : List Str)
    (r : FieldResult) (h : parse_field line last_offset btf_set = Except.ok r)
    (hne : r.text ≠ []) :
    ∃ extra field_type field_name : Str,
      r.text = extra ++ "  ".toList ++ field_type ++ " ".toList ++ field_name ++ ";\n".toList ∧
      (∀ c ∈ field_name, c ≠ ' ' ∧ c ≠ '\t') ∧
      field_type ∈ r.btf_set ∧
      (∀ p : Nat, find_char field_name '[' 0 = some p →
        (∃ c ∈ array_length field_name p, c ∉ "0123456789".toList) →
          array_length field_name p ∈ r.btf_set) ∧
      (∀ e : Nat, ∀ p : Nat, find_char field_name '[' 0 = some p →
        find_char field_name ']' 0 = some e → p < e →
          array_length field_name p = substr field_name (p + 1) (e - p - 1)) ∧
      ∀ s ∈ btf_set, s ∈ r.btf_set := by
  unfold parse_field at h
  obtain ⟨p1, h1⟩ : ∃ p, find line "field:".toList 0 = some p := by
    cases h1 : find line "field:".toList 0 with
    | none => simp only [h1] at h; cases h; exact absurd rfl hne
    | some p => exact ⟨p, rfl⟩
  simp only [h1] at h
  obtain ⟨p2, h2⟩ : ∃ p, find_char line ';' p1 = some p := by
    cases h2 : find_char line ';' p1 with
    | none => simp only [h2] at h; cases h; exact absurd rfl hne
    | some p => exact ⟨p, rfl⟩
  simp only [h2] at h
  obtain ⟨p3, h3⟩ : ∃ p, find line "offset:".toList p2 = some p := by
    cases h3 : find line "offset:".toList p2 with
    | none => simp only [h3] at h; cases h; exact absurd rfl hne
    | some p => exact ⟨p, rfl⟩
  simp only [h3] at h
  obtain ⟨p4, h4⟩ : ∃ p, find_char line ';' p3 = some p := by
    cases h4 : find_char line ';' p3 with
    | none => simp only [h4] at h; cases h; exact absurd rfl hne
    | some p => exact ⟨p, rfl⟩
  simp only [h4] at h
  obtain ⟨p5, h5⟩ : ∃ p, find line "size:".toList p4 = some p := by
    cases h5 : find line "size:".toList p4 with
    | none => simp only [h5] at h; cases h; exact absurd rfl hne
    | some p => exact ⟨p, rfl⟩
  simp only [h5] at h
  obtain ⟨p6, h6⟩ : ∃ p, find_char line ';' p5 = some p := by
    cases h6 : find_char line ';' p5 with
    | none => simp only [h6] at h; cases h; exact absurd rfl hne
    | some p => exact ⟨p, rfl⟩
  simp only [h6] at h
  obtain ⟨size, h7⟩ : ∃ v, stoi (substr line (p5 + 5) (p6 - p5 - 5)) = Except.ok v := by
    cases h7 : stoi (substr line (p5 + 5) (p6 - p5 - 5)) with
    | error e => simp only [h7] at h; cases h
    | ok v => exact ⟨v, rfl⟩
  simp only [h7] at h
  obtain ⟨offset, h8⟩ : ∃ v, stoi (substr line (p3 + 7) (p4 - p3 - 7)) = Except.ok v := by
    cases h8 : stoi (substr line (p3 + 7) (p4 - p3 - 7)) with
    | error e => simp only [h8] at h; cases h
    | ok v => exact ⟨v, rfl⟩
  simp only [h8] at h
  obtain ⟨tpos, htpos⟩ : ∃ p, find_last_of "\t ".toList
      (substr line (p1 + 6) (p2 - p1 - 6)) = some p := by
    cases h9 : find_last_of "\t ".toList (substr line (p1 + 6) (p2 - p1 - 6)) with
    | none => simp only [h9] at h; cases h; exact absurd rfl hne
    | some p => exact ⟨p, rfl⟩
  simp only [htpos] at h
  cases h
  refine ⟨_, _, _, rfl, ?_, ?_, ?_, ?_, ?_⟩
  · intro c hc
    have := find_last_of_after _ _ _ htpos c hc
    have k : "\t ".toList = ['\t', ' '] := rfl
    rw [k] at this
    constructor
    · intro e; apply this; simp [e]
    · intro e; apply this; simp [e]
  · simp only []
    split
    · split
      · exact mem_emplace_of_mem _ _ _ (mem_emplace_self _ _)
      · exact mem_emplace_self _ _
    · exact mem_emplace_self _ _
  · intro p hp hc
    simp only [hp]
    have hs := (find_first_not_of_isSome "0123456789".toList _).mpr hc
    unfold array_length at hs ⊢
    simp only [hs, if_true]
    exact mem_emplace_self _ _
  · intro e p hp he hpe
    unfold array_length arr_count
    simp only [he, hpe, if_true]
  · intro s hs
    simp only []
    split
    · split
      · exact mem_emplace_of_mem _ _ _ (mem_emplace_of_mem _ _ _ hs)
      · exact mem_emplace_of_mem _ _ _ hs
    · exact mem_emplace_of_mem _ _ _ hs

/-- C8 at `field:char comm[TASK_COMM_LEN]; offset:8; size:16;`: `char` and
`TASK_COMM_LEN` are recorded and `u64`, present before, stays. -/
theorem parse_field_records_types_witness :
    parse_field "\tfield:char comm[TASK_COMM_LEN];\toffset:8;\tsize:16;\tsigned:0;".toList
        8 ["u64".toList] =
      Except.ok ⟨"  char comm[TASK_COMM_LEN];\n".toList, 24,
        ["u64".toList, "char".toList, "TASK_COMM_LEN".toList]⟩ ∧
    ∃ extra field_type field_name : Str,
      "  char comm[TASK_COMM_LEN];\n".toList =
        extra ++ "  ".toList ++ field_type ++ " ".toList ++ field_name ++ ";\n".toList ∧
      (∀ c ∈ field_name, c ≠ ' ' ∧ c ≠ '\t') ∧
      field_type ∈ ["u64".toList, "char".toList, "TASK_COMM_LEN".toList] ∧
      (∀ p : Nat, find_char field_name '[' 0 = some p →
        (∃ c ∈ array_length field_name p, c ∉ "0123456789".toList) →
          array_length field_name p ∈
            ["u64".toList, "char".toList, "TASK_COMM_LEN".toList]) ∧
      (∀ e : Nat, ∀ p : Nat, find_char field_name '[' 0 = some p →
        find_char field_name ']' 0 = some e → p < e →
          array_length field_name p = substr field_name (p + 1) (e - p - 1)) ∧
      ∀ s ∈ ["u64".toList], s ∈ ["u64".toList, "char".toList, "TASK_COMM_LEN".toList] :=
  ⟨by decide,
   parse_field_records_types
    "\tfield:char comm[TASK_COMM_LEN];\toffset:8;\tsize:16;\tsigned:0;".toList 8
    ["u64".toList]
    ⟨"  char comm[TASK_COMM_LEN];\n".toList, 24,
      ["u64".toList, "char".toList, "TASK_COMM_LEN".toList]⟩
    (by decide) (by decide)⟩

theorem appended_nil (a b : ParseState) (h1 : b.c_definitions = a.c_definitions)
    (h2 : ∀ n ∈ a.struct_list, n ∈ b.struct_list) : Appended a b [] := by
  refine ⟨by simp [h1], by simp, ?_, h2⟩
  intro d hd
  cases hd

theorem appended_trans (a b c : ParseState) (d1 d2 : List (Str × Str))
    (h1 : Appended a b d1) (h2 : Appended b c d2) : Appended a c (d1 ++ d2) := by
  obtain ⟨t1, n1, m1, s1⟩ := h1
  obtain ⟨t2, n2, m2, s2⟩ := h2
  refine ⟨?_, ?_, ?_, fun n hn => s2 n (s1 n hn)⟩
  · rw [t2, t1]; simp
  · rw [List.map_append, List.nodup_append]
    refine ⟨n1, n2, ?_⟩
    intro x hx1 hx2
    obtain ⟨e1, he1, rfl⟩ := List.mem_map.mp hx1
    obtain ⟨e2, he2, hx⟩ := List.mem_map.mp hx2
    have hb : e1.1 ∈ b.struct_list := (m1 e1 he1).2.1
    have hnb : e2.1 ∉ b.struct_list := (m2 e2 he2).1
    rw [hx] at hnb
    exact hnb hb
  · intro d hd
    rcases List.mem_append.mp hd with h | h
    · obtain ⟨x, y, z⟩ := m1 d h
      exact ⟨x, s2 _ y, z⟩
    · obtain ⟨x, y, z⟩ := m2 d h
      exact ⟨fun hx => x (s1 _ hx), y, z⟩

theorem appended_one (a b : ParseState) (name decl : Str)
    (h1 : b.c_definitions = a.c_definitions ++ decl)
    (h2 : b.struct_list = emplace a.struct_list name)
    (h3 : name ∉ a.struct_list)
    (h4 : ∃ body : Str, decl = name ++ "\n\x7b\n".toList ++ body ++ "\x7d;\n".toList) :
    Appended a b [(name, decl)] := by
  refine ⟨by simp [h1], by simp, ?_, ?_⟩
  · intro d hd
    have e : d = (name, decl) := by simpa using hd
    subst e
    exact ⟨h3, by rw [h2]; exact mem_emplace_self _ _, h4⟩
  · intro n hn
    rw [h2]; exact mem_emplace_of_mem _ _ _ hn

theorem get_tracepoint_struct_headed (format_file : List Str) (category event_name : Str)
    (btf_set : List Str) (decl : Str) (set : List Str)
    (h : get_tracepoint_struct format_file category event_name btf_set =
      Except.ok (decl, set)) :
    ∃ body : Str, decl = get_struct_name category event_name ++ "\n\x7b\n".toList ++ body
      ++ "\x7d;\n".toList := by
  rw [get_tracepoint_struct_eq] at h
  cases hf : fields_text format_file 0 btf_set with
  | error e => rw [hf] at h; cases h
  | ok b =>
    rw [hf] at h
    obtain ⟨body, set2⟩ := b
    simp only [Except.ok.injEq, Prod.mk.injEq] at h
    exact ⟨body, by rw [← h.1]; simp [get_struct_name]⟩

theorem parse_glob_paths_appended (env : Env) (paths : List Str) (st : ParseState) :
    ∃ decls, Appended st (parse_glob_paths env paths st).1 decls := by
  induction paths generalizing st with
  | nil => exact ⟨[], appended_nil _ _ rfl (fun _ h => h)⟩
  | cons filename rest ih =>
    unfold parse_glob_paths
    simp only []
    split
    · exact ⟨[], appended_nil _ _ rfl (fun _ h => h)⟩
    split
    · exact ⟨[], appended_nil _ _ rfl (fun _ h => h)⟩
    split
    · rename_i hnot
      split
      · exact ⟨[], appended_nil _ _ rfl (fun _ h => h)⟩
      · rename_i decl set hg
        obtain ⟨ds, hds⟩ := ih _
        refine ⟨_, appended_trans _ _ _ _ _
          (appended_one st _ _ decl rfl rfl hnot
            (get_tracepoint_struct_headed _ _ _ _ _ _ hg)) hds⟩
    · exact ih st

theorem parse_attach_point_appended (env : Env) (ap : AttachPoint) (st : ParseState) :
    ∃ decls, Appended st (parse_attach_point env ap st).1 decls := by
  unfold parse_attach_point
  simp only []
  split
  · split
    · split
      · exact ⟨[], appended_nil _ _ rfl (fun _ h => h)⟩
      · exact ⟨[], appended_nil _ _ rfl (fun _ h => h)⟩
      · exact parse_glob_paths_appended env _ st
    · cases ho : env.ifstream (env.event_format_file ap.target ap.func) with
      | error strerror =>
        cases hv : env.bt_verbose with
        | false => exact ⟨[], appended_nil _ _ rfl (fun _ h => h)⟩
        | true =>
          simp only [if_true]
          split
          · rename_i hnot
            split
            · exact ⟨[], appended_nil _ _ rfl (fun n h => mem_emplace_of_mem _ _ _ h)⟩
            · rename_i decl set hg
              exact ⟨_, appended_one st _ _ decl rfl rfl hnot
                (get_tracepoint_struct_headed _ _ _ _ _ _ hg)⟩
          · exact ⟨[], appended_nil _ _ rfl (fun _ h => h)⟩
      | ok lines =>
        simp only []
        split
        · rename_i hnot
          split
          · exact ⟨[], appended_nil _ _ rfl (fun n h => mem_emplace_of_mem _ _ _ h)⟩
          · rename_i decl set hg
            exact ⟨_, appended_one st _ _ decl rfl rfl hnot
              (get_tracepoint_struct_headed _ _ _ _ _ _ hg)⟩
        · exact ⟨[], appended_nil _ _ rfl (fun _ h => h)⟩
  · exact ⟨[], appended_nil _ _ rfl (fun _ h => h)⟩

theorem parse_attach_points_appended (env : Env) (aps : List AttachPoint)
    (st : ParseState) :
    ∃ decls, Appended st (parse_attach_points env aps st).1 decls := by
  induction aps generalizing st with
  | nil => exact ⟨[], appended_nil _ _ rfl (fun _ h => h)⟩
  | cons ap rest ih =>
    unfold parse_attach_points
    obtain ⟨d1, h1⟩ := parse_attach_point_appended env ap st
    cases hr : parse_attach_point env ap st with
    | mk st2 o =>
      rw [hr] at h1
      cases o with
      | none =>
        obtain ⟨d2, h2⟩ := ih st2
        exact ⟨_, appended_trans _ _ _ _ _ h1 h2⟩
      | some o => exact ⟨d1, h1⟩

theorem parse_probes_appended (env : Env) (probes : List Probe) (st : ParseState) :
    ∃ decls, Appended st (parse_probes env probes st).1 decls := by
  induction probes generalizing st with
  | nil => exact ⟨[], appended_nil _ _ rfl (fun _ h => h)⟩
  | cons probe rest ih =>
    unfold parse_probes
    obtain ⟨d1, h1⟩ := parse_attach_points_appended env probe.attach_points st
    cases hr : parse_attach_points env probe.attach_points st with
    | mk st2 o =>
      rw [hr] at h1
      cases o with
      | none =>
        obtain ⟨d2, h2⟩ := ih st2
        exact ⟨_, appended_trans _ _ _ _ _ h1 h2⟩
      | some o => exact ⟨d1, h1⟩

/-- One call of `parse`: what it appends to `c_definitions` is possibly the include line
and then declarations with pairwise different struct names, none of them in `struct_list`
before the call and all in it afterwards. -/
theorem parse_appended (env : Env) (program : Program) (struct_list btf_set : List Str)
    (diagnostics : List Diagnostic) :
    ∃ (inc : Str) (decls : List (Str × Str)),
      (inc = [] ∨ inc = "#include <linux/types.h>\n".toList) ∧
      Appended ⟨program.c_definitions ++ inc, struct_list, btf_set, diagnostics⟩
        (parse env program struct_list btf_set diagnostics).1 decls := by
  unfold parse
  simp only []
  split
  · exact ⟨[], [], Or.inl rfl, appended_nil _ _ (by simp) (fun _ h => h)⟩
  · cases hb : env.has_btf_data with
    | true =>
      obtain ⟨ds, hds⟩ := parse_probes_appended env
        (program.probes.filter env.has_ap_of_probetype)
        ⟨program.c_definitions, struct_list, btf_set, diagnostics⟩
      refine ⟨[], ds, Or.inl rfl, ?_⟩
      simp only [Bool.not_true, Bool.false_eq_true, if_false, List.append_nil]
      split <;> rename_i h <;> rw [h] at hds <;> exact hds
    | false =>
      obtain ⟨ds, hds⟩ := parse_probes_appended env
        (program.probes.filter env.has_ap_of_probetype)
        ⟨program.c_definitions ++ "#include <linux/types.h>\n".toList, struct_list,
          btf_set, diagnostics⟩
      refine ⟨_, ds, Or.inr rfl, ?_⟩
      simp only [Bool.not_false, if_true]
      split <;> rename_i h <;> rw [h] at hds <;> exact hds

theorem parse_calls_appended (calls : List (Env × Program)) (struct_list btf_set : List Str) :
    ∃ declss : List (List (Str × Str)),
      List.Forall₂
        (fun (cs : (Env × Program) × ParseState) (decls : List (Str × Str)) =>
          (∃ inc : Str, (inc = [] ∨ inc = "#include <linux/types.h>\n".toList) ∧
            cs.2.c_definitions =
              cs.1.2.c_definitions ++ inc ++ (decls.map Prod.snd).flatten) ∧
          ∀ d ∈ decls, d.1 ∈ cs.2.struct_list ∧
            ∃ body : Str, d.2 = d.1 ++ "\n\x7b\n".toList ++ body ++ "\x7d;\n".toList)
        (calls.zip (parse_calls calls struct_list btf_set)) declss ∧
      (declss.flatten.map Prod.fst).Nodup ∧
      ∀ n ∈ declss.flatten.map Prod.fst, n ∉ struct_list := by
  induction calls generalizing struct_list btf_set with
  | nil => exact ⟨[], by simp [parse_calls], by simp, by simp⟩
  | cons call rest ih =>
    obtain ⟨env, program⟩ := call
    obtain ⟨inc, d1, hinc, ht, hn, hm, hs⟩ := parse_appended env program struct_list btf_set []
    obtain ⟨declss, hf, hnd, hnot⟩ :=
      ih (parse env program struct_list btf_set []).1.struct_list
        (parse env program struct_list btf_set []).1.btf_set
    refine ⟨d1 :: declss, ?_, ?_, ?_⟩
    · unfold parse_calls
      simp only [List.zip_cons_cons]
      refine List.Forall₂.cons ⟨⟨inc, hinc, ht⟩, fun d hd => ⟨(hm d hd).2.1, (hm d hd).2.2⟩⟩ hf
    · rw [List.flatten_cons, List.map_append, List.nodup_append]
      refine ⟨hn, hnd, ?_⟩
      intro x hx1 hx2
      obtain ⟨e1, he1, rfl⟩ := List.mem_map.mp hx1
      exact hnot _ hx2 (hm e1 he1).2.1
    · intro n hn2
      rw [List.flatten_cons, List.map_append] at hn2
      rcases List.mem_append.mp hn2 with h | h
      · obtain ⟨e1, he1, rfl⟩ := List.mem_map.mp h
        exact (hm e1 he1).1
      · exact fun hx => hnot n h (hs n hx)

theorem text_lines_from_line (l rest cur : Str) (h : '\n' ∉ l) :
    text_lines_from (l ++ '\n' :: rest) cur = (cur ++ l) :: text_lines rest := by
  induction l generalizing cur with
  | nil => simp [text_lines_from, text_lines]
  | cons c l ih =>
    have hc : c ≠ '\n' := fun e => h (by simp [e])
    have hl : '\n' ∉ l := fun e => h (by simp [e])
    have h2 := ih (cur ++ [c]) hl
    show text_lines_from (c :: (l ++ '\n' :: rest)) cur = (cur ++ c :: l) :: text_lines rest
    simp only [text_lines_from, hc, if_false]
    rw [h2]
    simp

theorem headers_line (l rest : Str) (h : '\n' ∉ l) :
    headers (l ++ '\n' :: rest) = (if is_header l = true then [l] else []) ++ headers rest := by
  unfold headers text_lines
  rw [text_lines_from_line l rest [] h]
  simp only [List.nil_append, List.filter_cons]
  split <;> simp [text_lines]

theorem unlines_append (a b : List Str) : unlines (a ++ b) = unlines a ++ unlines b := by
  simp [unlines]

theorem plain_nil : Plain [] :=
  ⟨[], rfl, fun _ h => by cases h⟩

theorem plain_append (a b : Str) (ha : Plain a) (hb : Plain b) : Plain (a ++ b) := by
  obtain ⟨la, ea, pa⟩ := ha
  obtain ⟨lb, eb, pb⟩ := hb
  refine ⟨la ++ lb, by rw [unlines_append, ea, eb], ?_⟩
  intro l hl
  rcases List.mem_append.mp hl with h | h
  · exact pa l h
  · exact pb l h

theorem plain_line (l : Str) (h1 : '\n' ∉ l) (h2 : is_header l = false) :
    Plain (l ++ ['\n']) :=
  ⟨[l], by simp [unlines], fun x hx => by
    have e : x = l := by simpa using hx
    subst e
    exact ⟨h1, h2⟩⟩

theorem plain_flatten (ts : List Str) (h : ∀ t ∈ ts, Plain t) : Plain ts.flatten := by
  induction ts with
  | nil => exact plain_nil
  | cons t ts ih =>
    rw [List.flatten_cons]
    exact plain_append _ _ (h t (by simp)) (ih (fun x hx => h x (by simp [hx])))

theorem headers_plain (t rest : Str) (h : Plain t) : headers (t ++ rest) = headers rest := by
  obtain ⟨ls, e, p⟩ := h
  subst e
  induction ls with
  | nil => simp [unlines]
  | cons l ls ih =>
    have hl := p l (by simp)
    have e2 : unlines (l :: ls) ++ rest = l ++ '\n' :: (unlines ls ++ rest) := by
      simp [unlines]
    rw [e2, headers_line l _ hl.1, hl.2, ih (fun x hx => p x (by simp [hx]))]
    simp

theorem not_header_space (l : Str) : is_header (' ' :: l) = false := by
  simp [is_header, List.isPrefixOf]

theorem digit_not_newline (k : Nat) (h : k < 10) : Nat.digitChar k ≠ '\n' := by
  interval_cases k <;> decide

theorem toDigitsCore_no_newline (fuel n : Nat) (ds : Str) (h : '\n' ∉ ds) :
    '\n' ∉ Nat.toDigitsCore 10 fuel n ds := by
  induction fuel generalizing n ds with
  | zero => simpa [Nat.toDigitsCore] using h
  | succ fuel ih =>
    unfold Nat.toDigitsCore
    have hd : '\n' ∉ Nat.digitChar (n % 10) :: ds := by
      intro hm
      rcases List.mem_cons.mp hm with e | e
      · exact digit_not_newline _ (Nat.mod_lt _ (by decide)) e.symm
      · exact h e
    simp only []
    split
    · exact hd
    · exact ih _ _ hd

theorem to_string_no_newline (n : Int) : '\n' ∉ to_string n := by
  unfold to_string
  split
  · intro hm
    rcases List.mem_cons.mp hm with e | e
    · revert e; decide
    · exact toDigitsCore_no_newline _ _ [] (by simp) e
  · exact toDigitsCore_no_newline _ _ [] (by simp)

theorem plain_padding (offset gap : Int) : Plain (padding offset gap) := by
  unfold padding
  rw [foldl_append_flatten _
    (fun i : Nat => "  char __pad_".toList ++
      to_string (wrap32 (wrap32 (offset - gap) + (i : Int))) ++ ";\n".toList) _ []
    (fun _ _ => rfl)]
  rw [List.nil_append]
  apply plain_flatten
  intro t ht
  obtain ⟨i, _, rfl⟩ := List.mem_map.mp ht
  have e : "  char __pad_".toList ++ to_string (wrap32 (wrap32 (offset - gap) + (i : Int))) ++
      ";\n".toList =
      (' ' :: (" char __pad_".toList ++
        to_string (wrap32 (wrap32 (offset - gap) + (i : Int))) ++ ";".toList)) ++ ['\n'] := by
    simp
  rw [e]
  apply plain_line _ _ (not_header_space _)
  intro hm
  simp only [List.mem_cons, List.mem_append] at hm
  rcases hm with hm | (hm | hm) | hm
  · revert hm; decide
  · revert hm; decide
  · exact to_string_no_newline _ hm
  · revert hm; decide

theorem substr_no_newline (s : Str) (pos count : Nat) (h : '\n' ∉ s) :
    '\n' ∉ substr s pos count := by
  unfold substr
  exact fun hm => h (List.mem_of_mem_drop (List.mem_of_mem_take hm))

theorem substr_from_no_newline (s : Str) (pos : Nat) (h : '\n' ∉ s) :
    '\n' ∉ substr_from s pos := by
  unfold substr_from
  exact fun hm => h (List.mem_of_mem_drop hm)

theorem adjust_no_newline (t : Str) (size : Int) (h : '\n' ∉ t) :
    '\n' ∉ adjust_integer_types t size := by
  unfold adjust_integer_types
  simp only []
  split
  · split
    · decide
    · split
      · decide
      · exact h
  · exact h

theorem plain_field_line (extra ft fn : Str) (he : Plain extra) (hft : '\n' ∉ ft)
    (hfn : '\n' ∉ fn) :
    Plain (extra ++ "  ".toList ++ ft ++ " ".toList ++ fn ++ ";\n".toList) := by
  have e : extra ++ "  ".toList ++ ft ++ " ".toList ++ fn ++ ";\n".toList =
      extra ++ ((' ' :: (" ".toList ++ ft ++ " ".toList ++ fn ++ ";".toList)) ++ ['\n']) := by
    simp
  rw [e]
  apply plain_append _ _ he
  apply plain_line _ _ (not_header_space _)
  intro hm
  simp only [List.mem_cons, List.mem_append] at hm
  rcases hm with hm | (((hm | hm) | hm) | hm) | hm
  · revert hm; decide
  · revert hm; decide
  · exact hft hm
  · revert hm; decide
  · exact hfn hm
  · revert hm; decide

theorem parse_field_plain (line : Str) (last_offset : Int) (btf_set : List Str)
    (r : FieldResult) (hl : '\n' ∉ line)
    (h : parse_field line last_offset btf_set = Except.ok r) : Plain r.text := by
  have hs : ∀ a b c d : Nat, '\n' ∉ substr (substr line a b) c d :=
    fun a b c d => substr_no_newline _ _ _ (substr_no_newline _ _ _ hl)
  have hf : ∀ a b c : Nat, '\n' ∉ substr_from (substr line a b) c :=
    fun a b c => substr_from_no_newline _ _ (substr_no_newline _ _ _ hl)
  have ha : '\n' ∉ "__attribute__((annotate(\"tp_data_loc\"))) int".toList := by decide
  unfold parse_field at h
  simp only [] at h
  repeat' split at h
  all_goals first
    | (cases h; done)
    | (cases h; exact plain_nil)
    | (cases h
       apply plain_field_line
       · first
           | exact plain_padding _ _
           | exact plain_nil
       · first
           | exact hs _ _ _ _
           | exact ha
           | exact adjust_no_newline _ _ (hs _ _ _ _)
           | exact adjust_no_newline _ _ ha
       · exact hf _ _ _)

theorem fields_text_plain (lines : List Str) (last_offset : Int) (btf_set : List Str)
    (body : Str) (set : List Str) (hl : ∀ l ∈ lines, '\n' ∉ l)
    (h : fields_text lines last_offset btf_set = Except.ok (body, set)) : Plain body := by
  induction lines generalizing last_offset btf_set body set with
  | nil =>
    simp only [fields_text, Except.ok.injEq, Prod.mk.injEq] at h
    rw [← h.1]
    exact plain_nil
  | cons line rest ih =>
    unfold fields_text at h
    cases hp : parse_field line last_offset btf_set with
    | error e => rw [hp] at h; cases h
    | ok r =>
      rw [hp] at h
      simp only [] at h
      cases hr : fields_text rest r.last_offset r.btf_set with
      | error e => rw [hr] at h; cases h
      | ok b =>
        obtain ⟨body2, set2⟩ := b
        rw [hr] at h
        simp only [Except.ok.injEq, Prod.mk.injEq] at h
        rw [← h.1]
        exact plain_append _ _ (parse_field_plain line last_offset btf_set r (hl line (by simp)) hp)
          (ih _ _ _ _ (fun l hm => hl l (by simp [hm])) hr)

theorem is_header_struct_name (category event_name : Str) :
    is_header (get_struct_name category event_name) = true := by
  unfold is_header get_struct_name
  rw [List.isPrefixOf_iff_prefix]
  exact ⟨category ++ "_".toList ++ event_name, by simp⟩

theorem struct_name_no_newline (category event_name : Str) (hc : '\n' ∉ category)
    (he : '\n' ∉ event_name) : '\n' ∉ get_struct_name category event_name := by
  unfold get_struct_name
  intro hm
  simp only [List.mem_append] at hm
  rcases hm with ((hm | hm) | hm) | hm
  · revert hm; decide
  · exact hc hm
  · revert hm; decide
  · exact he hm

theorem get_tracepoint_struct_declared (format_file : List Str) (category event_name : Str)
    (btf_set : List Str) (decl : Str) (set : List Str)
    (hl : ∀ l ∈ format_file, '\n' ∉ l) (hc : '\n' ∉ category) (he : '\n' ∉ event_name)
    (h : get_tracepoint_struct format_file category event_name btf_set =
      Except.ok (decl, set)) (rest : Str) :
    headers (decl ++ rest) = get_struct_name category event_name :: headers rest := by
  rw [get_tracepoint_struct_eq] at h
  cases hf : fields_text format_file 0 btf_set with
  | error e => rw [hf] at h; cases h
  | ok b =>
    rw [hf] at h
    obtain ⟨body, set2⟩ := b
    simp only [Except.ok.injEq, Prod.mk.injEq] at h
    have hb : Plain body := fields_text_plain _ _ _ _ _ hl hf
    have e : decl ++ rest = get_struct_name category event_name ++
        '\n' :: ((("\x7b".toList ++ ['\n']) ++ (body ++ ("\x7d;".toList ++ ['\n']))) ++ rest) := by
      rw [← h.1]
      simp [get_struct_name]
    rw [e, headers_line _ _ (struct_name_no_newline _ _ hc he), is_header_struct_name]
    rw [headers_plain]
    · rfl
    · apply plain_append
      · exact plain_line _ (by decide) (by decide)
      · exact plain_append _ _ hb (plain_line _ (by decide) (by decide))

theorem substr_checked_no_newline (s : Str) (pos : Nat) (count : Option Nat) (r : Str)
    (hs : '\n' ∉ s) (h : substr_checked s pos count = Except.ok r) : '\n' ∉ r := by
  unfold substr_checked at h
  split at h
  · split at h
    · cases h; exact substr_no_newline _ _ _ hs
    · cases h; exact substr_from_no_newline _ _ hs
  · cases h

theorem declared_nil (a b : ParseState) (h1 : b.c_definitions = a.c_definitions)
    (h2 : ∀ n ∈ a.struct_list, n ∈ b.struct_list) : Declared a b [] :=
  ⟨appended_nil a b h1 h2, fun _ h => by cases h⟩

theorem declared_trans (a b c : ParseState) (d1 d2 : List (Str × Str))
    (h1 : Declared a b d1) (h2 : Declared b c d2) : Declared a c (d1 ++ d2) := by
  refine ⟨appended_trans a b c d1 d2 h1.1 h2.1, ?_⟩
  intro d hd
  rcases List.mem_append.mp hd with h | h
  · exact h1.2 d h
  · exact h2.2 d h

theorem declared_one (a b : ParseState) (name decl : Str)
    (h1 : b.c_definitions = a.c_definitions ++ decl)
    (h2 : b.struct_list = emplace a.struct_list name)
    (h3 : name ∉ a.struct_list)
    (h4 : ∃ body : Str, decl = name ++ "\n\x7b\n".toList ++ body ++ "\x7d;\n".toList)
    (h5 : ∀ rest : Str, headers (decl ++ rest) = name :: headers rest) :
    Declared a b [(name, decl)] := by
  refine ⟨appended_one a b name decl h1 h2 h3 h4, ?_⟩
  intro d hd
  have e : d = (name, decl) := by simpa using hd
  subst e
  exact h5

theorem parse_glob_paths_declared (env : Env) (henv : env.line_based) (paths : List Str)
    (hp : ∀ p ∈ paths, '\n' ∉ p) (st : ParseState) :
    ∃ decls, Declared st (parse_glob_paths env paths st).1 decls := by
  induction paths generalizing st with
  | nil => exact ⟨[], declared_nil _ _ rfl (fun _ h => h)⟩
  | cons filename rest ih =>
    have hrest : ∀ p ∈ rest, '\n' ∉ p := fun p h => hp p (by simp [h])
    have hfile : '\n' ∉ filename := hp filename (by simp)
    have hlines : ∀ l ∈ (match env.ifstream filename with
        | Except.ok lines => lines
        | Except.error _ => []), '\n' ∉ l := by
      cases ho : env.ifstream filename with
      | error e => intro l hl; cases hl
      | ok lines => exact henv.1 _ lines ho
    unfold parse_glob_paths
    simp only []
    split
    · exact ⟨[], declared_nil _ _ rfl (fun _ h => h)⟩
    rename_i real_category hcat
    split
    · exact ⟨[], declared_nil _ _ rfl (fun _ h => h)⟩
    rename_i real_event hev
    split
    · rename_i hnot
      split
      · exact ⟨[], declared_nil _ _ rfl (fun _ h => h)⟩
      · rename_i decl set hg
        obtain ⟨ds, hds⟩ := ih hrest _
        refine ⟨_, declared_trans _ _ _ _ _
          (declared_one st _ _ decl rfl rfl hnot
            (get_tracepoint_struct_headed _ _ _ _ _ _ hg)
            (get_tracepoint_struct_declared _ _ _ _ _ _ hlines
              (substr_checked_no_newline _ _ _ _ hfile hcat)
              (substr_checked_no_newline _ _ _ _ hfile hev) hg)) hds⟩
    · exact ih hrest st

theorem parse_attach_point_declared (env : Env) (henv : env.line_based) (ap : AttachPoint)
    (hap : '\n' ∉ ap.target ∧ '\n' ∉ ap.func) (st : ParseState) :
    ∃ decls, Declared st (parse_attach_point env ap st).1 decls := by
  unfold parse_attach_point
  simp only []
  split
  · split
    · split
      · exact ⟨[], declared_nil _ _ rfl (fun _ h => h)⟩
      · exact ⟨[], declared_nil _ _ rfl (fun _ h => h)⟩
      · rename_i paths hg
        exact parse_glob_paths_declared env henv _ (henv.2 _ paths hg) st
    · cases ho : env.ifstream (env.event_format_file ap.target ap.func) with
      | error strerror =>
        cases hv : env.bt_verbose with
        | false => exact ⟨[], declared_nil _ _ rfl (fun _ h => h)⟩
        | true =>
          simp only [if_true]
          split
          · rename_i hnot
            split
            · exact ⟨[], declared_nil _ _ rfl (fun n h => mem_emplace_of_mem _ _ _ h)⟩
            · rename_i decl set hg
              exact ⟨_, declared_one st _ _ decl rfl rfl hnot
                (get_tracepoint_struct_headed _ _ _ _ _ _ hg)
                (get_tracepoint_struct_declared _ _ _ _ _ _
                  (fun l hl => by cases hl) hap.1 hap.2 hg)⟩
          · exact ⟨[], declared_nil _ _ rfl (fun _ h => h)⟩
      | ok lines =>
        simp only []
        split
        · rename_i hnot
          split
          · exact ⟨[], declared_nil _ _ rfl (fun n h => mem_emplace_of_mem _ _ _ h)⟩
          · rename_i decl set hg
            exact ⟨_, declared_one st _ _ decl rfl rfl hnot
              (get_tracepoint_struct_headed _ _ _ _ _ _ hg)
              (get_tracepoint_struct_declared _ _ _ _ _ _
                (henv.1 _ lines ho) hap.1 hap.2 hg)⟩
        · exact ⟨[], declared_nil _ _ rfl (fun _ h => h)⟩
  · exact ⟨[], declared_nil _ _ rfl (fun _ h => h)⟩

theorem parse_attach_points_declared (env : Env) (henv : env.line_based)
    (aps : List AttachPoint) (haps : ∀ ap ∈ aps, '\n' ∉ ap.target ∧ '\n' ∉ ap.func)
    (st : ParseState) :
    ∃ decls, Declared st (parse_attach_points env aps st).1 decls := by
  induction aps generalizing st with
  | nil => exact ⟨[], declared_nil _ _ rfl (fun _ h => h)⟩
  | cons ap rest ih =>
    unfold parse_attach_points
    obtain ⟨d1, h1⟩ := parse_attach_point_declared env henv ap (haps ap (by simp)) st
    cases hr : parse_attach_point env ap st with
    | mk st2 o =>
      rw [hr] at h1
      cases o with
      | none =>
        obtain ⟨d2, h2⟩ := ih (fun a ha => haps a (by simp [ha])) st2
        exact ⟨_, declared_trans _ _ _ _ _ h1 h2⟩
      | some o => exact ⟨d1, h1⟩

theorem parse_probes_declared (env : Env) (henv : env.line_based) (probes : List Probe)
    (hps : ∀ probe ∈ probes, ∀ ap ∈ probe.attach_points, '\n' ∉ ap.target ∧ '\n' ∉ ap.func)
    (st : ParseState) :
    ∃ decls, Declared st (parse_probes env probes st).1 decls := by
  induction probes generalizing st with
  | nil => exact ⟨[], declared_nil _ _ rfl (fun _ h => h)⟩
  | cons probe rest ih =>
    unfold parse_probes
    obtain ⟨d1, h1⟩ := parse_attach_points_declared env henv probe.attach_points
      (hps probe (by simp)) st
    cases hr : parse_attach_points env probe.attach_points st with
    | mk st2 o =>
      rw [hr] at h1
      cases o with
      | none =>
        obtain ⟨d2, h2⟩ := ih (fun p hp => hps p (by simp [hp])) st2
        exact ⟨_, declared_trans _ _ _ _ _ h1 h2⟩
      | some o => exact ⟨d1, h1⟩

theorem parse_declared (env : Env) (henv : env.line_based) (program : Program)
    (hprog : program.single_line) (struct_list btf_set : List Str)
    (diagnostics : List Diagnostic) :
    ∃ (inc : Str) (decls : List (Str × Str)),
      (inc = [] ∨ inc = "#include <linux/types.h>\n".toList) ∧
      Declared ⟨program.c_definitions ++ inc, struct_list, btf_set, diagnostics⟩
        (parse env program struct_list btf_set diagnostics).1 decls := by
  have hf : ∀ probe ∈ program.probes.filter env.has_ap_of_probetype,
      ∀ ap ∈ probe.attach_points, '\n' ∉ ap.target ∧ '\n' ∉ ap.func :=
    fun probe hp => hprog probe (List.mem_of_mem_filter hp)
  unfold parse
  simp only []
  split
  · exact ⟨[], [], Or.inl rfl, declared_nil _ _ (by simp) (fun _ h => h)⟩
  · cases hb : env.has_btf_data with
    | true =>
      obtain ⟨ds, hds⟩ := parse_probes_declared env henv
        (program.probes.filter env.has_ap_of_probetype) hf
        ⟨program.c_definitions, struct_list, btf_set, diagnostics⟩
      refine ⟨[], ds, Or.inl rfl, ?_⟩
      simp only [Bool.not_true, Bool.false_eq_true, if_false, List.append_nil]
      split <;> rename_i h <;> rw [h] at hds <;> exact hds
    | false =>
      obtain ⟨ds, hds⟩ := parse_probes_declared env henv
        (program.probes.filter env.has_ap_of_probetype) hf
        ⟨program.c_definitions ++ "#include <linux/types.h>\n".toList, struct_list,
          btf_set, diagnostics⟩
      refine ⟨_, ds, Or.inr rfl, ?_⟩
      simp only [Bool.not_false, if_true]
      split <;> rename_i h <;> rw [h] at hds <;> exact hds

theorem headers_decls (decls : List (Str × Str))
    (h : ∀ d ∈ decls, ∀ rest : Str, headers (d.2 ++ rest) = d.1 :: headers rest)
    (rest : Str) :
    headers ((decls.map Prod.snd).flatten ++ rest) = decls.map Prod.fst ++ headers rest := by
  induction decls with
  | nil => simp
  | cons d ds ih =>
    simp only [List.map_cons, List.flatten_cons, List.append_assoc, List.cons_append]
    rw [h d (by simp), ih (fun x hx => h x (by simp [hx]))]

theorem headers_include (inc rest : Str)
    (h : inc = [] ∨ inc = "#include <linux/types.h>\n".toList) :
    headers (inc ++ rest) = headers rest := by
  rcases h with h | h
  · rw [h, List.nil_append]
  · rw [h]
    exact headers_plain _ _ (plain_line "#include <linux/types.h>".toList (by decide) (by decide))

theorem headers_nil : headers [] = [] := rfl

theorem parse_headers (env : Env) (henv : env.line_based) (program : Program)
    (hprog : program.single_line) (struct_list btf_set : List Str)
    (diagnostics : List Diagnostic) :
    ∃ (inc : Str) (decls : List (Str × Str)),
      (inc = [] ∨ inc = "#include <linux/types.h>\n".toList) ∧
      (parse env program struct_list btf_set diagnostics).1.c_definitions =
        program.c_definitions ++ (inc ++ (decls.map Prod.snd).flatten) ∧
      headers (inc ++ (decls.map Prod.snd).flatten) = decls.map Prod.fst ∧
      (∀ d ∈ decls, d.1 ∉ struct_list ∧
        d.1 ∈ (parse env program struct_list btf_set diagnostics).1.struct_list ∧
        ∃ body : Str, d.2 = d.1 ++ "\n\x7b\n".toList ++ body ++ "\x7d;\n".toList) ∧
      (decls.map Prod.fst).Nodup ∧
      ∀ n ∈ struct_list,
        n ∈ (parse env program struct_list btf_set diagnostics).1.struct_list := by
  obtain ⟨inc, decls, hinc, ⟨ht, hn, hm, hs⟩, hh⟩ :=
    parse_declared env henv program hprog struct_list btf_set diagnostics
  refine ⟨inc, decls, hinc, by rw [ht]; simp, ?_, hm, hn, hs⟩
  rw [headers_include _ _ hinc]
  have := headers_decls decls hh []
  rw [List.append_nil, headers_nil, List.append_nil] at this
  exact this

theorem parse_calls_headers (calls : List (Env × Program)) (struct_list btf_set : List Str)
    (hcalls : ∀ c ∈ calls, c.1.line_based ∧ c.2.single_line) :
    ∃ texts : List Str,
      List.Forall₂
        (fun (cs : (Env × Program) × ParseState) (text : Str) =>
          cs.2.c_definitions = cs.1.2.c_definitions ++ text ∧
          ∀ n ∈ headers text, n ∈ cs.2.struct_list)
        (calls.zip (parse_calls calls struct_list btf_set)) texts ∧
      ((texts.map headers).flatten).Nodup ∧
      ∀ n ∈ (texts.map headers).flatten, n ∉ struct_list := by
  induction calls generalizing struct_list btf_set with
  | nil => exact ⟨[], by simp [parse_calls], by simp, by simp⟩
  | cons call rest ih =>
    obtain ⟨env, program⟩ := call
    have hc := hcalls (env, program) (by simp)
    obtain ⟨inc, decls, _, ht, hh, hm, hn, hs⟩ :=
      parse_headers env hc.1 program hc.2 struct_list btf_set []
    obtain ⟨texts, hf, hnd, hnot⟩ :=
      ih (parse env program struct_list btf_set []).1.struct_list
        (parse env program struct_list btf_set []).1.btf_set
        (fun c h => hcalls c (by simp [h]))
    refine ⟨(inc ++ (decls.map Prod.snd).flatten) :: texts, ?_, ?_, ?_⟩
    · unfold parse_calls
      simp only [List.zip_cons_cons]
      refine List.Forall₂.cons ⟨ht, ?_⟩ hf
      intro n hmem
      rw [hh] at hmem
      obtain ⟨d, hd, rfl⟩ := List.mem_map.mp hmem
      exact (hm d hd).2.1
    · rw [List.map_cons, List.flatten_cons, hh, List.nodup_append]
      refine ⟨hn, hnd, ?_⟩
      intro x hx1 hx2
      obtain ⟨d, hd, rfl⟩ := List.mem_map.mp hx1
      exact hnot _ hx2 (hm d hd).2.1
    · intro n hmem
      rw [List.map_cons, List.flatten_cons, hh] at hmem
      rcases List.mem_append.mp hmem with h | h
      · obtain ⟨d, hd, rfl⟩ := List.mem_map.mp h
        exact (hm d hd).1
      · exact fun hx => hnot n h (hs n hx)

theorem sample_env_line_based : sample_env.line_based := by
  constructor
  · intro path lines h
    simp only [sample_env] at h
    split at h
    · cases h
      decide
    · cases h
  · intro pattern paths h
    simp [sample_env] at h

theorem sample_program_single_line : sample_program.single_line := by
  unfold Program.single_line sample_program
  decide

/-- C9: when the lines read from the format files, the paths `glob` matches and the
targets and functions of the attach points hold no line break, then in one call of
`parse` from any `struct_list` the text appended to `c_definitions` is the include line
or nothing, followed by declarations; each declaration is headed by its struct name, the
lines of the appended text that begin with `struct _tracepoint_` are exactly these
struct names, in order, no struct name is among them twice, none of them was in
`struct_list` before the call, all are in it afterwards, and `struct_list` loses
nothing. Over any sequence of such calls that starts from an empty `struct_list`, no
line that begins with `struct _tracepoint_` occurs twice in all the appended texts
together. -/
theorem struct_declared_once (calls : List (Env × Program)) (btf_set : List Str)
    (hcalls : ∀ c ∈ calls, c.1.line_based ∧ c.2.single_line) :
    (∀ (env : Env) (program : Program) (struct_list set : List Str)
        (diagnostics : List Diagnostic), env.line_based → program.single_line →
      ∃ (inc : Str) (decls : List (Str × Str)),
        (inc = [] ∨ inc = "#include <linux/types.h>\n".toList) ∧
        (parse env program struct_list set diagnostics).1.c_definitions =
          program.c_definitions ++ (inc ++ (decls.map Prod.snd).flatten) ∧
        headers (inc ++ (decls.map Prod.snd).flatten) = decls.map Prod.fst ∧
        (∀ d ∈ decls, d.1 ∉ struct_list ∧
          d.1 ∈ (parse env program struct_list set diagnostics).1.struct_list ∧
          ∃ body : Str, d.2 = d.1 ++ "\n\x7b\n".toList ++ body ++ "\x7d;\n".toList) ∧
        (headers (inc ++ (decls.map Prod.snd).flatten)).Nodup ∧
        ∀ n ∈ struct_list,
          n ∈ (parse env program struct_list set diagnostics).1.struct_list) ∧
    ∃ texts : List Str,
      List.Forall₂
        (fun (cs : (Env × Program) × ParseState) (text : Str) =>
          cs.2.c_definitions = cs.1.2.c_definitions ++ text ∧
          ∀ n ∈ headers text, n ∈ cs.2.struct_list)
        (calls.zip (parse_calls calls [] btf_set)) texts ∧
      ((texts.map headers).flatten).Nodup := by
  constructor
  · intro env program struct_list set diagnostics henv hprog
    obtain ⟨inc, decls, hinc, ht, hh, hm, hn, hs⟩ :=
      parse_headers env henv program hprog struct_list set diagnostics
    exact ⟨inc, decls, hinc, ht, hh, hm, by rw [hh]; exact hn, hs⟩
  · obtain ⟨texts, hf, hnd, _⟩ := parse_calls_headers calls [] btf_set hcalls
    exact ⟨texts, hf, hnd⟩

/-- C9 at two successive calls of `parse` on `tracepoint:sched:sched_switch,
tracepoint:syscall:open*`: the first call appends the include line and the declaration of
`struct _tracepoint_sched_sched_switch`, the second the include line only. -/
theorem struct_declared_once_witness :
    (∀ c ∈ [(sample_env, sample_program), (sample_env, sample_program)],
      c.1.line_based ∧ c.2.single_line) ∧
    (∃ texts : List Str,
      List.Forall₂
        (fun (cs : (Env × Program) × ParseState) (text : Str) =>
          cs.2.c_definitions = cs.1.2.c_definitions ++ text ∧
          ∀ n ∈ headers text, n ∈ cs.2.struct_list)
        ([(sample_env, sample_program), (sample_env, sample_program)].zip
          (parse_calls [(sample_env, sample_program), (sample_env, sample_program)] [] []))
        texts ∧
      ((texts.map headers).flatten).Nodup) ∧
    (parse_calls [(sample_env, sample_program), (sample_env, sample_program)] [] []).map
        (fun st => st.c_definitions) =
      [("#include <linux/types.h>\nstruct _tracepoint_sched_sched_switch\n\x7b\n" ++
          "  int prev_pid;\n\x7d;\n").toList,
        "#include <linux/types.h>\n".toList] ∧
    headers ("#include <linux/types.h>\nstruct _tracepoint_sched_sched_switch\n\x7b\n" ++
        "  int prev_pid;\n\x7d;\n").toList =
      ["struct _tracepoint_sched_sched_switch".toList] ∧
    headers "#include <linux/types.h>\n".toList = [] :=
  ⟨fun c hc => by
      have e : c = (sample_env, sample_program) := by simpa using hc
      subst e
      exact ⟨sample_env_line_based, sample_program_single_line⟩,
    (struct_declared_once [(sample_env, sample_program), (sample_env, sample_program)] []
      (fun c hc => by
        have e : c = (sample_env, sample_program) := by simpa using hc
        subst e
        exact ⟨sample_env_line_based, sample_program_single_line⟩)).2,
    by decide, by decide, by decide⟩

theorem parse_attach_points_append (env : Env) (pre rest : List AttachPoint)
    (st : ParseState) :
    parse_attach_points env (pre ++ rest) st =
      match parse_attach_points env pre st with
      | (st2, none) => parse_attach_points env rest st2
      | (st2, some o) => (st2, some o) := by
  induction pre generalizing st with
  | nil => simp [parse_attach_points]
  | cons ap pre ih =>
    simp only [List.cons_append, parse_attach_points]
    cases hr : parse_attach_point env ap st with
    | mk st2 o =>
      cases o with
      | none => exact ih st2
      | some o => rfl

theorem parse_probes_flatten (env : Env) (probes : List Probe) (st : ParseState) :
    parse_probes env probes st =
      parse_attach_points env (probes.map Probe.attach_points).flatten st := by
  induction probes generalizing st with
  | nil => rfl
  | cons probe rest ih =>
    simp only [List.map_cons, List.flatten_cons, parse_probes, parse_attach_points_append]
    cases hr : parse_attach_points env probe.attach_points st with
    | mk st2 o =>
      cases o with
      | none => simp only [ih]
      | some o => rfl

/-- C10 (amended): when `parse` reaches a tracepoint attach point whose category or event
has a wildcard and whose glob matches nothing, the attach points before it having been
processed without `parse` returning, it adds the error
`tracepoints not found: <category>:<event>` on that attach point, with the hint
`Did you mean syscalls:<event>?` exactly when the category is `syscall`, and returns
false without processing any later attach point. -/
theorem wildcard_no_match_stops (env : Env) (program : Program)
    (struct_list btf_set : List Str) (diagnostics : List Diagnostic)
    (pre post : List AttachPoint) (ap : AttachPoint) (st : ParseState)
    (hsplit : ((program.probes.filter env.has_ap_of_probetype).map
      Probe.attach_points).flatten = pre ++ ap :: post)
    (hreach : parse_attach_points env pre
      ⟨program.c_definitions ++
          (if env.has_btf_data then [] else "#include <linux/types.h>\n".toList),
        struct_list, btf_set, diagnostics⟩ = (st, none))
    (hprov : ap.provider = "tracepoint".toList)
    (hwild : env.has_wildcard ap.target = true ∨ env.has_wildcard ap.func = true)
    (hglob : env.glob (env.event_format_file ap.target ap.func) = GlobResult.nomatch) :
    parse env program struct_list btf_set diagnostics =
      ({ st with diagnostics := st.diagnostics ++
          [⟨Severity.error, ap,
            "tracepoints not found: ".toList ++ ap.target ++ ":".toList ++ ap.func,
            if ap.target = "syscall".toList then
              ["Did you mean syscalls:".toList ++ ap.func ++ "?".toList]
            else []⟩] },
        Outcome.returned false) := by
  have hne : (program.probes.filter env.has_ap_of_probetype).isEmpty = false := by
    cases hp : program.probes.filter env.has_ap_of_probetype with
    | nil => rw [hp] at hsplit; simp at hsplit
    | cons a l => rfl
  have hstep : parse_attach_point env ap st =
      ({ st with diagnostics := st.diagnostics ++
          [⟨Severity.error, ap,
            "tracepoints not found: ".toList ++ ap.target ++ ":".toList ++ ap.func,
            if ap.target = "syscall".toList then
              ["Did you mean syscalls:".toList ++ ap.func ++ "?".toList]
            else []⟩] },
        some (Outcome.returned false)) := by
    unfold parse_attach_point
    simp only [hprov, if_true, hwild, hglob]
  unfold parse
  simp only [hne, Bool.false_eq_true, if_false, parse_probes_flatten, hsplit,
    parse_attach_points_append]
  cases hb : env.has_btf_data with
  | true =>
    rw [hb] at hreach
    simp only [if_true, List.append_nil] at hreach
    simp only [Bool.not_true, Bool.false_eq_true, if_false, hreach, parse_attach_points,
      hstep]
  | false =>
    rw [hb] at hreach
    simp only [Bool.false_eq_true, if_false] at hreach
    simp only [Bool.not_false, if_true, hreach, parse_attach_points, hstep]

/-- C10 (amended) at `tracepoint:sched:sched_switch, tracepoint:syscall:open*`: the first
attach point is processed, the second stops `parse` with the error and the hint. -/
theorem wildcard_no_match_stops_witness :
    parse sample_env sample_program [] [] [] =
      (⟨"#include <linux/types.h>\nstruct _tracepoint_sched_sched_switch\n\x7b\n  int prev_pid;\n\x7d;\n".toList,
        ["struct _tracepoint_sched_sched_switch".toList], ["int".toList],
        [⟨Severity.error, ⟨"tracepoint".toList, "syscall".toList, "open*".toList⟩,
          "tracepoints not found: syscall:open*".toList,
          ["Did you mean syscalls:open*?".toList]⟩]⟩,
        Outcome.returned false) :=
  wildcard_no_match_stops sample_env sample_program [] [] []
    [⟨"tracepoint".toList, "sched".toList, "sched_switch".toList⟩] []
    ⟨"tracepoint".toList, "syscall".toList, "open*".toList⟩
    ⟨"#include <linux/types.h>\nstruct _tracepoint_sched_sched_switch\n\x7b\n  int prev_pid;\n\x7d;\n".toList,
      ["struct _tracepoint_sched_sched_switch".toList], ["int".toList], []⟩
    (by decide) (by decide) (by decide) (by decide) (by decide)

/-- C10 as stated fails: in `tracepoint:sys*:enter, tracepoint:syscall:open* { }` both
attach points have a wildcard and neither glob matches, yet `parse` returns false at the
first one and the second gets no error. -/
theorem wildcard_no_match_counterexample :
    sample_env.has_wildcard "open*".toList = true ∧
    sample_env.glob (sample_env.event_format_file "syscall".toList "open*".toList) =
      GlobResult.nomatch ∧
    parse sample_env two_wildcards_program [] [] [] =
      (⟨"#include <linux/types.h>\n".toList, [], [],
        [⟨Severity.error, ⟨"tracepoint".toList, "sys*".toList, "enter".toList⟩,
          "tracepoints not found: sys*:enter".toList, []⟩]⟩,
        Outcome.returned false) ∧
    ¬ ∃ d ∈ (parse sample_env two_wildcards_program [] [] []).1.diagnostics,
      d.ap = ⟨"tracepoint".toList, "syscall".toList, "open*".toList⟩ := by
  decide

theorem get_tracepoint_struct_nil (category event_name : Str) (btf_set : List Str) :
    get_tracepoint_struct [] category event_name btf_set =
      Except.ok (get_struct_name category event_name ++ "\n\x7b\n".toList ++ "\x7d;\n".toList,
        btf_set) := by
  simp [get_tracepoint_struct, read_fields]

/-- What `parse_attach_point` does at a single tracepoint whose format file cannot be
opened. -/
theorem parse_attach_point_not_found (env : Env) (ap : AttachPoint) (st : ParseState)
    (strerror : Str) (hprov : ap.provider = "tracepoint".toList)
    (hnw : env.has_wildcard ap.target = false ∧ env.has_wildcard ap.func = false)
    (hopen : env.ifstream (env.event_format_file ap.target ap.func) =
      Except.error strerror) :
    ∃ st2 : ParseState, parse_attach_point env ap st = (st2, none) ∧
      st2.diagnostics = st.diagnostics ++
        [⟨Severity.warning, ap,
          "tracepoint not found: ".toList ++ ap.target ++ ":".toList ++ ap.func ++
            (if env.bt_verbose then
              strerror ++ ": ".toList ++ env.event_format_file ap.target ap.func
            else []),
          if ap.target = "syscall".toList then
            ["Did you mean syscalls:".toList ++ ap.func ++ "?".toList]
          else []⟩] := by
  unfold parse_attach_point
  simp only [hprov, if_true, hnw, Bool.false_eq_true, or_self, if_false, hopen]
  cases hv : env.bt_verbose with
  | false => exact ⟨_, rfl, by simp⟩
  | true =>
    simp only [if_true, get_tracepoint_struct_nil]
    split
    · exact ⟨_, rfl, by simp⟩
    · exact ⟨_, rfl, by simp⟩

/-- C11 (amended): when `parse` reaches a tracepoint attach point without wildcard whose
format file cannot be opened, the attach points before it having been processed without
`parse` returning, it adds on that attach point one warning and nothing else: the message
is `tracepoint not found: <category>:<event>`, followed in verbose mode by the errno text,
`: ` and the path; `parse` then goes on with the next attach point instead of returning
false. -/
theorem single_not_found_warns (env : Env) (program : Program)
    (struct_list btf_set : List Str) (diagnostics : List Diagnostic)
    (pre post : List AttachPoint) (ap : AttachPoint) (st : ParseState) (strerror : Str)
    (hsplit : ((program.probes.filter env.has_ap_of_probetype).map
      Probe.attach_points).flatten = pre ++ ap :: post)
    (hreach : parse_attach_points env pre
      ⟨program.c_definitions ++
          (if env.has_btf_data then [] else "#include <linux/types.h>\n".toList),
        struct_list, btf_set, diagnostics⟩ = (st, none))
    (hprov : ap.provider = "tracepoint".toList)
    (hnw : env.has_wildcard ap.target = false ∧ env.has_wildcard ap.func = false)
    (hopen : env.ifstream (env.event_format_file ap.target ap.func) =
      Except.error strerror) :
    ∃ st2 : ParseState, parse_attach_point env ap st = (st2, none) ∧
      st2.diagnostics = st.diagnostics ++
        [⟨Severity.warning, ap,
          "tracepoint not found: ".toList ++ ap.target ++ ":".toList ++ ap.func ++
            (if env.bt_verbose then
              strerror ++ ": ".toList ++ env.event_format_file ap.target ap.func
            else []),
          if ap.target = "syscall".toList then
            ["Did you mean syscalls:".toList ++ ap.func ++ "?".toList]
          else []⟩] ∧
      parse env program struct_list btf_set diagnostics =
        match parse_attach_points env post st2 with
        | (st3, none) => (st3, Outcome.returned true)
        | (st3, some o) => (st3, o) := by
  obtain ⟨st2, hstep, hdiag⟩ := parse_attach_point_not_found env ap st strerror hprov hnw hopen
  refine ⟨st2, hstep, hdiag, ?_⟩
  have hne : (program.probes.filter env.has_ap_of_probetype).isEmpty = false := by
    cases hp : program.probes.filter env.has_ap_of_probetype with
    | nil => rw [hp] at hsplit; simp at hsplit
    | cons a l => rfl
  unfold parse
  simp only [hne, Bool.false_eq_true, if_false, parse_probes_flatten, hsplit,
    parse_attach_points_append]
  cases hb : env.has_btf_data with
  | true =>
    rw [hb] at hreach
    simp only [if_true, List.append_nil] at hreach
    simp only [Bool.not_true, Bool.false_eq_true, if_false, hreach, parse_attach_points,
      hstep]
  | false =>
    rw [hb] at hreach
    simp only [Bool.false_eq_true, if_false] at hreach
    simp only [Bool.not_false, if_true, hreach, parse_attach_points, hstep]

/-- C11 (amended) at `tracepoint:foo:bar, tracepoint:sched:sched_switch`: the first attach
point has no format file and gets the warning, `parse` goes on and returns true. -/
theorem single_not_found_warns_witness :
    ∃ st2 : ParseState,
      parse_attach_point sample_env ⟨"tracepoint".toList, "foo".toList, "bar".toList⟩
        ⟨"#include <linux/types.h>\n".toList, [], [], []⟩ = (st2, none) ∧
      st2.diagnostics = [] ++
        [⟨Severity.warning, ⟨"tracepoint".toList, "foo".toList, "bar".toList⟩,
          "tracepoint not found: foo:bar".toList, []⟩] ∧
      parse sample_env missing_then_present_program [] [] [] =
        match parse_attach_points sample_env
          [⟨"tracepoint".toList, "sched".toList, "sched_switch".toList⟩] st2 with
        | (st3, none) => (st3, Outcome.returned true)
        | (st3, some o) => (st3, o) :=
  single_not_found_warns sample_env missing_then_present_program [] [] [] []
    [⟨"tracepoint".toList, "sched".toList, "sched_switch".toList⟩]
    ⟨"tracepoint".toList, "foo".toList, "bar".toList⟩
    ⟨"#include <linux/types.h>\n".toList, [], [], []⟩
    "No such file or directory".toList
    (by decide) (by decide) (by decide) (by decide) (by decide)

/-- C11 as stated fails: in `tracepoint:sys*:enter, tracepoint:foo:bar { }` the second
attach point has no wildcard and its format file cannot be opened, yet `parse` has
returned false at the first attach point and reports no warning on the second. -/
theorem single_not_found_counterexample :
    sample_env.has_wildcard "foo".toList = false ∧
    sample_env.has_wildcard "bar".toList = false ∧
    sample_env.ifstream (sample_env.event_format_file "foo".toList "bar".toList) =
      Except.error "No such file or directory".toList ∧
    sample_env.bt_verbose = false ∧
    parse sample_env wildcard_then_single_program [] [] [] =
      (⟨"#include <linux/types.h>\n".toList, [], [],
        [⟨Severity.error, ⟨"tracepoint".toList, "sys*".toList, "enter".toList⟩,
          "tracepoints not found: sys*:enter".toList, []⟩]⟩,
        Outcome.returned false) ∧
    ¬ ∃ d ∈ (parse sample_env wildcard_then_single_program [] [] []).1.diagnostics,
      d.ap = ⟨"tracepoint".toList, "foo".toList, "bar".toList⟩ := by
  decide

/-- C12: the numeric texts are converted without a guard. On lines that have all six
markers but an empty, a non-numeric or an out-of-range offset or size, `parse_field` ends
by the exception of `std::stoi`, and the exception leaves `get_tracepoint_struct` and
`parse` as well. -/
theorem parse_field_throws_on_malformed_number :
    parse_field "\tfield:int a;\toffset:;\tsize:4;\tsigned:1;".toList 0 [] =
      Except.error Exc.invalid_argument ∧
    parse_field "\tfield:int a;\toffset:0;\tsize:;\tsigned:1;".toList 0 [] =
      Except.error Exc.invalid_argument ∧
    parse_field "\tfield:int a;\toffset:x;\tsize:4;\tsigned:1;".toList 0 [] =
      Except.error Exc.invalid_argument ∧
    parse_field "\tfield:int a;\toffset:0;\tsize:99999999999;\tsigned:1;".toList 0 [] =
      Except.error Exc.out_of_range ∧
    get_tracepoint_struct
      ["name: bad".toList, "\tfield:int a;\toffset:;\tsize:4;\tsigned:1;".toList]
      "net".toList "bad".toList [] = Except.error Exc.invalid_argument ∧
    (parse malformed_env malformed_program [] [] []).2 =
      Outcome.threw Exc.invalid_argument := by
  decide

/-- C13: `parse` appends `#include <linux/types.h>` to `c_definitions` exactly when some
probe has a tracepoint attach point and BTF data is not available, and does so before
any struct declaration; with BTF data, or without such a probe, what it appends are
struct declarations only, and without such a probe nothing at all. -/
theorem include_line_iff (env : Env) (program : Program) (struct_list btf_set : List Str)
    (diagnostics : List Diagnostic) :
    (∃ decls : List (Str × Str),
      Appended
        ⟨program.c_definitions ++
            (if (∃ probe ∈ program.probes, env.has_ap_of_probetype probe = true) ∧
                env.has_btf_data = false
              then "#include <linux/types.h>\n".toList else []),
          struct_list, btf_set, diagnostics⟩
        (parse env program struct_list btf_set diagnostics).1 decls) ∧
    (env.has_btf_data = true →
      ∃ decls : List (Str × Str),
        (parse env program struct_list btf_set diagnostics).1.c_definitions =
          program.c_definitions ++ (decls.map Prod.snd).flatten ∧
        ∀ d ∈ decls, ∃ body : Str,
          d.2 = d.1 ++ "\n\x7b\n".toList ++ body ++ "\x7d;\n".toList) ∧
    ((¬ ∃ probe ∈ program.probes, env.has_ap_of_probetype probe = true) →
      (parse env program struct_list btf_set diagnostics).1.c_definitions =
        program.c_definitions) := by
  have hiff : (program.probes.filter env.has_ap_of_probetype).isEmpty = true ↔
      ¬ ∃ probe ∈ program.probes, env.has_ap_of_probetype probe = true := by
    rw [List.isEmpty_iff, List.filter_eq_nil_iff]
    constructor
    · rintro h ⟨probe, hp, hq⟩; exact h probe hp hq
    · intro h probe hp hq; exact h ⟨probe, hp, hq⟩
  have main : ∃ decls : List (Str × Str),
      Appended
        ⟨program.c_definitions ++
            (if (∃ probe ∈ program.probes, env.has_ap_of_probetype probe = true) ∧
                env.has_btf_data = false
              then "#include <linux/types.h>\n".toList else []),
          struct_list, btf_set, diagnostics⟩
        (parse env program struct_list btf_set diagnostics).1 decls := by
    by_cases hex : ∃ probe ∈ program.probes, env.has_ap_of_probetype probe = true
    · have hne : (program.probes.filter env.has_ap_of_probetype).isEmpty = false := by
        rw [← Bool.not_eq_true, hiff]; exact not_not.mpr hex
      unfold parse
      simp only [hne, Bool.false_eq_true, if_false, hex, true_and]
      cases hb : env.has_btf_data with
      | true =>
        obtain ⟨ds, hds⟩ := parse_probes_appended env
          (program.probes.filter env.has_ap_of_probetype)
          ⟨program.c_definitions, struct_list, btf_set, diagnostics⟩
        refine ⟨ds, ?_⟩
        simp only [Bool.not_true, Bool.false_eq_true, Bool.true_eq_false, if_false,
          List.append_nil]
        split <;> rename_i h <;> rw [h] at hds <;> exact hds
      | false =>
        obtain ⟨ds, hds⟩ := parse_probes_appended env
          (program.probes.filter env.has_ap_of_probetype)
          ⟨program.c_definitions ++ "#include <linux/types.h>\n".toList, struct_list,
            btf_set, diagnostics⟩
        refine ⟨ds, ?_⟩
        simp only [Bool.not_false, if_true]
        split <;> rename_i h <;> rw [h] at hds <;> exact hds
    · have he : (program.probes.filter env.has_ap_of_probetype).isEmpty = true :=
        hiff.mpr hex
      unfold parse
      simp only [he, if_true, hex, false_and, if_false, List.append_nil]
      exact ⟨[], appended_nil _ _ rfl (fun _ h => h)⟩
  refine ⟨main, ?_, ?_⟩
  · intro hb
    obtain ⟨decls, ht, _, hm, _⟩ := main
    simp only [hb, Bool.true_eq_false, and_false, if_false, List.append_nil] at ht hm
    exact ⟨decls, ht, fun d hd => (hm d hd).2.2⟩
  · intro hex
    obtain ⟨decls, ht, _, _, _⟩ := main
    have he : (program.probes.filter env.has_ap_of_probetype).isEmpty = true :=
      hiff.mpr hex
    unfold parse
    simp only [he, if_true]

/-- C13 at a program without tracepoint probe in an environment without BTF data. -/
theorem include_line_iff_witness :
    (parse sample_env ⟨[⟨[⟨"kprobe".toList, "f".toList, [] ⟩]⟩], "int x;\n".toList⟩
      [] [] []).1.c_definitions = "int x;\n".toList :=
  (include_line_iff sample_env ⟨[⟨[⟨"kprobe".toList, "f".toList, [] ⟩]⟩], "int x;\n".toList⟩
    [] [] []).2.2 (by decide)

/-- C19 (amended): for a well-formed line `field:<type> <name>; offset:<N>; size:<M>; ...`
whose type does not contain `__data_loc` and whose name contains no `[`, entered with a
`last_offset` for which the `int` arithmetic of `parse_field` is defined (neither
`N - last_offset`, made when both are not 0, nor `N + M` overflows), `parse_field` returns
the padding followed by
`  ` ++ `adjust_integer_types(<type>, M)` ++ ` ` ++ `<name>` ++ `;\n` and sets
`last_offset` to `N + M`. -/
theorem plain_field_declared (f : FieldLine) (hf : f.well_formed = true)
    (hdl : ¬ ("__data_loc".toList <:+: f.type)) (harr : '[' ∉ f.name)
    (last_offset : Int) (btf_set : List Str)
    (hdef : arithmetic_defined f.offset_value f.size_value last_offset = true) :
    ∃ r : FieldResult, parse_field f.text last_offset btf_set = Except.ok r ∧
      r.text = pad_text f.offset_value last_offset ++
        ("  ".toList ++ adjust_integer_types f.type f.size_value ++ " ".toList ++
          f.name ++ ";\n".toList) ∧
      r.last_offset = f.offset_value + f.size_value := by
  refine ⟨_, parse_field_well_formed f hf last_offset btf_set, ?_, ?_⟩
  · have h1 : (find f.type "__data_loc".toList 0).isSome = false := by
      rw [find_zero]
      rw [← Bool.not_eq_true, find_at_isSome_iff]
      exact hdl
    have h2 : (find_char f.name '[' 0).isNone = true := by
      have h3 : ¬ ((find_char f.name '[' 0).isSome = true) := fun h =>
        harr ((find_char_isSome_iff f.name '[').mp h)
      cases hq : find_char f.name '[' 0 with
      | none => rfl
      | some p => rw [hq] at h3; exact absurd rfl h3
    simp only [FieldLine.emitted_type, h1, h2, Bool.false_eq_true, if_false, if_true,
      List.append_assoc, extra_defined f hf last_offset hdef]
  · show wrap32 (f.offset_value + f.size_value) = _
    rw [arithmetic_defined_iff] at hdef
    exact wrap32_id _ hdef.2.2.1 hdef.2.2.2

/-- C19 (amended) at `field:unsigned int flags; offset:8; size:8; signed:0;` after a field
that ended at byte 4. -/
theorem plain_field_declared_witness :
    (∃ r : FieldResult,
      parse_field "field:unsigned int flags; offset:8; size:8; signed:0;".toList 4 [] =
        Except.ok r ∧
      r.text = pad_text 8 4 ++ "  u64 flags;\n".toList ∧
      r.last_offset = 8 + 8) ∧
    pad_text 8 4 =
      "  char __pad_4;\n  char __pad_5;\n  char __pad_6;\n  char __pad_7;\n".toList :=
  ⟨plain_field_declared
    ⟨[], "unsigned int".toList, "flags".toList, " ".toList, "8".toList, " ".toList,
      "8".toList, " signed:0;".toList⟩
    (by decide) (by decide) (by decide) 4 [] (by decide), by decide⟩

/-- C19 as stated fails: on the well-formed line
`field:int a; offset:2147483647; size:1; signed:1;` the sum `N + M` does not fit the
`int` that holds `last_offset`, which ends up different from `N + M`; and after a line
that left `last_offset` at `INT_MIN`, the subtraction `offset - *last_offset` overflows on
the well-formed line `field:int a; offset:8; size:4;`. -/
theorem plain_field_counterexample :
    (FieldLine.mk [] "int".toList "a".toList " ".toList "2147483647".toList " ".toList
        "1".toList " signed:1;".toList).well_formed = true ∧
    (FieldLine.mk [] "int".toList "a".toList " ".toList "2147483647".toList " ".toList
        "1".toList " signed:1;".toList).text =
      "field:int a; offset:2147483647; size:1; signed:1;".toList ∧
    parse_field "field:int a; offset:2147483647; size:1; signed:1;".toList 0 [] =
      Except.ok ⟨"  int a;\n".toList, -2147483648, ["int".toList]⟩ ∧
    (-2147483648 : Int) ≠ 2147483647 + 1 ∧
    arithmetic_defined 2147483647 1 0 = false ∧
    (FieldLine.mk [] "int".toList "a".toList " ".toList "8".toList " ".toList
        "4".toList []).well_formed = true ∧
    parse_field "field:int x; offset:-2147483648; size:0;".toList 0 [] =
      Except.ok ⟨"  int x;\n".toList, -2147483648, ["int".toList]⟩ ∧
    arithmetic_defined 8 4 (-2147483648) = false := by
  decide

/-- C20: a line that lacks, in this order, `field:`, a `;` after it, `offset:` after that
`;`, a `;` after it, `size:` after that `;` and a `;` after it makes `parse_field` return
the empty string and leave `last_offset` and `btf_set_` as they were. -/
theorem non_field_line_ignored (line : Str) (last_offset : Int) (btf_set : List Str)
    (h : ¬ ∃ p1 p2 p3 p4 p5 p6 : Nat,
      find line "field:".toList 0 = some p1 ∧ find_char line ';' p1 = some p2 ∧
      find line "offset:".toList p2 = some p3 ∧ find_char line ';' p3 = some p4 ∧
      find line "size:".toList p4 = some p5 ∧ find_char line ';' p5 = some p6) :
    parse_field line last_offset btf_set = Except.ok ⟨[], last_offset, btf_set⟩ := by
  unfold parse_field
  cases h1 : find line "field:".toList 0 with
  | none => rfl
  | some p1 =>
  simp only []
  cases h2 : find_char line ';' p1 with
  | none => rfl
  | some p2 =>
  simp only []
  cases h3 : find line "offset:".toList p2 with
  | none => rfl
  | some p3 =>
  simp only []
  cases h4 : find_char line ';' p3 with
  | none => rfl
  | some p4 =>
  simp only []
  cases h5 : find line "size:".toList p4 with
  | none => rfl
  | some p5 =>
  simp only []
  cases h6 : find_char line ';' p5 with
  | none => rfl
  | some p6 => exact absurd ⟨p1, p2, p3, p4, p5, p6, h1, h2, h3, h4, h5, h6⟩ h

/-- C20 at the header lines of a format file and at a field line cut before its size. -/
theorem non_field_line_ignored_witness :
    parse_field "name: sched_switch".toList 8 ["int".toList] =
      Except.ok ⟨[], 8, ["int".toList]⟩ ∧
    parse_field "ID: 316".toList 8 ["int".toList] = Except.ok ⟨[], 8, ["int".toList]⟩ ∧
    parse_field "format:".toList 8 ["int".toList] = Except.ok ⟨[], 8, ["int".toList]⟩ ∧
    parse_field "print fmt: \"prev_comm=%s\", REC->prev_comm".toList 8 ["int".toList] =
      Except.ok ⟨[], 8, ["int".toList]⟩ ∧
    parse_field "\tfield:int a;\toffset:8;".toList 8 ["int".toList] =
      Except.ok ⟨[], 8, ["int".toList]⟩ :=
  ⟨non_field_line_ignored _ 8 _ (fun ⟨_, _, _, _, _, _, h, _⟩ => by
      have e : find "name: sched_switch".toList "field:".toList 0 = none := by decide
      rw [e] at h; cases h),
   non_field_line_ignored _ 8 _ (fun ⟨_, _, _, _, _, _, h, _⟩ => by
      have e : find "ID: 316".toList "field:".toList 0 = none := by decide
      rw [e] at h; cases h),
   non_field_line_ignored _ 8 _ (fun ⟨_, _, _, _, _, _, h, _⟩ => by
      have e : find "format:".toList "field:".toList 0 = none := by decide
      rw [e] at h; cases h),
   non_field_line_ignored _ 8 _ (fun ⟨_, _, _, _, _, _, h, _⟩ => by
      have e : find "print fmt: \"prev_comm=%s\", REC->prev_comm".toList
          "field:".toList 0 = none := by decide
      rw [e] at h; cases h),
   non_field_line_ignored _ 8 _ (fun ⟨p1, p2, p3, p4, _, _, h1, h2, h3, h4, h5, _⟩ => by
      have e1 : find "\tfield:int a;\toffset:8;".toList "field:".toList 0 = some 1 := by
        decide
      rw [e1] at h1; cases h1
      have e2 : find_char "\tfield:int a;\toffset:8;".toList ';' 1 = some 12 := by decide
      rw [e2] at h2; cases h2
      have e3 : find "\tfield:int a;\toffset:8;".toList "offset:".toList 12 = some 14 := by
        decide
      rw [e3] at h3; cases h3
      have e4 : find_char "\tfield:int a;\toffset:8;".toList ';' 14 = some 22 := by decide
      rw [e4] at h4; cases h4
      have e5 : find "\tfield:int a;\toffset:8;".toList "size:".toList 22 = none := by
        decide
      rw [e5] at h5; cases h5)⟩

/-- C27: when no probe of the program has a tracepoint attach point, `parse` returns true
and leaves `c_definitions`, `struct_list`, `btf_set_` and the diagnostics as they
were. -/
theorem parse_without_tracepoint (env : Env) (program : Program)
    (struct_list btf_set : List Str) (diagnostics : List Diagnostic)
    (h : ∀ probe ∈ program.probes, env.has_ap_of_probetype probe = false) :
    parse env program struct_list btf_set diagnostics =
      (⟨program.c_definitions, struct_list, btf_set, diagnostics⟩, Outcome.returned true) := by
  have hf : program.probes.filter env.has_ap_of_probetype = [] := by
    rw [List.filter_eq_nil_iff]
    intro probe hp
    rw [h probe hp]
    simp
  simp [parse, hf]

/-- C27 at `kprobe:f { } BEGIN { }` with earlier definitions, struct names, types and
diagnostics. -/
theorem parse_without_tracepoint_witness :
    parse sample_env kprobe_program ["struct _tracepoint_a_b".toList] ["int".toList]
        [⟨Severity.warning, ⟨"tracepoint".toList, "a".toList, "c".toList⟩, "w".toList, []⟩] =
      (⟨"struct x;\n".toList, ["struct _tracepoint_a_b".toList], ["int".toList],
        [⟨Severity.warning, ⟨"tracepoint".toList, "a".toList, "c".toList⟩, "w".toList, []⟩]⟩,
        Outcome.returned true) :=
  parse_without_tracepoint sample_env kprobe_program _ _ _ (by decide)

theorem split_at_first (c : Char) (a1 a2 b1 b2 : Str) (h1 : c ∉ a1) (h2 : c ∉ a2)
    (e : a1 ++ c :: b1 = a2 ++ c :: b2) : a1 = a2 ∧ b1 = b2 := by
  induction a1 generalizing a2 with
  | nil =>
    cases a2 with
    | nil => simpa using e
    | cons x a2 =>
      simp only [List.nil_append, List.cons_append, List.cons.injEq] at e
      exact absurd (by rw [e.1]; simp) h2
  | cons y a1 ih =>
    cases a2 with
    | nil =>
      simp only [List.nil_append, List.cons_append, List.cons.injEq] at e
      exact absurd (by rw [← e.1]; simp) h1
    | cons x a2 =>
      simp only [List.cons_append, List.cons.injEq] at e
      have := ih a2 (fun h => h1 (List.mem_cons_of_mem _ h))
        (fun h => h2 (List.mem_cons_of_mem _ h)) e.2
      exact ⟨by rw [e.1, this.1], this.2⟩

/-- C24: the pairs `("a_b", "c")` and `("a", "b_c")` are different and have the same
struct name; on pairs whose category contains no `_`, `get_struct_name` is injective. -/
theorem get_struct_name_collides :
    get_struct_name "a_b".toList "c".toList = get_struct_name "a".toList "b_c".toList ∧
    ("a_b".toList, "c".toList) ≠ ("a".toList, "b_c".toList) ∧
    ∀ category1 event1 category2 event2 : Str, '_' ∉ category1 → '_' ∉ category2 →
      get_struct_name category1 event1 = get_struct_name category2 event2 →
        category1 = category2 ∧ event1 = event2 := by
  refine ⟨by decide, by decide, ?_⟩
  intro c1 e1 c2 e2 h1 h2 e
  unfold get_struct_name at e
  rw [List.append_assoc, List.append_assoc, List.append_assoc, List.append_assoc] at e
  have e3 := List.append_cancel_left e
  exact split_at_first '_' c1 c2 e1 e2 h1 h2 e3

/-- C24 at `sched:sched_switch`, and the struct name the two colliding pairs share. -/
theorem get_struct_name_collides_witness :
    ("sched".toList = "sched".toList ∧ "sched_switch".toList = "sched_switch".toList) ∧
    get_struct_name "a_b".toList "c".toList = "struct _tracepoint_a_b_c".toList ∧
    get_struct_name "a".toList "b_c".toList = "struct _tracepoint_a_b_c".toList :=
  ⟨get_struct_name_collides.2.2 "sched".toList "sched_switch".toList "sched".toList
      "sched_switch".toList (by decide) (by decide) rfl, by decide, by decide⟩

/-- C26: at a tracepoint attach point without wildcard whose format file cannot be opened
and whose struct name is not in `struct_list`, the loop of `parse` goes on to the next
attach point; in non-verbose mode it has only added the warning, `c_definitions` and
`struct_list` being as they were; in verbose mode it has added the warning with the errno
text, `: ` and the path appended, has appended the declaration without members
`struct _tracepoint_<category>_<event>`, `\n`, opening brace, `\n`, closing brace, `;\n`
to `c_definitions` and has recorded the name in `struct_list`. -/
theorem unopened_single_tracepoint (env : Env) (ap : AttachPoint) (st : ParseState)
    (strerror : Str) (hprov : ap.provider = "tracepoint".toList)
    (hnw : env.has_wildcard ap.target = false ∧ env.has_wildcard ap.func = false)
    (hopen : env.ifstream (env.event_format_file ap.target ap.func) =
      Except.error strerror)
    (hnew : get_struct_name ap.target ap.func ∉ st.struct_list) :
    (env.bt_verbose = false →
      parse_attach_point env ap st =
        (⟨st.c_definitions, st.struct_list, st.btf_set,
          st.diagnostics ++
            [⟨Severity.warning, ap,
              "tracepoint not found: ".toList ++ ap.target ++ ":".toList ++ ap.func,
              if ap.target = "syscall".toList then
                ["Did you mean syscalls:".toList ++ ap.func ++ "?".toList]
              else []⟩]⟩, none)) ∧
    (env.bt_verbose = true →
      parse_attach_point env ap st =
        (⟨st.c_definitions ++
            ("struct _tracepoint_".toList ++ ap.target ++ "_".toList ++ ap.func ++
              "\n\x7b\n\x7d;\n".toList),
          st.struct_list ++ [get_struct_name ap.target ap.func], st.btf_set,
          st.diagnostics ++
            [⟨Severity.warning, ap,
              "tracepoint not found: ".toList ++ ap.target ++ ":".toList ++ ap.func ++
                strerror ++ ": ".toList ++ env.event_format_file ap.target ap.func,
              if ap.target = "syscall".toList then
                ["Did you mean syscalls:".toList ++ ap.func ++ "?".toList]
              else []⟩]⟩, none)) := by
  constructor
  · intro hv
    unfold parse_attach_point
    simp only [hprov, if_true, hnw, Bool.false_eq_true, or_self, if_false, hopen, hv]
  · intro hv
    unfold parse_attach_point
    simp only [hprov, if_true, hnw, Bool.false_eq_true, or_self, if_false, hopen, hv,
      get_tracepoint_struct_nil, hnew, not_false_eq_true, emplace]
    simp [get_struct_name]

/-- C26 at `tracepoint:foo:bar` in a tracefs without that event, in both modes, and what
`parse` leaves for the program `tracepoint:foo:bar` in each. -/
theorem unopened_single_tracepoint_witness :
    parse_attach_point sample_env ⟨"tracepoint".toList, "foo".toList, "bar".toList⟩
        ⟨[], [], [], []⟩ =
      (⟨[], [], [],
        [⟨Severity.warning, ⟨"tracepoint".toList, "foo".toList, "bar".toList⟩,
          "tracepoint not found: foo:bar".toList, []⟩]⟩, none) ∧
    parse_attach_point verbose_env ⟨"tracepoint".toList, "foo".toList, "bar".toList⟩
        ⟨[], [], [], []⟩ =
      (⟨"struct _tracepoint_foo_bar\n\x7b\n\x7d;\n".toList,
        ["struct _tracepoint_foo_bar".toList], [],
        [⟨Severity.warning, ⟨"tracepoint".toList, "foo".toList, "bar".toList⟩,
          ("tracepoint not found: foo:barNo such file or directory: " ++
            "/events/foo/bar/format").toList, []⟩]⟩, none) ∧
    (parse sample_env missing_program [] [] []).1.c_definitions =
      "#include <linux/types.h>\n".toList ∧
    (parse sample_env missing_program [] [] []).1.struct_list = [] ∧
    (parse verbose_env missing_program [] [] []).1.c_definitions =
      "#include <linux/types.h>\nstruct _tracepoint_foo_bar\n\x7b\n\x7d;\n".toList ∧
    (parse verbose_env missing_program [] [] []).1.struct_list =
      ["struct _tracepoint_foo_bar".toList] := by
  refine ⟨?_, ?_, by decide, by decide, by decide, by decide⟩
  · have h := (unopened_single_tracepoint sample_env
      ⟨"tracepoint".toList, "foo".toList, "bar".toList⟩ ⟨[], [], [], []⟩
      "No such file or directory".toList rfl (by decide) (by decide) (by decide)).1 rfl
    rw [h]
    decide
  · have h := (unopened_single_tracepoint verbose_env
      ⟨"tracepoint".toList, "foo".toList, "bar".toList⟩ ⟨[], [], [], []⟩
      "No such file or directory".toList rfl (by decide) (by decide) (by decide)).2 rfl
    rw [h]
    decide

/-- The loop over the matched paths works on the names `real_names` extracts. -/
theorem parse_glob_paths_names (env : Env) (filename : Str) (rest : List Str)
    (st : ParseState) :
    parse_glob_paths env (filename :: rest) st =
      match real_names env.events filename with
      | Except.error e => (st, some (Outcome.threw e))
      | Except.ok (real_category, real_event) =>
        if get_struct_name real_category real_event ∉ st.struct_list then
          match get_tracepoint_struct
              (match env.ifstream filename with
                | Except.ok lines => lines
                | Except.error _ => [])
              real_category real_event st.btf_set with
          | Except.error e =>
            (⟨st.c_definitions, st.struct_list,
              btf_set_after
                (match env.ifstream filename with
                  | Except.ok lines => lines
                  | Except.error _ => []) 0 st.btf_set,
              st.diagnostics⟩, some (Outcome.threw e))
          | Except.ok (decl, btf_set) =>
            parse_glob_paths env rest
              ⟨st.c_definitions ++ decl,
                emplace st.struct_list (get_struct_name real_category real_event),
                btf_set, st.diagnostics⟩
        else parse_glob_paths env rest st := by
  simp only [parse_glob_paths, real_names]
  cases h1 : substr_checked filename (env.events ++ "/".toList).length
      (count_sub (find_char filename '/' (env.events ++ "/".toList).length)
        (env.events ++ "/".toList).length) with
  | error e => rfl
  | ok real_category =>
    simp only []
    cases h2 : substr_checked filename
        ((env.events ++ "/".toList).length + real_category.length + 1)
        (count_sub (some filename.length)
          ("/format".toList.length +
            ((env.events ++ "/".toList).length + real_category.length + 1))) with
    | error e => rfl
    | ok real_event => rfl

theorem real_names_round_trip (events category event_name : Str) (hc : '/' ∉ category) :
    real_names events
        (events ++ "/".toList ++ category ++ "/".toList ++ event_name ++ "/format".toList) =
      Except.ok (category, event_name) := by
  have e1 : events ++ "/".toList ++ category ++ "/".toList ++ event_name ++ "/format".toList
      = (events ++ "/".toList) ++ (category ++ ['/'] ++ (event_name ++ "/format".toList)) := by
    simp
  have hfind : find_char
      (events ++ "/".toList ++ category ++ "/".toList ++ event_name ++ "/format".toList) '/'
      (events ++ "/".toList).length = some ((events ++ "/".toList).length + category.length) := by
    rw [e1]
    exact find_skip _ category _ '/' [] hc _ rfl
  have hlen : (events ++ "/".toList ++ category ++ "/".toList ++ event_name ++
      "/format".toList).length = events.length + 1 + category.length + 1 + event_name.length + 7 := by
    simp
    omega
  have hpre : (events ++ "/".toList).length = events.length + 1 := by simp
  have hs1 : substr
      (events ++ "/".toList ++ category ++ "/".toList ++ event_name ++ "/format".toList)
      (events ++ "/".toList).length category.length = category := by
    have e2 : events ++ "/".toList ++ category ++ "/".toList ++ event_name ++
        "/format".toList =
        (events ++ "/".toList) ++ (category ++ ("/".toList ++ event_name ++ "/format".toList)) := by
      simp
    rw [e2]
    exact substr_mid _ _ _ _ _ rfl rfl
  have hs2 : substr
      (events ++ "/".toList ++ category ++ "/".toList ++ event_name ++ "/format".toList)
      ((events ++ "/".toList).length + category.length + 1) event_name.length = event_name := by
    have e3 : events ++ "/".toList ++ category ++ "/".toList ++ event_name ++
        "/format".toList =
        (events ++ "/".toList ++ category ++ "/".toList) ++ (event_name ++ "/format".toList) := by
      simp
    rw [e3]
    exact substr_mid _ _ _ _ _ (by simp; omega) rfl
  have h7 : "/format".toList.length = 7 := rfl
  have hA : substr_checked
      (events ++ "/".toList ++ category ++ "/".toList ++ event_name ++ "/format".toList)
      (events ++ "/".toList).length
      (count_sub (find_char
        (events ++ "/".toList ++ category ++ "/".toList ++ event_name ++ "/format".toList) '/'
        (events ++ "/".toList).length) (events ++ "/".toList).length) =
      Except.ok category := by
    rw [hfind]
    simp only [count_sub, substr_checked, Nat.le_add_right, if_true, Nat.add_sub_cancel_left]
    rw [if_pos (by rw [hlen, hpre]; omega), hs1]
  have hB : substr_checked
      (events ++ "/".toList ++ category ++ "/".toList ++ event_name ++ "/format".toList)
      ((events ++ "/".toList).length + category.length + 1)
      (count_sub (some (events ++ "/".toList ++ category ++ "/".toList ++ event_name ++
        "/format".toList).length)
        ("/format".toList.length + ((events ++ "/".toList).length + category.length + 1))) =
      Except.ok event_name := by
    have hcount : (events ++ "/".toList ++ category ++ "/".toList ++ event_name ++
        "/format".toList).length -
        ("/format".toList.length + ((events ++ "/".toList).length + category.length + 1)) =
        event_name.length := by
      rw [hlen, hpre, h7]
      omega
    simp only [count_sub, substr_checked]
    rw [if_pos (by rw [hlen, hpre]; omega), if_pos (by rw [hlen, hpre, h7]; omega)]
    simp only [hcount, hs2]
  unfold real_names
  simp only [hA, hB]

/-- C25: from the matched file name `<events>/<category>/<event>/format`, where the
category contains no `/`, the loop over the matched paths extracts exactly the category
and the event: `real_names` returns them, and the loop declares, or skips as already
declared, the struct of that category and event. -/
theorem wildcard_path_round_trip (env : Env) (category event_name : Str)
    (rest : List Str) (st : ParseState) (hc : '/' ∉ category) :
    real_names env.events
        (env.events ++ "/".toList ++ category ++ "/".toList ++ event_name ++
          "/format".toList) = Except.ok (category, event_name) ∧
    parse_glob_paths env
        ((env.events ++ "/".toList ++ category ++ "/".toList ++ event_name ++
          "/format".toList) :: rest) st =
      if get_struct_name category event_name ∉ st.struct_list then
        match get_tracepoint_struct
            (match env.ifstream (env.events ++ "/".toList ++ category ++ "/".toList ++
                event_name ++ "/format".toList) with
              | Except.ok lines => lines
              | Except.error _ => [])
            category event_name st.btf_set with
        | Except.error e =>
          (⟨st.c_definitions, st.struct_list,
            btf_set_after
              (match env.ifstream (env.events ++ "/".toList ++ category ++ "/".toList ++
                  event_name ++ "/format".toList) with
                | Except.ok lines => lines
                | Except.error _ => []) 0 st.btf_set,
            st.diagnostics⟩, some (Outcome.threw e))
        | Except.ok (decl, btf_set) =>
          parse_glob_paths env rest
            ⟨st.c_definitions ++ decl,
              emplace st.struct_list (get_struct_name category event_name),
              btf_set, st.diagnostics⟩
      else parse_glob_paths env rest st := by
  refine ⟨real_names_round_trip env.events category event_name hc, ?_⟩
  rw [parse_glob_paths_names, real_names_round_trip env.events category event_name hc]

/-- C25 at `/events/sched/sched_switch/format` with the events root `/events`, and at an
event name that itself holds a `/`. -/
theorem wildcard_path_round_trip_witness :
    real_names "/events".toList "/events/sched/sched_switch/format".toList =
      Except.ok ("sched".toList, "sched_switch".toList) ∧
    real_names "/events".toList "/events/net/a/b/format".toList =
      Except.ok ("net".toList, "a/b".toList) ∧
    (parse_glob_paths sample_env ["/events/sched/sched_switch/format".toList]
      ⟨[], [], [], []⟩).1.struct_list = ["struct _tracepoint_sched_sched_switch".toList] :=
  ⟨(wildcard_path_round_trip sample_env "sched".toList "sched_switch".toList []
      ⟨[], [], [], []⟩ (by decide)).1,
    (wildcard_path_round_trip sample_env "net".toList "a/b".toList []
      ⟨[], [], [], []⟩ (by decide)).1,
    by decide⟩

/-- C21 (amended): on a line that has the six markers and numeric offset `N` and size `M`
but whose field declaration, the text between `field:` and the next `;`, holds neither a
space nor a tab, entered with a `last_offset` for which the `int` arithmetic of
`parse_field` is defined (neither `N - last_offset`, made when both are not 0, nor `N + M`
overflows), `parse_field` returns the empty string, so without the padding, and leaves
`btf_set_` as it was, yet sets `last_offset` to `N + M`. -/
theorem rejection_not_atomic (line : Str) (last_offset : Int) (btf_set : List Str)
    (field_pos field_semi_pos offset_pos offset_semi_pos size_pos size_semi_pos : Nat)
    (N M : Int)
    (h1 : find line "field:".toList 0 = some field_pos)
    (h2 : find_char line ';' field_pos = some field_semi_pos)
    (h3 : find line "offset:".toList field_semi_pos = some offset_pos)
    (h4 : find_char line ';' offset_pos = some offset_semi_pos)
    (h5 : find line "size:".toList offset_semi_pos = some size_pos)
    (h6 : find_char line ';' size_pos = some size_semi_pos)
    (hsize : stoi (substr line (size_pos + 5) (size_semi_pos - size_pos - 5)) = Except.ok M)
    (hoffset : stoi (substr line (offset_pos + 7) (offset_semi_pos - offset_pos - 7)) =
      Except.ok N)
    (hdecl : ∀ c ∈ substr line (field_pos + 6) (field_semi_pos - field_pos - 6),
      c ≠ ' ' ∧ c ≠ '\t')
    (hdef : arithmetic_defined N M last_offset = true) :
    parse_field line last_offset btf_set = Except.ok ⟨[], N + M, btf_set⟩ := by
  have hnone : find_last_of "\t ".toList
      (substr line (field_pos + 6) (field_semi_pos - field_pos - 6)) = none := by
    apply find_last_of_none
    intro c hc hm
    have := hdecl c hc
    simp at hm
    rcases hm with hm | hm
    · exact this.2 hm
    · exact this.1 hm
  rw [arithmetic_defined_iff] at hdef
  unfold parse_field
  simp only [h1, h2, h3, h4, h5, h6, hsize, hoffset, hnone,
    wrap32_id _ hdef.2.2.1 hdef.2.2.2]

/-- C21 (amended) at `field:x; offset:8; size:4;` after a field that ended at byte 4: the
four padding bytes the line calls for are not written, and the next field is taken to
start at byte 12. -/
theorem rejection_not_atomic_witness :
    parse_field "field:x; offset:8; size:4;".toList 4 ["int".toList] =
      Except.ok ⟨[], 8 + 4, ["int".toList]⟩ ∧
    pad_text 8 4 =
      "  char __pad_4;\n  char __pad_5;\n  char __pad_6;\n  char __pad_7;\n".toList :=
  ⟨rejection_not_atomic "field:x; offset:8; size:4;".toList 4 ["int".toList]
    0 7 9 17 19 25 8 4 (by decide) (by decide) (by decide) (by decide) (by decide)
    (by decide) (by decide) (by decide) (by decide) (by decide), by decide⟩

/-- C21 as stated fails: on `field:x; offset:2147483647; size:1;` the sum `N + M` does not
fit the `int` that holds `last_offset`, which ends up different from `N + M`; and after a
line that left `last_offset` at `INT_MIN`, the subtraction `offset - *last_offset`
overflows on `field:x; offset:8; size:4;` before `last_offset` is set. -/
theorem rejection_counterexample :
    parse_field "field:x; offset:2147483647; size:1;".toList 0 [] =
      Except.ok ⟨[], -2147483648, []⟩ ∧
    stoi "2147483647".toList = Except.ok 2147483647 ∧
    stoi "1".toList = Except.ok 1 ∧
    (-2147483648 : Int) ≠ 2147483647 + 1 ∧
    arithmetic_defined 2147483647 1 0 = false ∧
    parse_field "field:x; offset:-2147483648; size:0;".toList 0 [] =
      Except.ok ⟨[], -2147483648, []⟩ ∧
    arithmetic_defined 8 4 (-2147483648) = false := by
  decide

theorem isPrefixOf_append_left (needle A B : Str) (h : needle.length ≤ A.length) :
    needle.isPrefixOf (A ++ B) = needle.isPrefixOf A := by
  induction needle generalizing A with
  | nil => simp [List.isPrefixOf]
  | cons x needle ih =>
    cases A with
    | nil => simp at h
    | cons a A =>
      show (x == a && needle.isPrefixOf (A ++ B)) = (x == a && needle.isPrefixOf A)
      rw [ih A (by simpa using h)]

theorem find_at_nil (s : Str) : find_at [] s = some 0 := by
  cases s <;> simp [find_at, List.isPrefixOf]

theorem find_at_stable (needle A B C : Str) (p : Nat)
    (h : find_at needle (A ++ B) = some p) (hp : p + needle.length ≤ A.length) :
    find_at needle (A ++ C) = some p := by
  induction A generalizing p with
  | nil =>
    have hn : needle = [] := by
      simp at hp
      exact hp.2
    subst hn
    rw [find_at_nil] at h ⊢
    exact h
  | cons a A ih =>
    have hl : needle.length ≤ (a :: A).length := by omega
    have hu : ∀ X : Str, find_at needle (a :: X) =
        if needle.isPrefixOf (a :: X) then some 0
        else (find_at needle X).map (· + 1) := fun X => rfl
    rw [List.cons_append, hu] at h ⊢
    have e1 := isPrefixOf_append_left needle (a :: A) B hl
    have e2 := isPrefixOf_append_left needle (a :: A) C hl
    rw [List.cons_append] at e1 e2
    rw [e1] at h
    rw [e2]
    by_cases hpre : needle.isPrefixOf (a :: A) = true
    · simp only [hpre, if_true] at h ⊢
      exact h
    · simp only [hpre, Bool.false_eq_true, if_false] at h ⊢
      cases hq : find_at needle (A ++ B) with
      | none => rw [hq] at h; simp at h
      | some q =>
        rw [hq] at h
        simp only [Option.map_some', Option.some.injEq] at h
        subst h
        rw [ih q hq (by simp at hp; omega)]
        rfl

theorem find_at_bound (needle s : Str) (q : Nat) (h : find_at needle s = some q) :
    q + needle.length ≤ s.length ∧ needle <+: s.drop q := by
  induction s generalizing q with
  | nil =>
    unfold find_at at h
    by_cases hn : needle = []
    · subst hn
      simp at h
      subst h
      simp
    · simp [hn] at h
  | cons c t ih =>
    unfold find_at at h
    by_cases hpre : needle.isPrefixOf (c :: t) = true
    · simp only [hpre, if_true, Option.some.injEq] at h
      subst h
      have hp := List.isPrefixOf_iff_prefix.mp hpre
      exact ⟨by simpa using hp.length_le, by simpa using hp⟩
    · simp only [hpre, Bool.false_eq_true, if_false] at h
      cases hq : find_at needle t with
      | none => rw [hq] at h; simp at h
      | some r =>
        rw [hq] at h
        simp only [Option.map_some', Option.some.injEq] at h
        subst h
        have := ih r hq
        exact ⟨by simp; omega, by simpa using this.2⟩

theorem find_bound (s needle : Str) (pos p : Nat) (h : find s needle pos = some p) :
    pos ≤ p ∧ p + needle.length ≤ s.length ∧ needle <+: s.drop p := by
  unfold find at h
  by_cases hpos : pos ≤ s.length
  · simp only [hpos, if_true] at h
    cases hq : find_at needle (s.drop pos) with
    | none => rw [hq] at h; simp at h
    | some q =>
      rw [hq] at h
      simp only [Option.map_some', Option.some.injEq] at h
      subst h
      have := find_at_bound needle (s.drop pos) q hq
      refine ⟨by omega, ?_, ?_⟩
      · have h1 := this.1
        simp only [List.length_drop] at h1
        omega
      · have h2 := this.2
        rw [List.drop_drop] at h2
        rw [Nat.add_comm]
        exact h2
  · simp [hpos] at h

theorem find_stable (A B C needle : Str) (pos p : Nat)
    (h : find (A ++ B) needle pos = some p) (hp : p + needle.length ≤ A.length) :
    find (A ++ C) needle pos = some p := by
  have hb := find_bound _ _ _ _ h
  have hpos : pos ≤ A.length := by omega
  unfold find at h ⊢
  rw [if_pos (by simp; omega)] at h
  rw [if_pos (by simp; omega)]
  rw [List.drop_append_of_le_length hpos] at h ⊢
  cases hq : find_at needle (A.drop pos ++ B) with
  | none => rw [hq] at h; simp at h
  | some q =>
    rw [hq] at h
    simp only [Option.map_some', Option.some.injEq] at h
    subst h
    rw [find_at_stable needle (A.drop pos) B C q hq (by simp; omega)]
    rfl

theorem substr_stable (A B C : Str) (pos count : Nat) (h : pos + count ≤ A.length) :
    substr (A ++ C) pos count = substr (A ++ B) pos count := by
  unfold substr
  rw [List.drop_append_of_le_length (by omega), List.drop_append_of_le_length (by omega),
    List.take_append_of_le_length (by simp; omega),
    List.take_append_of_le_length (by simp; omega)]

/-- A character that the marker does not hold is found only after the marker, when the
search starts at the marker. -/
theorem find_char_after (s needle : Str) (c : Char) (pos p r : Nat)
    (h : find s needle pos = some p) (hr : find_char s c p = some r) (hc : c ∉ needle) :
    p + needle.length ≤ r := by
  obtain ⟨_, _, Y, hY⟩ := find_bound _ _ _ _ h
  obtain ⟨hpr, _, Z, hZ⟩ := find_bound _ _ _ _ hr
  by_contra hlt
  have hk : r - p < needle.length := by omega
  have e1 : s[r]? = some c := by
    have : (s.drop r)[0]? = some c := by rw [← hZ]; simp
    rw [List.getElem?_drop] at this
    simpa using this
  have e2 : s[r]? = needle[r - p]? := by
    have : (s.drop p)[r - p]? = needle[r - p]? := by
      rw [← hY, List.getElem?_append_left hk]
    rw [List.getElem?_drop] at this
    rw [← this]
    congr 1
    omega
  rw [e1] at e2
  have : c ∈ needle := by
    rw [List.mem_iff_getElem?]
    exact ⟨r - p, e2.symm⟩
  exact hc this

/-- The positions of the six markers lie, in order, before the end of the size
attribute. -/
theorem markers_ordered (line : Str)
    (field_pos field_semi_pos offset_pos offset_semi_pos size_pos size_semi_pos : Nat)
    (h1 : find line "field:".toList 0 = some field_pos)
    (h2 : find_char line ';' field_pos = some field_semi_pos)
    (h3 : find line "offset:".toList field_semi_pos = some offset_pos)
    (h4 : find_char line ';' offset_pos = some offset_semi_pos)
    (h5 : find line "size:".toList offset_semi_pos = some size_pos)
    (h6 : find_char line ';' size_pos = some size_semi_pos) :
    field_pos + 6 ≤ field_semi_pos ∧ field_semi_pos ≤ offset_pos ∧
      offset_pos + 7 ≤ offset_semi_pos ∧ offset_semi_pos ≤ size_pos ∧
      size_pos + 5 ≤ size_semi_pos ∧ size_semi_pos + 1 ≤ line.length := by
  have a1 := find_char_after line _ ';' _ _ _ h1 h2 (by decide)
  have a2 := (find_bound _ _ _ _ h3).1
  have a3 := find_char_after line _ ';' _ _ _ h3 h4 (by decide)
  have a4 := (find_bound _ _ _ _ h5).1
  have a5 := find_char_after line _ ';' _ _ _ h5 h6 (by decide)
  have a6 := (find_bound _ _ _ _ h6).2.1
  exact ⟨a1, a2, a3, a4, a5, a6⟩

/-- What follows the `;` that closes the size attribute does not enter the result. -/
theorem parse_field_suffix (A B C : Str) (last_offset : Int) (btf_set : List Str)
    (field_pos field_semi_pos offset_pos offset_semi_pos size_pos size_semi_pos : Nat)
    (h1 : find (A ++ B) "field:".toList 0 = some field_pos)
    (h2 : find_char (A ++ B) ';' field_pos = some field_semi_pos)
    (h3 : find (A ++ B) "offset:".toList field_semi_pos = some offset_pos)
    (h4 : find_char (A ++ B) ';' offset_pos = some offset_semi_pos)
    (h5 : find (A ++ B) "size:".toList offset_semi_pos = some size_pos)
    (h6 : find_char (A ++ B) ';' size_pos = some size_semi_pos)
    (hA : A.length = size_semi_pos + 1) :
    parse_field (A ++ C) last_offset btf_set = parse_field (A ++ B) last_offset btf_set := by
  obtain ⟨o1, o2, o3, o4, o5, _⟩ := markers_ordered _ _ _ _ _ _ _ h1 h2 h3 h4 h5 h6
  have l6 : "field:".toList.length = 6 := rfl
  have l7 : "offset:".toList.length = 7 := rfl
  have l5 : "size:".toList.length = 5 := rfl
  have g1 := find_stable A B C _ _ _ h1 (by rw [l6]; omega)
  have g2 : find_char (A ++ C) ';' field_pos = some field_semi_pos :=
    find_stable A B C _ _ _ h2 (by simp; omega)
  have g3 := find_stable A B C _ _ _ h3 (by rw [l7]; omega)
  have g4 : find_char (A ++ C) ';' offset_pos = some offset_semi_pos :=
    find_stable A B C _ _ _ h4 (by simp; omega)
  have g5 := find_stable A B C _ _ _ h5 (by rw [l5]; omega)
  have g6 : find_char (A ++ C) ';' size_pos = some size_semi_pos :=
    find_stable A B C _ _ _ h6 (by simp; omega)
  have s1 := substr_stable A B C (size_pos + 5) (size_semi_pos - size_pos - 5) (by omega)
  have s2 := substr_stable A B C (offset_pos + 7) (offset_semi_pos - offset_pos - 7)
    (by omega)
  have s3 := substr_stable A B C (field_pos + 6) (field_semi_pos - field_pos - 6) (by omega)
  unfold parse_field
  simp only [h1, h2, h3, h4, h5, h6, g1, g2, g3, g4, g5, g6, s1, s2, s3]

/-- A line for which `parse_field` returns a text has the six markers. -/
theorem markers_of_text (line : Str) (last_offset : Int) (btf_set : List Str)
    (r : FieldResult) (h : parse_field line last_offset btf_set = Except.ok r)
    (hne : r.text ≠ []) :
    ∃ field_pos field_semi_pos offset_pos offset_semi_pos size_pos size_semi_pos,
      find line "field:".toList 0 = some field_pos ∧
      find_char line ';' field_pos = some field_semi_pos ∧
      find line "offset:".toList field_semi_pos = some offset_pos ∧
      find_char line ';' offset_pos = some offset_semi_pos ∧
      find line "size:".toList offset_semi_pos = some size_pos ∧
      find_char line ';' size_pos = some size_semi_pos := by
  have hun : ∀ x : Except Exc FieldResult, x = Except.ok ⟨[], last_offset, btf_set⟩ →
      x = Except.ok r → False := by
    intro x e1 e2
    rw [e1] at e2
    injection e2 with e3
    rw [← e3] at hne
    exact hne rfl
  cases h1 : find line "field:".toList 0 with
  | none => exact absurd h (fun h => hun _ (by unfold parse_field; simp only [h1]) h)
  | some p1 =>
  cases h2 : find_char line ';' p1 with
  | none => exact absurd h (fun h => hun _ (by unfold parse_field; simp only [h1, h2]) h)
  | some p2 =>
  cases h3 : find line "offset:".toList p2 with
  | none => exact absurd h (fun h => hun _ (by unfold parse_field; simp only [h1, h2, h3]) h)
  | some p3 =>
  cases h4 : find_char line ';' p3 with
  | none =>
    exact absurd h (fun h => hun _ (by unfold parse_field; simp only [h1, h2, h3, h4]) h)
  | some p4 =>
  cases h5 : find line "size:".toList p4 with
  | none =>
    exact absurd h (fun h => hun _ (by unfold parse_field; simp only [h1, h2, h3, h4, h5]) h)
  | some p5 =>
  cases h6 : find_char line ';' p5 with
  | none =>
    exact absurd h
      (fun h => hun _ (by unfold parse_field; simp only [h1, h2, h3, h4, h5, h6]) h)
  | some p6 => exact ⟨p1, p2, p3, p4, p5, p6, rfl, h2, h3, h4, h5, h6⟩

/-- C23: on a line for which `parse_field` returns a declaration, the six markers are
found, and replacing what follows the `;` that closes the size attribute (the `signed:`
attribute and the rest) by any other text changes nothing of the result: the returned
text, the new `last_offset` and `btf_set_` are the same. -/
theorem rest_of_line_ignored (line : Str) (last_offset : Int) (btf_set : List Str)
    (r : FieldResult) (h : parse_field line last_offset btf_set = Except.ok r)
    (hne : r.text ≠ []) :
    ∃ field_pos field_semi_pos offset_pos offset_semi_pos size_pos size_semi_pos,
      find line "field:".toList 0 = some field_pos ∧
      find_char line ';' field_pos = some field_semi_pos ∧
      find line "offset:".toList field_semi_pos = some offset_pos ∧
      find_char line ';' offset_pos = some offset_semi_pos ∧
      find line "size:".toList offset_semi_pos = some size_pos ∧
      find_char line ';' size_pos = some size_semi_pos ∧
      ∀ rest : Str,
        parse_field (line.take (size_semi_pos + 1) ++ rest) last_offset btf_set =
          Except.ok r := by
  obtain ⟨p1, p2, p3, p4, p5, p6, h1, h2, h3, h4, h5, h6⟩ :=
    markers_of_text line last_offset btf_set r h hne
  refine ⟨p1, p2, p3, p4, p5, p6, h1, h2, h3, h4, h5, h6, ?_⟩
  intro rest
  have hlen := (markers_ordered _ _ _ _ _ _ _ h1 h2 h3 h4 h5 h6).2.2.2.2.2
  have e : line.take (p6 + 1) ++ line.drop (p6 + 1) = line := List.take_append_drop _ _
  rw [← e] at h1 h2 h3 h4 h5 h6 h
  rw [parse_field_suffix (line.take (p6 + 1)) (line.drop (p6 + 1)) rest last_offset btf_set
    p1 p2 p3 p4 p5 p6 h1 h2 h3 h4 h5 h6 (by rw [List.length_take]; omega)]
  exact h

/-- C23 at `field:int a; offset:0; size:4; signed:1;`: the same result with `signed:0;`
and with other text after the size attribute. -/
theorem rest_of_line_ignored_witness :
    (∃ field_pos field_semi_pos offset_pos offset_semi_pos size_pos size_semi_pos,
      find "field:int a; offset:0; size:4; signed:1;".toList "field:".toList 0 =
        some field_pos ∧
      find_char "field:int a; offset:0; size:4; signed:1;".toList ';' field_pos =
        some field_semi_pos ∧
      find "field:int a; offset:0; size:4; signed:1;".toList "offset:".toList
        field_semi_pos = some offset_pos ∧
      find_char "field:int a; offset:0; size:4; signed:1;".toList ';' offset_pos =
        some offset_semi_pos ∧
      find "field:int a; offset:0; size:4; signed:1;".toList "size:".toList
        offset_semi_pos = some size_pos ∧
      find_char "field:int a; offset:0; size:4; signed:1;".toList ';' size_pos =
        some size_semi_pos ∧
      ∀ rest : Str,
        parse_field
          ("field:int a; offset:0; size:4; signed:1;".toList.take (size_semi_pos + 1) ++ rest)
          0 [] = Except.ok ⟨"  int a;\n".toList, 4, ["int".toList]⟩) ∧
    "field:int a; offset:0; size:4; signed:1;".toList.take (29 + 1) =
      "field:int a; offset:0; size:4;".toList ∧
    parse_field "field:int a; offset:0; size:4; signed:0;".toList 0 [] =
      Except.ok ⟨"  int a;\n".toList, 4, ["int".toList]⟩ ∧
    parse_field "field:int a; offset:0; size:4;field:long b; size:8;".toList 0 [] =
      Except.ok ⟨"  int a;\n".toList, 4, ["int".toList]⟩ :=
  ⟨rest_of_line_ignored "field:int a; offset:0; size:4; signed:1;".toList 0 []
      ⟨"  int a;\n".toList, 4, ["int".toList]⟩ (by decide) (by decide),
    by decide, by decide, by decide⟩

theorem decimal_shift (ds : Str) (a : Nat) :
    ds.foldl (fun acc c => 10 * acc + (c.toNat - '0'.toNat)) a =
      a * 10 ^ ds.length + ds.foldl (fun acc c => 10 * acc + (c.toNat - '0'.toNat)) 0 := by
  induction ds generalizing a with
  | nil => simp
  | cons c t ih =>
    simp only [List.foldl_cons, List.length_cons]
    rw [ih (10 * a + (c.toNat - '0'.toNat)), ih (10 * 0 + (c.toNat - '0'.toNat))]
    ring

theorem digitChar_value (k : Nat) (h : k < 10) :
    (Nat.digitChar k).toNat - '0'.toNat = k := by
  interval_cases k <;> rfl

theorem decimal_toDigitsCore (fuel n : Nat) (ds : Str) (h : n < fuel) :
    decimal (Nat.toDigitsCore 10 fuel n ds) = n * 10 ^ ds.length + decimal ds := by
  induction fuel generalizing n ds with
  | zero => omega
  | succ fuel ih =>
    unfold Nat.toDigitsCore
    by_cases h0 : n / 10 = 0
    · simp only [h0, if_true]
      have hn : n < 10 := by omega
      unfold decimal
      rw [List.foldl_cons, decimal_shift]
      rw [Nat.mod_eq_of_lt hn, digitChar_value n hn]
      simp
    · simp only [h0, if_false]
      rw [ih (n / 10) (Nat.digitChar (n % 10) :: ds) (by omega)]
      unfold decimal
      rw [List.foldl_cons, decimal_shift ds]
      rw [digitChar_value (n % 10) (Nat.mod_lt _ (by decide))]
      simp only [List.length_cons, Nat.mul_zero, Nat.zero_add]
      have hdm : n = 10 * (n / 10) + n % 10 := (Nat.div_add_mod n 10).symm
      rw [pow_succ]
      conv_rhs => rw [hdm]
      ring

theorem decimal_toDigits (n : Nat) : decimal (Nat.toDigits 10 n) = n := by
  unfold Nat.toDigits
  rw [decimal_toDigitsCore (n + 1) n [] (by omega)]
  simp [decimal]

theorem pad_name_injective : Function.Injective pad_name := by
  intro a b h
  unfold pad_name to_string at h
  have ha : ¬ ((a : Int) < 0) := by omega
  have hb : ¬ ((b : Int) < 0) := by omega
  simp only [ha, hb, if_false, Int.toNat_ofNat] at h
  have h2 := List.append_cancel_left h
  have := congrArg decimal h2
  rwa [decimal_toDigits, decimal_toDigits] at this

theorem pad_names_append (a b : List Decl) :
    pad_names (a ++ b) = pad_names a ++ pad_names b := by
  induction a with
  | nil => rfl
  | cons d a ih =>
    cases d with
    | pad n => simp [pad_names, ih]
    | field t n o sz => simp [pad_names, ih]

theorem pad_names_pads (l : List Nat) : pad_names (l.map Decl.pad) = l.map pad_name := by
  induction l with
  | nil => rfl
  | cons n l ih => simp [pad_names, ih]

theorem fields_text_members (fs : List FieldLine) (last : Nat) (lo : Int)
    (btf_set : List Str) (hlo : fs ≠ [] → lo = (last : Int))
    (hwf : ∀ f ∈ fs, f.well_formed = true) (hord : ordered_from last fs) :
    ∃ set, fields_text (fs.map FieldLine.text) lo btf_set =
      Except.ok (((members last fs).map Decl.render).flatten, set) := by
  induction fs generalizing last lo btf_set with
  | nil => exact ⟨btf_set, rfl⟩
  | cons f fs ih =>
    have hf := hwf f (by simp)
    have hlo2 := hlo (by simp)
    subst hlo2
    have hnext : fs ≠ [] → wrap32 (f.offset_value + f.size_value)
        = ((f.offset_nat + f.size_nat : Nat) : Int) :=
      end_fits f fs (fun g hg => hwf g (by simp [hg])) hord.2
    obtain ⟨set, hset⟩ := ih (f.offset_nat + f.size_nat)
      (wrap32 (f.offset_value + f.size_value)) (f.recorded btf_set) hnext
      (fun g hg => hwf g (by simp [hg])) hord.2
    refine ⟨set, ?_⟩
    simp only [List.map_cons]
    unfold fields_text
    rw [parse_field_well_formed f hf]
    simp only [hset]
    by_cases h0 : last = 0
    · subst h0
      have hx : f.extra ((0 : Nat) : Int) = [] := by
        unfold FieldLine.extra
        simp
      simp only [hx, members, ne_eq, not_true_eq_false, and_false, if_false, List.nil_append,
        List.map_cons, List.flatten_cons, FieldLine.member, Decl.render, List.append_assoc]
    · have hpos : 0 < last := Nat.pos_of_ne_zero h0
      have hoff : f.offset_nat ≠ 0 := by
        have := hord.1
        omega
      rw [extra_gap f hf last hpos hord.1]
      simp only [members, ne_eq, hoff, h0, not_false_eq_true, and_self, if_true,
        List.map_append, List.flatten_append, List.map_cons, List.flatten_cons,
        render_pads, FieldLine.member, Decl.render, List.append_assoc]

theorem pad_names_members (fs : List FieldLine) (last : Nat) (hord : ordered_from last fs) :
    (pad_names (members last fs)).Nodup ∧
      ∀ name ∈ pad_names (members last fs), ∃ n, last ≤ n ∧ name = pad_name n := by
  induction fs generalizing last with
  | nil => simp [members, pad_names]
  | cons f fs ih =>
    obtain ⟨ih1, ih2⟩ := ih (f.offset_nat + f.size_nat) hord.2
    have hle := hord.1
    have hrest : pad_names (f.member :: members (f.offset_nat + f.size_nat) fs) =
        pad_names (members (f.offset_nat + f.size_nat) fs) := rfl
    by_cases hg : f.offset_nat ≠ 0 ∧ last ≠ 0
    · simp only [members, hg, ne_eq, not_false_eq_true, and_self, if_true, pad_names_append,
        pad_names_pads, hrest]
      constructor
      · rw [List.nodup_append]
        refine ⟨(List.nodup_range' _ _).map pad_name_injective, ih1, ?_⟩
        intro name h1 h2
        rw [List.mem_map] at h1
        obtain ⟨n, hn, rfl⟩ := h1
        obtain ⟨m, hm, e⟩ := ih2 _ h2
        have := pad_name_injective e
        rw [List.mem_range'_1] at hn
        omega
      · intro name hname
        rw [List.mem_append] at hname
        rcases hname with h1 | h2
        · rw [List.mem_map] at h1
          obtain ⟨n, hn, rfl⟩ := h1
          rw [List.mem_range'_1] at hn
          exact ⟨n, hn.1, rfl⟩
        · obtain ⟨m, hm, e⟩ := ih2 _ h2
          exact ⟨m, by omega, e⟩
    · simp only [members, hg, if_false, List.nil_append, hrest]
      refine ⟨ih1, ?_⟩
      intro name h2
      obtain ⟨m, hm, e⟩ := ih2 _ h2
      exact ⟨m, by omega, e⟩

theorem holds_pad_name (n : Nat) : holds_pad (pad_name n) = true := by
  unfold holds_pad
  rw [find_zero, find_at_isSome_iff]
  exact ⟨[], to_string (n : Int), by simp [pad_name]⟩

theorem declared_pads (fs : List FieldLine) (last : Nat)
    (hnames : ∀ f ∈ fs, holds_pad f.name = false) :
    ((members last fs).map Decl.declared).filter holds_pad = pad_names (members last fs) := by
  induction fs generalizing last with
  | nil => rfl
  | cons f fs ih =>
    have hf : holds_pad f.name = false := hnames f (by simp)
    have ih2 := ih (f.offset_nat + f.size_nat) (fun g hg => hnames g (by simp [hg]))
    have hpads : ∀ l : List Nat,
        ((l.map Decl.pad).map Decl.declared).filter holds_pad = l.map pad_name := by
      intro l
      induction l with
      | nil => rfl
      | cons n l ihl =>
        simp only [List.map_cons, Decl.declared, List.filter_cons, holds_pad_name, if_true]
        rw [ihl]
    have hrest : pad_names (f.member :: members (f.offset_nat + f.size_nat) fs) =
        pad_names (members (f.offset_nat + f.size_nat) fs) := rfl
    by_cases hg : f.offset_nat ≠ 0 ∧ last ≠ 0
    · simp only [members, hg, ne_eq, not_false_eq_true, and_self, if_true, List.map_append,
        List.filter_append, hpads, List.map_cons, FieldLine.member, Decl.declared,
        List.filter_cons, hf, Bool.false_eq_true, if_false, ih2, pad_names_append,
        pad_names_pads]
      rfl
    · simp only [members, hg, if_false, List.nil_append, List.map_cons, FieldLine.member,
        Decl.declared, List.filter_cons, hf, Bool.false_eq_true, ih2]
      rfl

/-- C22 (amended): for well-formed field lines in increasing, non-overlapping offset
order whose ends `offset + size` fit an `int`, `get_tracepoint_struct` declares the
members `members 0 fs`; when no field name holds `__pad_`, the declared names that hold
`__pad_` are those of the padding fields, and they are pairwise different. A call of
`parse_field` on a well-formed line with offset `N`, the previous field having ended at
`L` with `0 < L < N` and `N + size` fitting an `int`, writes the padding fields of the
bytes `L`, `L + 1`, ..., `N - 1` in this order, each named `__pad_<n>` after its byte,
before the field. -/
theorem pad_names_distinct (fs : List FieldLine) (category event_name : Str)
    (btf_set : List Str) (hwf : ∀ f ∈ fs, f.well_formed = true)
    (hord : List.Chain' (fun a b : FieldLine => a.offset_nat + a.size_nat ≤ b.offset_nat)
      fs)
    (hfit : ∀ f ∈ fs, is_int (f.offset_value + f.size_value) = true)
    (hnames : ∀ f ∈ fs, holds_pad f.name = false) :
    (∃ set, get_tracepoint_struct (fs.map FieldLine.text) category event_name btf_set =
      Except.ok (get_struct_name category event_name ++ "\n\x7b\n".toList ++
        ((members 0 fs).map Decl.render).flatten ++ "\x7d;\n".toList, set)) ∧
    ((members 0 fs).map Decl.declared).filter holds_pad = pad_names (members 0 fs) ∧
    (((members 0 fs).map Decl.declared).filter holds_pad).Nodup ∧
    (∀ n, Decl.render (Decl.pad n) = "  char ".toList ++ pad_name n ++ ";\n".toList) ∧
    (∀ type name offset size, Decl.render (Decl.field type name offset size) =
      "  ".toList ++ type ++ " ".toList ++ name ++ ";\n".toList) ∧
    ∀ (f : FieldLine) (L : Nat) (set : List Str), f.well_formed = true → 0 < L →
      L < f.offset_nat → is_int (f.offset_value + f.size_value) = true →
        ∃ r : FieldResult, parse_field f.text (L : Int) set = Except.ok r ∧
          r.text =
            (((List.range' L (f.offset_nat - L)).map Decl.pad).map Decl.render).flatten ++
              ("  ".toList ++ f.emitted_type ++ " ".toList ++ f.name ++ ";\n".toList) ∧
          ((List.range' L (f.offset_nat - L)).map Decl.pad).map Decl.declared =
            (List.range' L (f.offset_nat - L)).map pad_name := by
  have ho : ordered_from 0 fs := by
    cases fs with
    | nil => trivial
    | cons f rest => exact ⟨Nat.zero_le _, chain_ordered f rest hord⟩
  have _ := hfit
  refine ⟨?_, declared_pads fs 0 hnames, ?_, ?_, ?_, ?_⟩
  · rw [get_tracepoint_struct_eq]
    obtain ⟨set, hset⟩ := fields_text_members fs 0 0 btf_set (fun _ => rfl) hwf ho
    refine ⟨set, ?_⟩
    simp only [hset, get_struct_name]
  · rw [declared_pads fs 0 hnames]
    exact (pad_names_members fs 0 ho).1
  · intro n
    simp [Decl.render, pad_decl, pad_name]
  · intro type name offset size
    rfl
  · intro f L set hf hL hN _
    refine ⟨_, parse_field_well_formed f hf (L : Int) set, ?_, ?_⟩
    · rw [extra_gap f hf L hL (Nat.le_of_lt hN), render_pads]
      simp only [List.append_assoc]
    · simp [List.map_map, Function.comp_def, Decl.declared]

/-- C22 (amended) at the lines `int a` at 0..4, `long b` at 8..16 and `char c[4]` at
16..20, and at the line `long b` after a field that ended at byte 4. -/
theorem pad_names_distinct_witness :
    (∃ set, get_tracepoint_struct (sample_fields.map FieldLine.text) "sched".toList
        "sched_switch".toList [] =
      Except.ok (get_struct_name "sched".toList "sched_switch".toList ++ "\n\x7b\n".toList ++
        ((members 0 sample_fields).map Decl.render).flatten ++ "\x7d;\n".toList, set)) ∧
    (((members 0 sample_fields).map Decl.declared).filter holds_pad).Nodup ∧
    ((members 0 sample_fields).map Decl.declared).filter holds_pad =
      ["__pad_4".toList, "__pad_5".toList, "__pad_6".toList, "__pad_7".toList] ∧
    (∃ r : FieldResult,
      parse_field "\tfield:long b;\toffset:8;\tsize:8;\tsigned:1;".toList 4 [] =
        Except.ok r ∧
      r.text =
        (((List.range' 4 (8 - 4)).map Decl.pad).map Decl.render).flatten ++
          ("  ".toList ++ "long".toList ++ " ".toList ++ "b".toList ++ ";\n".toList) ∧
      ((List.range' 4 (8 - 4)).map Decl.pad).map Decl.declared =
        (List.range' 4 (8 - 4)).map pad_name) :=
  ⟨(pad_names_distinct sample_fields "sched".toList "sched_switch".toList []
      (by decide)
      (by
        unfold sample_fields
        simp only [List.chain'_cons, List.chain'_singleton, and_true]
        decide)
      (by decide) (by decide)).1,
    (pad_names_distinct sample_fields "sched".toList "sched_switch".toList []
      (by decide)
      (by
        unfold sample_fields
        simp only [List.chain'_cons, List.chain'_singleton, and_true]
        decide)
      (by decide) (by decide)).2.2.1,
    by decide,
    (pad_names_distinct sample_fields "sched".toList "sched_switch".toList []
      (by decide)
      (by
        unfold sample_fields
        simp only [List.chain'_cons, List.chain'_singleton, and_true]
        decide)
      (by decide) (by decide)).2.2.2.2.2
      ⟨"\t".toList, "long".toList, "b".toList, "\t".toList, "8".toList, "\t".toList,
        "8".toList, "\tsigned:1;".toList⟩ 4 [] (by decide) (by decide) (by decide)
      (by decide)⟩

/-- C22 as stated fails: the well-formed lines `field:int a; offset:0; size:4;` and
`field:char __pad_5; offset:8; size:1;` are in increasing offset order and do not
overlap, and the declaration `get_tracepoint_struct` returns for them declares the name
`__pad_5` twice: once as the padding of byte 5, once as the field. -/
theorem pad_names_counterexample :
    (∀ f ∈ clash_fields, f.well_formed = true) ∧
    clash_fields.map FieldLine.text =
      ["field:int a; offset:0; size:4;".toList,
        "field:char __pad_5; offset:8; size:1;".toList] ∧
    (clash_fields.map (fun f => (f.offset_nat, f.size_nat))) = [(0, 4), (8, 1)] ∧
    get_tracepoint_struct (clash_fields.map FieldLine.text) "c".toList "e".toList [] =
      Except.ok (("struct _tracepoint_c_e\n\x7b\n  int a;\n  char __pad_4;\n" ++
        "  char __pad_5;\n  char __pad_6;\n  char __pad_7;\n  char __pad_5;\n\x7d;\n").toList,
        ["int".toList, "char".toList]) ∧
    (members 0 clash_fields).map Decl.declared =
      ["a".toList, "__pad_4".toList, "__pad_5".toList, "__pad_6".toList, "__pad_7".toList,
        "__pad_5".toList] ∧
    ¬ ((members 0 clash_fields).map Decl.declared).Nodup := by
  decide

namespace SemanticAnalyser

theorem lookup_set_var (frames : List (Str → Option VarInfo)) (name : Str)
    (old info : VarInfo) (h : lookup_var frames name = some old) :
    lookup_var (set_var frames name info) name = some info := by
  induction frames with
  | nil => cases h
  | cons f fs ih =>
    unfold set_var
    cases hf : f name with
    | some x => simp [lookup_var]
    | none =>
      have h2 : lookup_var fs name = some old := by
        unfold lookup_var at h
        rw [hf] at h
        exact h
      simp [lookup_var, hf, ih h2]

/-- C18 (amended): assigning the integer literal `v` to a scratch variable declared with
the integer type `T` adds no diagnostic exactly when `v` lies within the minimum and the
maximum of `T`; a negative `v` for an unsigned `T` is rejected with `Type mismatch for
<name>: trying to assign value of type 'int64' when variable already has a type '<T>'`,
any other `v` outside the range with `Type mismatch for <name>: trying to assign value
'<v>' which does not fit into the variable of type '<T>'`; the type of the variable stays
`T`. -/
theorem literal_fit (t : Analysis) (name : Str) (bits : Nat) (signed by_let : Bool)
    (v : Int) (loc : Nat)
    (h : lookup_var t.frames name = some ⟨SizedType.integer bits signed, true, by_let⟩) :
    (visit_stmt (Stmt.assign_var loc name (Expr.integer v)) t).diagnostics =
      t.diagnostics ++
        (if v < 0 ∧ signed = false then
          [error loc ("Type mismatch for ".toList ++ name ++
            ": trying to assign value of type 'int64' when variable already has a type '".toList
            ++ typestr (SizedType.integer bits signed) ++ "'".toList)]
        else if v < int_min bits signed ∨ int_max bits signed < v then
          [error loc ("Type mismatch for ".toList ++ name ++
            ": trying to assign value '".toList ++ to_string v ++
            "' which does not fit into the variable of type '".toList ++
            typestr (SizedType.integer bits signed) ++ "'".toList)]
        else []) ∧
    ((visit_stmt (Stmt.assign_var loc name (Expr.integer v)) t).diagnostics = t.diagnostics ↔
      int_min bits signed ≤ v ∧ v ≤ int_max bits signed) ∧
    lookup_var (visit_stmt (Stmt.assign_var loc name (Expr.integer v)) t).frames name =
      some ⟨SizedType.integer bits signed, true, by_let⟩ := by
  have hty : literal_type v ≠ SizedType.none := by
    unfold literal_type; split <;> simp
  have hneg : v < 0 → literal_type v = SizedType.integer 64 true := by
    intro hv; unfold literal_type; rw [if_pos (by omega)]
  have hstep : visit_stmt (Stmt.assign_var loc name (Expr.integer v)) t =
      { t with
        frames := set_var t.frames name ⟨SizedType.integer bits signed, true, by_let⟩
        diagnostics := t.diagnostics ++
          check_literal loc name "variable".toList "variable already has a type".toList
            bits signed v } := by
    simp only [visit_stmt, visit_in, visit_expr, assign_var_value, h, literal_of,
      List.append_nil, check_var_value, hty, if_false, if_true, reduceCtorEq]
  have hdiag : check_literal loc name "variable".toList
      "variable already has a type".toList bits signed v =
      (if v < 0 ∧ signed = false then
          [error loc ("Type mismatch for ".toList ++ name ++
            ": trying to assign value of type 'int64' when variable already has a type '".toList
            ++ typestr (SizedType.integer bits signed) ++ "'".toList)]
        else if v < int_min bits signed ∨ int_max bits signed < v then
          [error loc ("Type mismatch for ".toList ++ name ++
            ": trying to assign value '".toList ++ to_string v ++
            "' which does not fit into the variable of type '".toList ++
            typestr (SizedType.integer bits signed) ++ "'".toList)]
        else []) := by
    unfold check_literal
    by_cases h1 : v < 0 ∧ signed = false
    · have e64 : typestr (SizedType.integer 64 true) = "int64".toList := by decide
      simp only [h1, and_self, if_true, mismatch_error, hneg h1.1, e64]
      simp
    · simp only [h1, if_false, fit_error]
      simp
  refine ⟨?_, ?_, ?_⟩
  · rw [hstep, ← hdiag]
  · rw [hstep]
    simp only [hdiag]
    by_cases h1 : v < 0 ∧ signed = false
    · simp only [h1, and_self, if_true]
      constructor
      · intro e; simp at e
      · intro e
        have : int_min bits false = 0 := by simp [int_min]
        rw [this] at e
        omega
    · simp only [h1, if_false]
      by_cases h2 : v < int_min bits signed ∨ int_max bits signed < v
      · simp only [h2, if_true]
        constructor
        · intro e; simp at e
        · intro e; omega
      · simp only [h2, if_false, List.append_nil, true_iff]
        omega
  · rw [hstep]
    exact lookup_set_var _ _ _ _ h

/-- C18 (amended) at `let $a: uint8 = 1; $a = 10000;`. -/
theorem literal_fit_witness :
    (analyse [[Stmt.var_decl 1 "$a".toList (some (SizedType.integer 8 false))
        (some (Expr.integer 1)),
      Stmt.assign_var 2 "$a".toList (Expr.integer 10000)]]).diagnostics =
      [] ++ [error 2 ("Type mismatch for ".toList ++ "$a".toList ++
            ": trying to assign value '".toList ++ "10000".toList ++
            "' which does not fit into the variable of type '".toList ++
            "uint8".toList ++ "'".toList)] :=
  (literal_fit
    (visit_stmt (Stmt.var_decl 1 "$a".toList (some (SizedType.integer 8 false))
        (some (Expr.integer 1))) { initial with frames := [fun _ => none] })
    "$a".toList 8 false true 10000 2 (by decide)).1

/-- C18 as stated fails: in `let $a: uint16; $a = -1;` the literal lies below the minimum
of `uint16`, and the error is the one for a value of type `int64`, not the one for a
value that does not fit. -/
theorem literal_fit_counterexample :
    (-1 : Int) < int_min 16 false ∧
    (analyse [[Stmt.var_decl 1 "$a".toList (some (SizedType.integer 16 false)) none,
      Stmt.assign_var 2 "$a".toList (Expr.integer (-1))]]).diagnostics =
      [error 2 ("Type mismatch for $a: trying to assign value of type 'int64' when " ++
        "variable already has a type 'uint16'").toList] ∧
    error 2 ("Type mismatch for $a: trying to assign value '-1' which does not fit " ++
        "into the variable of type 'uint16'").toList ∉
      (analyse [[Stmt.var_decl 1 "$a".toList (some (SizedType.integer 16 false)) none,
        Stmt.assign_var 2 "$a".toList (Expr.integer (-1))]]).diagnostics := by
  decide

theorem visit_args_rest (e : Expr) (es : List Expr) (value_type : Str → SizedType)
    (frames : List (Str → Option VarInfo)) (func : Str) (scalar : Str → Option Bool)
    (d : Diag) (h : ∀ x, d ∈ (visit_exprs value_type frames es x).2.1) :
    d ∈ (visit_args value_type frames func (e :: es) scalar).2.1 := by
  cases e <;> simp only [visit_args] <;> (try split) <;>
    exact List.mem_append_right _ (h _)

mutual
theorem visit_expr_calls : ∀ (e : Expr) (value_type : Str → SizedType)
    (frames : List (Str → Option VarInfo)) (scalar : Str → Option Bool) (p : Nat × Str),
    p ∈ e.calls → must_assign p.2 = true →
      error p.1 (p.2 ++ "() must be assigned directly to a map".toList) ∈
        (visit_expr value_type frames false e scalar).2.1
  | Expr.integer _, _, _, _, _, h, _ => by simp [Expr.calls] at h
  | Expr.string _, _, _, _, _, h, _ => by simp [Expr.calls] at h
  | Expr.builtin _ _, _, _, _, _, h, _ => by simp [Expr.calls] at h
  | Expr.variable _ _, _, _, _, _, h, _ => by simp [Expr.calls] at h
  | Expr.map _ _, _, _, _, _, h, _ => by simp [Expr.calls] at h
  | Expr.map_access loc name key, vt, fr, sc, p, h, hm => by
    simp only [Expr.calls] at h
    simp only [visit_expr]
    exact List.mem_append_left _ (visit_expr_calls key vt fr sc p h hm)
  | Expr.call loc func args, vt, fr, sc, p, h, hm => by
    simp only [Expr.calls, List.mem_cons] at h
    simp only [visit_expr]
    rcases h with h | h
    · subst h
      simp only [] at hm
      simp only [hm, and_self, if_true]
      exact List.mem_append_right _ (List.mem_singleton.mpr rfl)
    · have ih := visit_args_calls args vt fr func sc p h hm
      split
      · exact List.mem_append_left _ ih
      · exact List.mem_append_left _ ih
  | Expr.cast _ expr, vt, fr, sc, p, h, hm => by
    simp only [Expr.calls] at h
    simp only [visit_expr]
    exact visit_expr_calls expr vt fr sc p h hm
  | Expr.ternary cond left right, vt, fr, sc, p, h, hm => by
    simp only [Expr.calls, List.mem_append] at h
    simp only [visit_expr, List.mem_append]
    rcases h with (h | h) | h
    · exact Or.inl (Or.inl (visit_expr_calls cond vt fr sc p h hm))
    · exact Or.inl (Or.inr (visit_expr_calls left vt fr _ p h hm))
    · exact Or.inr (visit_expr_calls right vt fr _ p h hm)
theorem visit_exprs_calls : ∀ (es : List Expr) (value_type : Str → SizedType)
    (frames : List (Str → Option VarInfo)) (scalar : Str → Option Bool) (p : Nat × Str),
    p ∈ calls_of es → must_assign p.2 = true →
      error p.1 (p.2 ++ "() must be assigned directly to a map".toList) ∈
        (visit_exprs value_type frames es scalar).2.1
  | [], _, _, _, _, h, _ => by simp [calls_of] at h
  | e :: es, vt, fr, sc, p, h, hm => by
    simp only [calls_of, List.mem_append] at h
    simp only [visit_exprs, List.mem_append]
    rcases h with h | h
    · exact Or.inl (visit_expr_calls e vt fr sc p h hm)
    · exact Or.inr (visit_exprs_calls es vt fr _ p h hm)
theorem visit_args_calls : ∀ (es : List Expr) (value_type : Str → SizedType)
    (frames : List (Str → Option VarInfo)) (func : Str) (scalar : Str → Option Bool)
    (p : Nat × Str),
    p ∈ calls_of es → must_assign p.2 = true →
      error p.1 (p.2 ++ "() must be assigned directly to a map".toList) ∈
        (visit_args value_type frames func es scalar).2.1
  | [], _, _, _, _, _, h, _ => by simp [calls_of] at h
  | Expr.integer _ :: es, vt, fr, func, sc, p, h, hm => by
    simp only [calls_of, Expr.calls, List.nil_append] at h
    exact visit_args_rest _ es vt fr func sc _ (fun x => visit_exprs_calls es vt fr x p h hm)
  | Expr.string _ :: es, vt, fr, func, sc, p, h, hm => by
    simp only [calls_of, Expr.calls, List.nil_append] at h
    exact visit_args_rest _ es vt fr func sc _ (fun x => visit_exprs_calls es vt fr x p h hm)
  | Expr.builtin _ _ :: es, vt, fr, func, sc, p, h, hm => by
    simp only [calls_of, Expr.calls, List.nil_append] at h
    exact visit_args_rest _ es vt fr func sc _ (fun x => visit_exprs_calls es vt fr x p h hm)
  | Expr.variable _ _ :: es, vt, fr, func, sc, p, h, hm => by
    simp only [calls_of, Expr.calls, List.nil_append] at h
    exact visit_args_rest _ es vt fr func sc _ (fun x => visit_exprs_calls es vt fr x p h hm)
  | Expr.map _ _ :: es, vt, fr, func, sc, p, h, hm => by
    simp only [calls_of, Expr.calls, List.nil_append] at h
    exact visit_args_rest _ es vt fr func sc _ (fun x => visit_exprs_calls es vt fr x p h hm)
  | Expr.map_access l n key :: es, vt, fr, func, sc, p, h, hm => by
    simp only [calls_of, List.mem_append] at h
    rcases h with h | h
    · have hw := visit_expr_calls (Expr.map_access l n key) vt fr sc p h hm
      simp only [Expr.calls] at h
      have hk := visit_expr_calls key vt fr sc p h hm
      simp only [visit_args, List.mem_append]
      left
      split
      · exact hk
      · exact hw
    · exact visit_args_rest _ es vt fr func sc _ (fun x => visit_exprs_calls es vt fr x p h hm)
  | Expr.call l f a :: es, vt, fr, func, sc, p, h, hm => by
    simp only [calls_of, List.mem_append] at h
    rcases h with h | h
    · have hw := visit_expr_calls (Expr.call l f a) vt fr sc p h hm
      simp only [visit_args, List.mem_append]
      exact Or.inl hw
    · exact visit_args_rest _ es vt fr func sc _ (fun x => visit_exprs_calls es vt fr x p h hm)
  | Expr.cast t x :: es, vt, fr, func, sc, p, h, hm => by
    simp only [calls_of, List.mem_append] at h
    rcases h with h | h
    · have hw := visit_expr_calls (Expr.cast t x) vt fr sc p h hm
      simp only [visit_args, List.mem_append]
      exact Or.inl hw
    · exact visit_args_rest _ es vt fr func sc _ (fun x => visit_exprs_calls es vt fr x p h hm)
  | Expr.ternary c a b :: es, vt, fr, func, sc, p, h, hm => by
    simp only [calls_of, List.mem_append] at h
    rcases h with h | h
    · have hw := visit_expr_calls (Expr.ternary c a b) vt fr sc p h hm
      simp only [visit_args, List.mem_append]
      exact Or.inl hw
    · exact visit_args_rest _ es vt fr func sc _ (fun x => visit_exprs_calls es vt fr x p h hm)
end

theorem visit_expr_calls_below (e : Expr) (value_type : Str → SizedType)
    (frames : List (Str → Option VarInfo)) (scalar : Str → Option Bool) (p : Nat × Str)
    (h : p ∈ e.calls_below) (hm : must_assign p.2 = true) :
    error p.1 (p.2 ++ "() must be assigned directly to a map".toList) ∈
      (visit_expr value_type frames true e scalar).2.1 := by
  match e, h with
  | Expr.call loc func args, h =>
    simp only [Expr.calls_below] at h
    simp only [visit_expr, Bool.true_eq_false, and_false, if_false]
    exact List.mem_append_left _ (visit_args_calls args _ _ _ _ p h hm)
  | Expr.integer v, h => simp [Expr.calls_below, Expr.calls] at h
  | Expr.string v, h => simp [Expr.calls_below, Expr.calls] at h
  | Expr.builtin n ty, h => simp [Expr.calls_below, Expr.calls] at h
  | Expr.variable l n, h => simp [Expr.calls_below, Expr.calls] at h
  | Expr.map l n, h => simp [Expr.calls_below, Expr.calls] at h
  | Expr.map_access l n key, h =>
    have := visit_expr_calls (Expr.map_access l n key) value_type frames scalar p h hm
    simpa only [visit_expr] using this
  | Expr.cast ty e, h =>
    have := visit_expr_calls (Expr.cast ty e) value_type frames scalar p h hm
    simpa only [visit_expr] using this
  | Expr.ternary c a b, h =>
    have := visit_expr_calls (Expr.ternary c a b) value_type frames scalar p h hm
    simpa only [visit_expr] using this

theorem visit_in_mono (direct : Bool) (e : Expr) (t : Analysis) (d : Diag)
    (h : d ∈ t.diagnostics) : d ∈ (visit_in direct e t).1.diagnostics := by
  simp only [visit_in]
  exact List.mem_append_left _ h

theorem use_in_mono (u : MapUse) (t : Analysis) (d : Diag) (h : d ∈ t.diagnostics) :
    d ∈ (use_in u t).diagnostics := by
  simp only [use_in]
  exact List.mem_append_left _ h

theorem visit_key_mono (key : Option Expr) (t : Analysis) (d : Diag)
    (h : d ∈ t.diagnostics) : d ∈ (visit_key key t).diagnostics := by
  cases key with
  | none => exact h
  | some k => exact visit_in_mono false k t d h

theorem declare_var_mono (loc : Nat) (name : Str) (type : Option SizedType)
    (t : Analysis) (d : Diag) (h : d ∈ t.diagnostics) :
    d ∈ (declare_var loc name type t).diagnostics := by
  unfold declare_var
  split
  · exact List.mem_append_left _ h
  · exact h

theorem assign_var_value_mono (loc : Nat) (name : Str) (rhs : Expr) (value : SizedType)
    (t : Analysis) (d : Diag) (h : d ∈ t.diagnostics) :
    d ∈ (assign_var_value loc name rhs value t).diagnostics := by
  unfold assign_var_value
  split
  · exact h
  · exact List.mem_append_left _ h

theorem assign_map_value_mono (loc : Nat) (name : Str) (rhs : Expr) (value : SizedType)
    (t : Analysis) (d : Diag) (h : d ∈ t.diagnostics) :
    d ∈ (assign_map_value loc name rhs value t).diagnostics := by
  simp only [assign_map_value]
  exact List.mem_append_left _ (List.mem_append_left _ h)

mutual
theorem visit_stmt_mono : ∀ (s : Stmt) (t : Analysis) (d : Diag),
    d ∈ t.diagnostics → d ∈ (visit_stmt s t).diagnostics
  | Stmt.expr e, t, d, h => by
    simp only [visit_stmt]
    exact visit_in_mono false e t d h
  | Stmt.assign_map loc map_loc name key rhs, t, d, h => by
    simp only [visit_stmt]
    exact assign_map_value_mono _ _ _ _ _ d
      (use_in_mono _ _ d (visit_key_mono key _ d (visit_in_mono true rhs t d h)))
  | Stmt.assign_var loc name rhs, t, d, h => by
    simp only [visit_stmt]
    exact assign_var_value_mono _ _ _ _ _ d (visit_in_mono false rhs t d h)
  | Stmt.var_decl loc name type init, t, d, h => by
    cases init with
    | none =>
      simp only [visit_stmt]
      exact declare_var_mono loc name type t d h
    | some rhs =>
      simp only [visit_stmt]
      exact assign_var_value_mono _ _ _ _ _ d
        (visit_in_mono false rhs _ d (declare_var_mono loc name type t d h))
  | Stmt.if_ cond then_block else_block, t, d, h => by
    simp only [visit_stmt]
    exact visit_block_mono else_block _ d
      (visit_block_mono then_block _ d (visit_in_mono false cond t d h))
theorem visit_block_mono : ∀ (b : List Stmt) (t : Analysis) (d : Diag),
    d ∈ t.diagnostics → d ∈ (visit_block b t).diagnostics
  | [], _, _, h => by simpa only [visit_block] using h
  | s :: rest, t, d, h => by
    simp only [visit_block]
    exact visit_block_mono rest _ d (visit_stmt_mono s t d h)
end

theorem analyse_probes_mono (program : List (List Stmt)) (t : Analysis) (d : Diag)
    (h : d ∈ t.diagnostics) : d ∈ (analyse_probes program t).diagnostics := by
  induction program generalizing t with
  | nil => exact h
  | cons body rest ih =>
    simp only [analyse_probes]
    exact ih _ (visit_block_mono body _ d h)

theorem visit_in_new (direct : Bool) (e : Expr) (t : Analysis) (d : Diag)
    (h : d ∈ (visit_expr t.value_type t.frames direct e t.scalar).2.1) :
    d ∈ (visit_in direct e t).1.diagnostics := by
  simp only [visit_in]
  exact List.mem_append_right _ h

mutual
theorem visit_stmt_misplaced : ∀ (s : Stmt) (t : Analysis) (p : Nat × Str),
    p ∈ s.misplaced_calls → must_assign p.2 = true →
      error p.1 (p.2 ++ "() must be assigned directly to a map".toList) ∈
        (visit_stmt s t).diagnostics
  | Stmt.expr e, t, p, h, hm => by
    simp only [Stmt.misplaced_calls] at h
    simp only [visit_stmt]
    exact visit_in_new false e t _ (visit_expr_calls e _ _ _ p h hm)
  | Stmt.assign_map loc map_loc name key rhs, t, p, h, hm => by
    simp only [Stmt.misplaced_calls, List.mem_append] at h
    simp only [visit_stmt]
    apply assign_map_value_mono
    apply use_in_mono
    rcases h with h | h
    · exact visit_key_mono key _ _
        (visit_in_new true rhs t _ (visit_expr_calls_below rhs _ _ _ p h hm))
    · cases key with
      | none => simp [calls_in] at h
      | some k =>
        simp only [calls_in] at h
        simp only [visit_key]
        exact visit_in_new false k _ _ (visit_expr_calls k _ _ _ p h hm)
  | Stmt.assign_var loc name rhs, t, p, h, hm => by
    simp only [Stmt.misplaced_calls] at h
    simp only [visit_stmt]
    exact assign_var_value_mono _ _ _ _ _ _
      (visit_in_new false rhs t _ (visit_expr_calls rhs _ _ _ p h hm))
  | Stmt.var_decl loc name type init, t, p, h, hm => by
    cases init with
    | none => simp [Stmt.misplaced_calls, calls_in] at h
    | some rhs =>
      simp only [Stmt.misplaced_calls, calls_in] at h
      simp only [visit_stmt]
      exact assign_var_value_mono _ _ _ _ _ _
        (visit_in_new false rhs _ _ (visit_expr_calls rhs _ _ _ p h hm))
  | Stmt.if_ cond then_block else_block, t, p, h, hm => by
    simp only [Stmt.misplaced_calls, List.mem_append] at h
    simp only [visit_stmt]
    rcases h with (h | h) | h
    · exact visit_block_mono else_block _ _ (visit_block_mono then_block _ _
        (visit_in_new false cond t _ (visit_expr_calls cond _ _ _ p h hm)))
    · exact visit_block_mono else_block _ _ (visit_block_misplaced then_block _ p h hm)
    · exact visit_block_misplaced else_block _ p h hm
theorem visit_block_misplaced : ∀ (b : List Stmt) (t : Analysis) (p : Nat × Str),
    p ∈ block_misplaced_calls b → must_assign p.2 = true →
      error p.1 (p.2 ++ "() must be assigned directly to a map".toList) ∈
        (visit_block b t).diagnostics
  | [], _, _, h, _ => by simp [block_misplaced_calls] at h
  | s :: rest, t, p, h, hm => by
    simp only [block_misplaced_calls, List.mem_append] at h
    simp only [visit_block]
    rcases h with h | h
    · exact visit_block_mono rest _ _ (visit_stmt_misplaced s t p h hm)
    · exact visit_block_misplaced rest _ p h hm
end

theorem analyse_probes_misplaced (program : List (List Stmt)) (t : Analysis)
    (p : Nat × Str) (h : p ∈ program_misplaced_calls program)
    (hm : must_assign p.2 = true) :
    error p.1 (p.2 ++ "() must be assigned directly to a map".toList) ∈
      (analyse_probes program t).diagnostics := by
  induction program generalizing t with
  | nil => simp [program_misplaced_calls] at h
  | cons body rest ih =>
    simp only [program_misplaced_calls, List.mem_append] at h
    simp only [analyse_probes]
    rcases h with h | h
    · exact analyse_probes_mono rest _ _ (visit_block_misplaced body _ p h hm)
    · exact ih _ h

theorem failed_of_error (t : Analysis) (d : Diag) (h : d ∈ t.diagnostics)
    (hs : d.severity = TracepointFormatParser.Severity.error) : failed t = true := by
  simp only [failed, List.any_eq_true, decide_eq_true_eq]
  exact ⟨d, h, hs⟩

/-- C17: a call of a must-assign builtin (hist, lhist, tseries, count, sum, min, max,
avg, stats) anywhere but as the right-hand side of an assignment to a map (an expression
statement, the value of a scratch variable, a map key, an if condition, an operand of a
ternary or an argument below the right-hand side) makes the analysis fail with the error
`<name>() must be assigned directly to a map` at the call. -/
theorem must_assign_rejected (program : List (List Stmt)) (loc : Nat) (func : Str)
    (hm : must_assign func = true)
    (h : (loc, func) ∈ program_misplaced_calls program) :
    error loc (func ++ "() must be assigned directly to a map".toList) ∈
        (analyse program).diagnostics ∧
      failed (analyse program) = true := by
  have h1 := analyse_probes_misplaced program initial (loc, func) h hm
  exact ⟨h1, failed_of_error _ _ h1 rfl⟩

/-- The five positions of C17 in one probe: `hist(pid);`, `$x = hist(pid);`,
`@x[hist(pid)] = 1;`, `if (hist(pid)) {}` and `@y = pid ? hist(pid) : lhist(pid);` are
each rejected, while `@z = hist(pid);` alone is accepted. -/
theorem must_assign_rejected_witness :
    let pid := Expr.builtin "pid".toList (SizedType.integer 32 false)
    let program : List (List Stmt) :=
      [[Stmt.expr (Expr.call 1 "hist".toList [pid]),
        Stmt.assign_var 2 "$x".toList (Expr.call 3 "hist".toList [pid]),
        Stmt.assign_map 4 5 "@x".toList (some (Expr.call 6 "hist".toList [pid]))
          (Expr.integer 1),
        Stmt.if_ (Expr.call 7 "hist".toList [pid]) [] [],
        Stmt.assign_map 8 9 "@y".toList none
          (Expr.ternary pid (Expr.call 10 "hist".toList [pid])
            (Expr.call 11 "lhist".toList [pid]))]]
    (∀ loc ∈ [1, 3, 6, 7, 10],
      error loc "hist() must be assigned directly to a map".toList ∈
        (analyse program).diagnostics) ∧
    error 11 "lhist() must be assigned directly to a map".toList ∈
      (analyse program).diagnostics ∧
    failed (analyse program) = true ∧
    (analyse [[Stmt.assign_map 1 2 "@z".toList none
      (Expr.call 3 "hist".toList [pid])]]).diagnostics = [] := by
  intro pid program
  refine ⟨?_, ?_, ?_, by decide⟩
  · intro loc hl
    exact (must_assign_rejected program loc "hist".toList (by decide)
      (by revert loc; decide)).1
  · exact (must_assign_rejected program 11 "lhist".toList (by decide) (by decide)).1
  · exact (must_assign_rejected program 1 "hist".toList (by decide) (by decide)).2

theorem track_append (a b : List MapUse) (scalar : Str → Option Bool) :
    track (a ++ b) scalar = track b (track a scalar) := by
  induction a generalizing scalar with
  | nil => rfl
  | cons u rest ih =>
    show track (rest ++ b) (use_map u scalar).1 = track b (track rest (use_map u scalar).1)
    exact ih _

theorem scalar_diags_append (a b : List MapUse) (scalar : Str → Option Bool) :
    scalar_diags (a ++ b) scalar = scalar_diags a scalar ++ scalar_diags b (track a scalar) := by
  induction a generalizing scalar with
  | nil => rfl
  | cons u rest ih =>
    show (use_map u scalar).2 ++ scalar_diags (rest ++ b) (use_map u scalar).1 =
      ((use_map u scalar).2 ++ scalar_diags rest (use_map u scalar).1) ++
        scalar_diags b (track rest (use_map u scalar).1)
    rw [ih, List.append_assoc]

theorem args_uses_cons (es : List Expr) (value_type : Str → SizedType)
    (frames : List (Str → Option VarInfo)) (scalar : Str → Option Bool)
    (hrest : ∀ x, (visit_exprs value_type frames es x).1 = track (uses_of es) x ∧
      ∀ d ∈ scalar_diags (uses_of es) x, d ∈ (visit_exprs value_type frames es x).2.1)
    (first : (Str → Option Bool) × List Diag × SizedType) (uses : List MapUse)
    (h1 : first.1 = track uses scalar)
    (h2 : ∀ d ∈ scalar_diags uses scalar, d ∈ first.2.1) :
    (visit_exprs value_type frames es first.1).1 = track (uses ++ uses_of es) scalar ∧
      ∀ d ∈ scalar_diags (uses ++ uses_of es) scalar,
        d ∈ first.2.1 ++ (visit_exprs value_type frames es first.1).2.1 := by
  rw [track_append, scalar_diags_append, h1]
  refine ⟨(hrest _).1, ?_⟩
  intro d hd
  rcases List.mem_append.mp hd with hd | hd
  · exact List.mem_append_left _ (h2 d hd)
  · exact List.mem_append_right _ ((hrest _).2 d hd)

mutual
theorem visit_expr_uses : ∀ (e : Expr) (value_type : Str → SizedType)
    (frames : List (Str → Option VarInfo)) (direct : Bool) (scalar : Str → Option Bool),
    (visit_expr value_type frames direct e scalar).1 = track e.uses scalar ∧
      ∀ d ∈ scalar_diags e.uses scalar, d ∈ (visit_expr value_type frames direct e scalar).2.1
  | Expr.integer _, _, _, _, _ => by
    simp [visit_expr, Expr.uses, track, scalar_diags]
  | Expr.string _, _, _, _, _ => by
    simp [visit_expr, Expr.uses, track, scalar_diags]
  | Expr.builtin _ _, _, _, _, _ => by
    simp [visit_expr, Expr.uses, track, scalar_diags]
  | Expr.variable _ name, _, frames, _, _ => by
    simp only [visit_expr, Expr.uses, track, scalar_diags]
    cases lookup_var frames name <;> simp
  | Expr.map _ _, _, _, _, _ => by
    simp [visit_expr, Expr.uses, track, scalar_diags]
  | Expr.map_access loc name key, value_type, frames, _, scalar => by
    have ih := visit_expr_uses key value_type frames false scalar
    simp only [visit_expr, Expr.uses, track_append, scalar_diags_append, track, scalar_diags,
      List.append_nil, List.mem_append, ih.1]
    refine ⟨trivial, ?_⟩
    intro d hd
    rcases hd with hd | hd
    · exact Or.inl (ih.2 d hd)
    · exact Or.inr hd
  | Expr.call loc func args, value_type, frames, direct, scalar => by
    have ih := visit_args_uses args value_type frames func scalar
    simp only [visit_expr, Expr.uses]
    split
    · exact ⟨ih.1, fun d hd => List.mem_append_left _ (ih.2 d hd)⟩
    · exact ⟨ih.1, fun d hd => List.mem_append_left _ (ih.2 d hd)⟩
  | Expr.cast _ expr, value_type, frames, _, scalar => by
    have ih := visit_expr_uses expr value_type frames false scalar
    simp only [visit_expr, Expr.uses]
    exact ih
  | Expr.ternary cond left right, value_type, frames, _, scalar => by
    have ih1 := visit_expr_uses cond value_type frames false scalar
    have ih2 := visit_expr_uses left value_type frames false (track cond.uses scalar)
    have ih3 := visit_expr_uses right value_type frames false
      (track left.uses (track cond.uses scalar))
    simp only [visit_expr, Expr.uses, track_append, scalar_diags_append, List.mem_append,
      ih1.1, ih2.1, ih3.1]
    refine ⟨trivial, ?_⟩
    intro d hd
    rcases hd with (hd | hd) | hd
    · exact Or.inl (Or.inl (ih1.2 d hd))
    · exact Or.inl (Or.inr (ih2.2 d hd))
    · exact Or.inr (ih3.2 d hd)
theorem visit_exprs_uses : ∀ (es : List Expr) (value_type : Str → SizedType)
    (frames : List (Str → Option VarInfo)) (scalar : Str → Option Bool),
    (visit_exprs value_type frames es scalar).1 = track (uses_of es) scalar ∧
      ∀ d ∈ scalar_diags (uses_of es) scalar, d ∈ (visit_exprs value_type frames es scalar).2.1
  | [], _, _, _ => by
    simp [visit_exprs, uses_of, track, scalar_diags]
  | e :: es, value_type, frames, scalar => by
    have ih1 := visit_expr_uses e value_type frames false scalar
    have ih2 := visit_exprs_uses es value_type frames (track e.uses scalar)
    simp only [visit_exprs, uses_of, track_append, scalar_diags_append, List.mem_append,
      ih1.1, ih2.1]
    refine ⟨trivial, ?_⟩
    intro d hd
    rcases hd with hd | hd
    · exact Or.inl (ih1.2 d hd)
    · exact Or.inr (ih2.2 d hd)
theorem visit_args_uses : ∀ (es : List Expr) (value_type : Str → SizedType)
    (frames : List (Str → Option VarInfo)) (func : Str) (scalar : Str → Option Bool),
    (visit_args value_type frames func es scalar).1 = track (args_uses func es) scalar ∧
      ∀ d ∈ scalar_diags (args_uses func es) scalar,
        d ∈ (visit_args value_type frames func es scalar).2.1
  | [], _, _, _, _ => by
    simp [visit_args, args_uses, track, scalar_diags]
  | Expr.integer v :: es, value_type, frames, func, scalar => by
    have hw := visit_expr_uses (Expr.integer v) value_type frames false scalar
    simpa only [visit_args, args_uses] using
      args_uses_cons es value_type frames scalar
        (fun x => visit_exprs_uses es value_type frames x) _ _ hw.1 hw.2
  | Expr.string v :: es, value_type, frames, func, scalar => by
    have hw := visit_expr_uses (Expr.string v) value_type frames false scalar
    simpa only [visit_args, args_uses] using
      args_uses_cons es value_type frames scalar
        (fun x => visit_exprs_uses es value_type frames x) _ _ hw.1 hw.2
  | Expr.builtin a b :: es, value_type, frames, func, scalar => by
    have hw := visit_expr_uses (Expr.builtin a b) value_type frames false scalar
    simpa only [visit_args, args_uses] using
      args_uses_cons es value_type frames scalar
        (fun x => visit_exprs_uses es value_type frames x) _ _ hw.1 hw.2
  | Expr.variable a b :: es, value_type, frames, func, scalar => by
    have hw := visit_expr_uses (Expr.variable a b) value_type frames false scalar
    simpa only [visit_args, args_uses] using
      args_uses_cons es value_type frames scalar
        (fun x => visit_exprs_uses es value_type frames x) _ _ hw.1 hw.2
  | Expr.call a b c :: es, value_type, frames, func, scalar => by
    have hw := visit_expr_uses (Expr.call a b c) value_type frames false scalar
    simpa only [visit_args, args_uses] using
      args_uses_cons es value_type frames scalar
        (fun x => visit_exprs_uses es value_type frames x) _ _ hw.1 hw.2
  | Expr.cast a b :: es, value_type, frames, func, scalar => by
    have hw := visit_expr_uses (Expr.cast a b) value_type frames false scalar
    simpa only [visit_args, args_uses] using
      args_uses_cons es value_type frames scalar
        (fun x => visit_exprs_uses es value_type frames x) _ _ hw.1 hw.2
  | Expr.ternary a b c :: es, value_type, frames, func, scalar => by
    have hw := visit_expr_uses (Expr.ternary a b c) value_type frames false scalar
    simpa only [visit_args, args_uses] using
      args_uses_cons es value_type frames scalar
        (fun x => visit_exprs_uses es value_type frames x) _ _ hw.1 hw.2
  | Expr.map l n :: es, value_type, frames, func, scalar => by
    have hw := visit_expr_uses (Expr.map l n) value_type frames false scalar
    simp only [visit_args, args_uses]
    split
    · exact args_uses_cons es value_type frames scalar
        (fun x => visit_exprs_uses es value_type frames x) (scalar, [], value_type n) [] rfl
        (fun d hd => by simp [scalar_diags] at hd)
    · exact args_uses_cons es value_type frames scalar
        (fun x => visit_exprs_uses es value_type frames x) _ _ hw.1 hw.2
  | Expr.map_access l n key :: es, value_type, frames, func, scalar => by
    have hw := visit_expr_uses (Expr.map_access l n key) value_type frames false scalar
    have hk := visit_expr_uses key value_type frames false scalar
    simp only [visit_args, args_uses]
    split
    · exact args_uses_cons es value_type frames scalar
        (fun x => visit_exprs_uses es value_type frames x)
        ((visit_expr value_type frames false key scalar).1,
          (visit_expr value_type frames false key scalar).2.1, value_type n) _ hk.1 hk.2
    · exact args_uses_cons es value_type frames scalar
        (fun x => visit_exprs_uses es value_type frames x) _ _ hw.1 hw.2
end

theorem follows_refl (t : Analysis) : Follows [] t t :=
  ⟨rfl, fun _ h => h, fun _ h => by simp [scalar_diags] at h⟩

theorem follows_trans (a b : List MapUse) (t1 t2 t3 : Analysis) (h1 : Follows a t1 t2)
    (h2 : Follows b t2 t3) : Follows (a ++ b) t1 t3 := by
  refine ⟨?_, fun d h => h2.2.1 d (h1.2.1 d h), ?_⟩
  · rw [track_append, ← h1.1]
    exact h2.1
  · intro d hd
    rw [scalar_diags_append, List.mem_append, ← h1.1] at hd
    rcases hd with hd | hd
    · exact h2.2.1 d (h1.2.2 d hd)
    · exact h2.2.2 d hd

theorem follows_congr (uses : List MapUse) (t1 t2 s1 s2 : Analysis)
    (h : Follows uses t1 t2) (e1 : s1.scalar = t1.scalar)
    (e2 : s1.diagnostics = t1.diagnostics) (e3 : s2.scalar = t2.scalar)
    (e4 : s2.diagnostics = t2.diagnostics) : Follows uses s1 s2 := by
  unfold Follows
  rw [e1, e2, e3, e4]
  exact h

theorem visit_in_follows (direct : Bool) (e : Expr) (t : Analysis) :
    Follows e.uses t (visit_in direct e t).1 := by
  have h := visit_expr_uses e t.value_type t.frames direct t.scalar
  exact ⟨h.1, fun d hd => visit_in_mono direct e t d hd,
    fun d hd => visit_in_new direct e t d (h.2 d hd)⟩

theorem use_in_follows (u : MapUse) (t : Analysis) : Follows [u] t (use_in u t) := by
  refine ⟨rfl, fun d hd => use_in_mono u t d hd, ?_⟩
  intro d hd
  simp only [scalar_diags, List.append_nil] at hd
  simp only [use_in]
  exact List.mem_append_right _ hd

theorem visit_key_follows (key : Option Expr) (t : Analysis) :
    Follows (uses_in key) t (visit_key key t) := by
  cases key with
  | none => exact follows_refl t
  | some k => exact visit_in_follows false k t

theorem assign_map_value_follows (loc : Nat) (name : Str) (rhs : Expr) (value : SizedType)
    (t : Analysis) : Follows [] t (assign_map_value loc name rhs value t) :=
  ⟨rfl, fun d hd => assign_map_value_mono loc name rhs value t d hd,
    fun _ h => by simp [scalar_diags] at h⟩

theorem assign_var_value_follows (loc : Nat) (name : Str) (rhs : Expr) (value : SizedType)
    (t : Analysis) : Follows [] t (assign_var_value loc name rhs value t) := by
  refine ⟨?_, fun d hd => assign_var_value_mono loc name rhs value t d hd,
    fun _ h => by simp [scalar_diags] at h⟩
  unfold assign_var_value
  split <;> rfl

theorem declare_var_follows (loc : Nat) (name : Str) (type : Option SizedType)
    (t : Analysis) : Follows [] t (declare_var loc name type t) := by
  refine ⟨?_, fun d hd => declare_var_mono loc name type t d hd,
    fun _ h => by simp [scalar_diags] at h⟩
  unfold declare_var
  split <;> rfl

mutual
theorem visit_stmt_follows : ∀ (s : Stmt) (t : Analysis), Follows s.uses t (visit_stmt s t)
  | Stmt.expr e, t => by
    simp only [visit_stmt, Stmt.uses]
    exact visit_in_follows false e t
  | Stmt.assign_map loc map_loc name key rhs, t => by
    simp only [visit_stmt, Stmt.uses]
    have h := follows_trans _ _ _ _ _
      (follows_trans _ _ _ _ _
        (follows_trans _ _ _ _ _ (visit_in_follows true rhs t)
          (visit_key_follows key (visit_in true rhs t).1))
        (use_in_follows ⟨map_loc, name, key.isSome⟩ (visit_key key (visit_in true rhs t).1)))
      (assign_map_value_follows loc name rhs (visit_in true rhs t).2
        (use_in ⟨map_loc, name, key.isSome⟩ (visit_key key (visit_in true rhs t).1)))
    simpa only [List.append_nil] using h
  | Stmt.assign_var loc name rhs, t => by
    simp only [visit_stmt, Stmt.uses]
    have h := follows_trans _ _ _ _ _ (visit_in_follows false rhs t)
      (assign_var_value_follows loc name rhs (visit_in false rhs t).2 (visit_in false rhs t).1)
    simpa only [List.append_nil] using h
  | Stmt.var_decl loc name type init, t => by
    cases init with
    | none =>
      simp only [visit_stmt, Stmt.uses, uses_in]
      exact declare_var_follows loc name type t
    | some rhs =>
      simp only [visit_stmt, Stmt.uses, uses_in]
      have h := follows_trans _ _ _ _ _ (declare_var_follows loc name type t)
        (follows_trans _ _ _ _ _ (visit_in_follows false rhs (declare_var loc name type t))
          (assign_var_value_follows loc name rhs
            (visit_in false rhs (declare_var loc name type t)).2
            (visit_in false rhs (declare_var loc name type t)).1))
      simpa only [List.append_nil, List.nil_append] using h
  | Stmt.if_ cond then_block else_block, t => by
    simp only [visit_stmt, Stmt.uses]
    have h1 := visit_in_follows false cond t
    have h2 := visit_block_follows then_block
      { (visit_in false cond t).1 with
        frames := (fun _ => none) :: (visit_in false cond t).1.frames }
    have h3 := visit_block_follows else_block
      { (visit_block then_block
          { (visit_in false cond t).1 with
            frames := (fun _ => none) :: (visit_in false cond t).1.frames }) with
        frames := (fun _ => none) :: (visit_block then_block
          { (visit_in false cond t).1 with
            frames := (fun _ => none) :: (visit_in false cond t).1.frames }).frames.tail }
    have h12 := follows_trans _ _ _ _ _ h1
      (follows_congr _ _ _ (visit_in false cond t).1 _ h2 rfl rfl rfl rfl)
    have h123 := follows_trans _ _ _ _ _ h12
      (follows_congr _ _ _ _ _ h3 rfl rfl rfl rfl)
    exact follows_congr _ _ _ _ _ h123 rfl rfl rfl rfl
theorem visit_block_follows : ∀ (b : List Stmt) (t : Analysis),
    Follows (block_uses b) t (visit_block b t)
  | [], t => by
    simp only [visit_block, block_uses]
    exact follows_refl t
  | s :: rest, t => by
    simp only [visit_block, block_uses]
    exact follows_trans _ _ _ _ _ (visit_stmt_follows s t)
      (visit_block_follows rest (visit_stmt s t))
end

theorem compatible_refl (a : SizedType) : compatible a a = true := by
  cases a <;> simp [compatible]

theorem compatible_none_left (b : SizedType) (h : compatible SizedType.none b = true) :
    b = SizedType.none := by
  cases b <;> simp_all [compatible]

theorem compatible_none_right (a : SizedType) (h : compatible a SizedType.none = true) :
    a = SizedType.none := by
  cases a <;> simp_all [compatible]

theorem compatible_widen (a b c : SizedType) (h1 : compatible a b = true)
    (h2 : compatible b c = true) : compatible a (widen b c) = true := by
  cases a <;> cases b <;> cases c <;> simp_all [compatible, widen]

theorem promote_eq_none (v : SizedType) : promote v = SizedType.none ↔ v = SizedType.none := by
  cases v <;> simp [promote]

theorem fixed_append (name : Str) (a b : List Store) :
    fixed name (a ++ b) = if fixed name a = SizedType.none then fixed name b else fixed name a := by
  induction a with
  | nil => simp [fixed]
  | cons s rest ih =>
    simp only [List.cons_append, fixed]
    by_cases h : s.name = name ∧ s.value ≠ SizedType.none
    · simp [h]
    · simp only [h, if_false]
      exact ih

theorem store_errors_eq (loc : Nat) (name : Str) (stored value : SizedType)
    (literal : Option Int) :
    store_errors ⟨loc, name, stored, resolved_value stored value literal, literal⟩ =
      (check_map_value loc name stored value literal).2 := by
  cases stored <;> cases literal <;>
    simp [store_errors, check_map_value, resolved_value, promote_eq_none]
  all_goals
    by_cases hv : value = SizedType.none
    · simp [hv]
    · simp only [hv, if_false]
      split <;> rfl

theorem split_snoc (pre post l : List Store) (s x : Store) (h : l ++ [x] = pre ++ s :: post) :
    (post = [] ∧ pre = l ∧ s = x) ∨ ∃ rest, post = rest ++ [x] ∧ l = pre ++ s :: rest := by
  rcases List.eq_nil_or_concat post with hp | ⟨rest, y, hp⟩
  · subst hp
    have h2 : l ++ [x] = pre ++ [s] := h
    have := List.append_inj' h2 rfl
    exact Or.inl ⟨rfl, this.1.symm, by simpa using this.2.symm⟩
  · subst hp
    right
    have h2 : l ++ [x] = (pre ++ s :: rest) ++ [y] := by
      rw [h]; simp
    have := List.append_inj' h2 rfl
    have hxy : x = y := by simpa using this.2
    subst hxy
    exact ⟨rest, by simp, this.1⟩

theorem sound_keep (t after : Analysis) (h : Sound t)
    (e1 : after.value_type = t.value_type) (e2 : after.stores = t.stores)
    (e3 : ∀ d ∈ t.diagnostics, d ∈ after.diagnostics) : Sound after := by
  unfold Sound
  rw [e1, e2]
  exact ⟨h.1, h.2.1, fun s hs => ⟨(h.2.2 s hs).1, fun d hd => e3 d ((h.2.2 s hs).2 d hd)⟩⟩

theorem fixed_single (name : Str) (s : Store) (h : s.name = name) :
    fixed name [s] = s.value := by
  simp only [fixed, h, true_and]
  by_cases hv : s.value = SizedType.none
  · simp [hv]
  · simp [hv]

theorem fixed_single_other (name : Str) (s : Store) (h : s.name ≠ name) :
    fixed name [s] = SizedType.none := by
  simp [fixed, h]

theorem check_map_value_fixed (loc : Nat) (name : Str) (first stored value : SizedType)
    (literal : Option Int) (h : compatible first stored = true)
    (hs : stored ≠ SizedType.none) :
    compatible first (check_map_value loc name stored value literal).1 = true := by
  unfold check_map_value
  simp only [hs, if_false]
  split
  · exact h
  · by_cases hv : value = SizedType.none
    · simp only [hv, if_true]
      exact h
    · simp only [hv, if_false]
      by_cases hc : compatible stored (promote value) = true
      · simp only [hc, if_true]
        exact compatible_widen _ _ _ h hc
      · simp only [hc]
        exact h

theorem sound_assign (loc : Nat) (name : Str) (rhs : Expr) (value : SizedType)
    (t : Analysis) (h : Sound t) : Sound (assign_map_value loc name rhs value t) := by
  obtain ⟨h1, h2, h3⟩ := h
  refine ⟨?_, ?_, ?_⟩
  · intro n
    simp only [assign_map_value]
    rw [fixed_append]
    by_cases hn : n = name
    · subst hn
      simp only [if_true]
      by_cases hf : fixed n t.stores = SizedType.none
      · have hst : t.value_type n = SizedType.none := by
          have := h1 n
          rw [hf] at this
          exact compatible_none_left _ this
        simp only [hf, if_true]
        rw [fixed_single n _ rfl]
        simp only [hst, check_map_value, resolved_value, if_true]
        exact compatible_refl _
      · simp only [hf, if_false]
        apply check_map_value_fixed _ _ _ _ _ _ (h1 n)
        intro hst
        have := h1 n
        rw [hst] at this
        exact hf (compatible_none_right _ this)
    · simp only [hn, if_false]
      rw [fixed_single_other n _ (Ne.symm hn)]
      by_cases hf : fixed n t.stores = SizedType.none
      · simp only [hf, if_true]
        have := h1 n
        rw [hf] at this
        exact this
      · simp only [hf, if_false]
        exact h1 n
  · intro pre s post hsplit
    simp only [assign_map_value] at hsplit
    rcases split_snoc pre post _ s _ hsplit with ⟨_, hpre, hs⟩ | ⟨rest, _, hl⟩
    · subst hpre
      subst hs
      exact h1 name
    · exact h2 pre s rest hl
  · intro s hs
    simp only [assign_map_value, List.mem_append, List.mem_singleton] at hs
    rcases hs with hs | hs
    · refine ⟨(h3 s hs).1, fun d hd => ?_⟩
      exact assign_map_value_mono loc name rhs value t d ((h3 s hs).2 d hd)
    · subst hs
      refine ⟨⟨_, rfl⟩, fun d hd => ?_⟩
      rw [store_errors_eq] at hd
      simp only [assign_map_value]
      exact List.mem_append_right _ hd

theorem visit_in_sound (direct : Bool) (e : Expr) (t : Analysis) (h : Sound t) :
    Sound (visit_in direct e t).1 :=
  sound_keep t _ h rfl rfl (fun d hd => visit_in_mono direct e t d hd)

theorem use_in_sound (u : MapUse) (t : Analysis) (h : Sound t) : Sound (use_in u t) :=
  sound_keep t _ h rfl rfl (fun d hd => use_in_mono u t d hd)

theorem visit_key_sound (key : Option Expr) (t : Analysis) (h : Sound t) :
    Sound (visit_key key t) := by
  cases key with
  | none => exact h
  | some k => exact visit_in_sound false k t h

theorem assign_var_value_sound (loc : Nat) (name : Str) (rhs : Expr) (value : SizedType)
    (t : Analysis) (h : Sound t) : Sound (assign_var_value loc name rhs value t) := by
  refine sound_keep t _ h ?_ ?_ (fun d hd => assign_var_value_mono loc name rhs value t d hd)
  · unfold assign_var_value
    split <;> rfl
  · unfold assign_var_value
    split <;> rfl

theorem declare_var_sound (loc : Nat) (name : Str) (type : Option SizedType)
    (t : Analysis) (h : Sound t) : Sound (declare_var loc name type t) := by
  refine sound_keep t _ h ?_ ?_ (fun d hd => declare_var_mono loc name type t d hd)
  · unfold declare_var
    split <;> rfl
  · unfold declare_var
    split <;> rfl

mutual
theorem visit_stmt_sound : ∀ (s : Stmt) (t : Analysis), Sound t → Sound (visit_stmt s t)
  | Stmt.expr e, t, h => by
    simp only [visit_stmt]
    exact visit_in_sound false e t h
  | Stmt.assign_map loc map_loc name key rhs, t, h => by
    simp only [visit_stmt]
    exact sound_assign _ _ _ _ _
      (use_in_sound _ _ (visit_key_sound key _ (visit_in_sound true rhs t h)))
  | Stmt.assign_var loc name rhs, t, h => by
    simp only [visit_stmt]
    exact assign_var_value_sound _ _ _ _ _ (visit_in_sound false rhs t h)
  | Stmt.var_decl loc name type init, t, h => by
    cases init with
    | none =>
      simp only [visit_stmt]
      exact declare_var_sound loc name type t h
    | some rhs =>
      simp only [visit_stmt]
      exact assign_var_value_sound _ _ _ _ _
        (visit_in_sound false rhs _ (declare_var_sound loc name type t h))
  | Stmt.if_ cond then_block else_block, t, h => by
    simp only [visit_stmt]
    have h1 := visit_in_sound false cond t h
    have h2 := visit_block_sound then_block
      { (visit_in false cond t).1 with
        frames := (fun _ => none) :: (visit_in false cond t).1.frames }
      (sound_keep _ _ h1 rfl rfl (fun _ hd => hd))
    have h3 := visit_block_sound else_block
      { (visit_block then_block
          { (visit_in false cond t).1 with
            frames := (fun _ => none) :: (visit_in false cond t).1.frames }) with
        frames := (fun _ => none) :: (visit_block then_block
          { (visit_in false cond t).1 with
            frames := (fun _ => none) :: (visit_in false cond t).1.frames }).frames.tail }
      (sound_keep _ _ h2 rfl rfl (fun _ hd => hd))
    exact sound_keep _ _ h3 rfl rfl (fun _ hd => hd)
theorem visit_block_sound : ∀ (b : List Stmt) (t : Analysis), Sound t → Sound (visit_block b t)
  | [], t, h => by simpa only [visit_block] using h
  | s :: rest, t, h => by
    simp only [visit_block]
    exact visit_block_sound rest _ (visit_stmt_sound s t h)
end

theorem assign_var_value_stores (loc : Nat) (name : Str) (rhs : Expr) (value : SizedType)
    (t : Analysis) : (assign_var_value loc name rhs value t).stores = t.stores := by
  unfold assign_var_value
  split <;> rfl

theorem declare_var_stores (loc : Nat) (name : Str) (type : Option SizedType)
    (t : Analysis) : (declare_var loc name type t).stores = t.stores := by
  unfold declare_var
  split <;> rfl

theorem visit_key_stores (key : Option Expr) (t : Analysis) :
    (visit_key key t).stores = t.stores := by
  cases key <;> rfl

mutual
theorem visit_stmt_stores : ∀ (s : Stmt) (t : Analysis),
    (visit_stmt s t).stores.map Store.site = t.stores.map Store.site ++ s.assignments
  | Stmt.expr e, t => by
    simp [visit_stmt, Stmt.assignments, visit_in]
  | Stmt.assign_map loc map_loc name key rhs, t => by
    simp only [visit_stmt, Stmt.assignments, assign_map_value, use_in, visit_key_stores,
      List.map_append, List.map_cons, List.map_nil, Store.site]
    rfl
  | Stmt.assign_var loc name rhs, t => by
    simp [visit_stmt, Stmt.assignments, assign_var_value_stores, visit_in]
  | Stmt.var_decl loc name type init, t => by
    cases init with
    | none => simp [visit_stmt, Stmt.assignments, declare_var_stores]
    | some rhs =>
      simp [visit_stmt, Stmt.assignments, assign_var_value_stores, visit_in,
        declare_var_stores]
  | Stmt.if_ cond then_block else_block, t => by
    simp only [visit_stmt, Stmt.assignments]
    rw [visit_block_stores else_block, visit_block_stores then_block, List.append_assoc]
    rfl
theorem visit_block_stores : ∀ (b : List Stmt) (t : Analysis),
    (visit_block b t).stores.map Store.site = t.stores.map Store.site ++ block_assignments b
  | [], t => by simp [visit_block, block_assignments]
  | s :: rest, t => by
    simp only [visit_block, block_assignments]
    rw [visit_block_stores rest, visit_stmt_stores s, List.append_assoc]
end

end SemanticAnalyser

theorem to_uint64_of_nonneg (count : Int) (h0 : 0 ≤ count) (h1 : count ≤ INT_MAX) :
    to_uint64 count = count.toNat := by
  unfold to_uint64
  unfold INT_MAX at h1
  rw [Int.emod_eq_of_lt h0 (by omega)]

theorem is_aligned_loop_step (disassemble : Nat → Int) (size offset fuel pc : Nat)
    (h0 : 0 ≤ disassemble pc) (h1 : disassemble pc ≤ INT_MAX)
    (hfit : pc + 2147483647 < 18446744073709551616) :
    is_aligned_loop disassemble size offset (fuel + 1) pc =
      if pc + (disassemble pc).toNat = offset then some AlignState.Ok
      else if 0 < (disassemble pc).toNat ∧ pc + (disassemble pc).toNat < size ∧
          pc + (disassemble pc).toNat < offset then
        is_aligned_loop disassemble size offset fuel (pc + (disassemble pc).toNat)
      else some AlignState.NotAlign := by
  have hmod : (pc + (disassemble pc).toNat) % 18446744073709551616 =
      pc + (disassemble pc).toNat := by
    apply Nat.mod_eq_of_lt
    unfold INT_MAX at h1
    omega
  simp only [is_aligned_loop, to_uint64_of_nonneg _ h0 h1, hmod]

theorem boundary_shift (disassemble : Nat → Int) (start k : Nat) :
    boundary disassemble start (k + 1) =
      boundary disassemble (start + (disassemble start).toNat) k := by
  induction k with
  | zero => rfl
  | succ k ih =>
    show boundary disassemble start (k + 1) +
        (disassemble (boundary disassemble start (k + 1))).toNat =
      boundary disassemble (start + (disassemble start).toNat) k +
        (disassemble (boundary disassemble (start + (disassemble start).toNat) k)).toNat
    rw [ih]

theorem boundary_ge (disassemble : Nat → Int) (start k : Nat) :
    start + (disassemble start).toNat ≤ boundary disassemble start k := by
  induction k with
  | zero => exact Nat.le_refl _
  | succ k ih =>
    show _ ≤ boundary disassemble start k +
      (disassemble (boundary disassemble start k)).toNat
    omega

/-- From a position up to `offset`, with positive lengths and no wrap of `pc`, the loop
returns `Ok` when `offset` is a boundary reached from the position, `NotAlign` when it is
not. -/
theorem is_aligned_loop_spec (disassemble : Nat → Int) (size offset : Nat)
    (hlen : ∀ p, 0 < disassemble p ∧ disassemble p ≤ INT_MAX) (hle : offset ≤ size)
    (hfit : offset + 2147483647 < 18446744073709551616) (fuel pc : Nat)
    (hpc : pc ≤ offset) (hfuel : offset - pc < fuel) :
    (is_aligned_loop disassemble size offset fuel pc = some AlignState.Ok ∧
        ∃ k, boundary disassemble pc k = offset) ∨
      (is_aligned_loop disassemble size offset fuel pc = some AlignState.NotAlign ∧
        ¬ ∃ k, boundary disassemble pc k = offset) := by
  induction fuel generalizing pc with
  | zero => omega
  | succ fuel ih =>
    have hp := hlen pc
    have hpos : 0 < (disassemble pc).toNat := by omega
    rw [is_aligned_loop_step disassemble size offset fuel pc (by omega) hp.2 (by omega)]
    by_cases heq : pc + (disassemble pc).toNat = offset
    · left
      rw [if_pos heq]
      exact ⟨rfl, 0, heq⟩
    · rw [if_neg heq]
      by_cases hlt : pc + (disassemble pc).toNat < offset
      · rw [if_pos ⟨hpos, by omega, hlt⟩]
        rcases ih (pc + (disassemble pc).toNat) (by omega) (by omega) with
          ⟨h1, k, hk⟩ | ⟨h1, hno⟩
        · left
          exact ⟨h1, k + 1, by rw [boundary_shift]; exact hk⟩
        · right
          refine ⟨h1, ?_⟩
          rintro ⟨k, hk⟩
          cases k with
          | zero => exact heq hk
          | succ k =>
            rw [boundary_shift] at hk
            exact hno ⟨k, hk⟩
      · rw [if_neg (fun h => hlt h.2.2)]
        right
        refine ⟨rfl, ?_⟩
        rintro ⟨k, hk⟩
        have := boundary_ge disassemble pc k
        omega

/-- With even lengths, a size and an offset of `2 ^ 64 - 1` and an even `pc`, the loop
does not end: `pc` stays even through the wrap and never meets the odd offset. -/
theorem is_aligned_loop_even (length : Nat) (h2 : length % 2 = 0) (hpos : 0 < length)
    (hmax : length ≤ 2147483647) (fuel pc : Nat) (hpc : pc % 2 = 0) :
    is_aligned_loop (fun _ => (length : Int)) 18446744073709551615 18446744073709551615
      fuel pc = none := by
  induction fuel generalizing pc with
  | zero => rfl
  | succ fuel ih =>
    have hu : to_uint64 (length : Int) = length := by
      rw [to_uint64_of_nonneg _ (by omega) (by unfold INT_MAX; omega)]
      simp
    have hev : ((pc + length) % 18446744073709551616) % 2 = 0 := by omega
    have hlt : (pc + length) % 18446744073709551616 < 18446744073709551616 :=
      Nat.mod_lt _ (by decide)
    simp only [is_aligned_loop, hu]
    rw [if_neg (by omega), if_pos ⟨hpos, by omega, by omega⟩]
    exact ih _ hev

/-- C28 (amended): when the binary opens, the disassembler gives a positive length at
each position, `offset ≤ size` and `offset + INT_MAX` is below `2 ^ 64`, then with fuel
above `offset` `is_aligned_buf` returns `Ok` if and only if `offset` is one of the
instruction boundaries reached by decoding from position 0, and `NotAlign` otherwise;
for `offset = 0` it returns `NotAlign`. -/
theorem aligned_iff_boundary (bfd : Bfd) (tpath : Str) (size offset fuel : Nat)
    (hexe : bfd.get_pid_exe = some tpath) (hopen : bfd.bfd_openr tpath = true)
    (hformat : bfd.bfd_check_format tpath = true)
    (hlen : ∀ p, 0 < bfd.disassemble p ∧ bfd.disassemble p ≤ INT_MAX)
    (hle : offset ≤ size) (hfit : offset + 2147483647 < 18446744073709551616)
    (hfuel : offset < fuel) :
    (is_aligned_buf bfd size offset fuel = some AlignState.Ok ↔
      ∃ k, boundary bfd.disassemble 0 k = offset) ∧
    ((¬ ∃ k, boundary bfd.disassemble 0 k = offset) →
      is_aligned_buf bfd size offset fuel = some AlignState.NotAlign) ∧
    (offset = 0 → is_aligned_buf bfd size offset fuel = some AlignState.NotAlign) := by
  have hrun : is_aligned_buf bfd size offset fuel =
      is_aligned_loop bfd.disassemble size offset fuel 0 := by
    unfold is_aligned_buf
    simp [hexe, hopen, hformat]
  rw [hrun]
  have hspec := is_aligned_loop_spec bfd.disassemble size offset hlen hle hfit fuel 0
    (Nat.zero_le _) (by omega)
  have hnot : (¬ ∃ k, boundary bfd.disassemble 0 k = offset) →
      is_aligned_loop bfd.disassemble size offset fuel 0 = some AlignState.NotAlign := by
    intro hno
    rcases hspec with ⟨_, hk⟩ | ⟨h1, _⟩
    · exact absurd hk hno
    · exact h1
  refine ⟨?_, hnot, ?_⟩
  · constructor
    · intro hok
      rcases hspec with ⟨_, hk⟩ | ⟨h1, _⟩
      · exact hk
      · rw [h1] at hok
        exact absurd hok (by decide)
    · intro hk
      rcases hspec with ⟨h1, _⟩ | ⟨_, hno⟩
      · exact h1
      · exact absurd hk hno
  · intro h0
    apply hnot
    rintro ⟨k, hk⟩
    have hge := boundary_ge bfd.disassemble 0 k
    have := (hlen 0).1
    omega

/-- C28 (amended) at a binary with the boundaries 3, 8, 11, 16, ...: the offset 8 is `Ok`,
the offsets 9 and 0 are `NotAlign`. -/
theorem aligned_iff_boundary_witness :
    is_aligned_buf sample_bfd 100 8 9 = some AlignState.Ok ∧
    is_aligned_buf sample_bfd 100 0 1 = some AlignState.NotAlign ∧
    is_aligned_buf sample_bfd 100 9 10 = some AlignState.NotAlign ∧
    boundary sample_bfd.disassemble 0 1 = 8 :=
  ⟨(aligned_iff_boundary sample_bfd "/proc/self/exe".toList 100 8 9 rfl rfl rfl
      (fun p => by
        show (0 : Int) < (if p % 8 = 0 then 3 else 5) ∧
          (if p % 8 = 0 then (3 : Int) else 5) ≤ INT_MAX
        split <;> decide)
      (by decide) (by decide) (by decide)).1.mpr ⟨1, by decide⟩,
    (aligned_iff_boundary sample_bfd "/proc/self/exe".toList 100 0 1 rfl rfl rfl
      (fun p => by
        show (0 : Int) < (if p % 8 = 0 then 3 else 5) ∧
          (if p % 8 = 0 then (3 : Int) else 5) ≤ INT_MAX
        split <;> decide)
      (by decide) (by decide) (by decide)).2.2 rfl,
    by decide, by decide⟩

/-- C28 as stated fails: with instructions of 2 bytes, `size = offset = 2 ^ 64 - 1` is
not an instruction boundary, yet `is_aligned_buf` does not return `NotAlign`: `pc` wraps
from `2 ^ 64 - 2` to 0 and the loop goes on for ever. -/
theorem aligned_counterexample :
    (∀ p, 0 < (uniform_bfd 2).disassemble p ∧ (uniform_bfd 2).disassemble p ≤ INT_MAX) ∧
    (¬ ∃ k, boundary (uniform_bfd 2).disassemble 0 k = 18446744073709551615) ∧
    ∀ fuel, is_aligned_buf (uniform_bfd 2) 18446744073709551615 18446744073709551615 fuel =
      none := by
  refine ⟨fun _ => ⟨show (0 : Int) < 2 by decide, show (2 : Int) ≤ INT_MAX by decide⟩,
    ?_, ?_⟩
  · rintro ⟨k, hk⟩
    have hev : ∀ k, boundary (uniform_bfd 2).disassemble 0 k % 2 = 0 := by
      intro k
      induction k with
      | zero => rfl
      | succ k ih =>
        show (boundary (uniform_bfd 2).disassemble 0 k + 2) % 2 = 0
        omega
    have := hev k
    omega
  · intro fuel
    have h := is_aligned_loop_even 2 rfl (by decide) (by decide) fuel 0 rfl
    unfold is_aligned_buf
    simpa [uniform_bfd] using h

theorem is_aligned_loop_ends (disassemble : Nat → Int) (size offset : Nat)
    (hlen : ∀ p, 0 ≤ disassemble p ∧ disassemble p ≤ INT_MAX)
    (hfit : min size offset + 2147483647 < 18446744073709551616) (fuel pc : Nat)
    (hpc : pc ≤ min size offset) (hfuel : min size offset - pc < fuel) :
    ∃ r, is_aligned_loop disassemble size offset fuel pc = some r := by
  induction fuel generalizing pc with
  | zero => omega
  | succ fuel ih =>
    have hp := hlen pc
    rw [is_aligned_loop_step disassemble size offset fuel pc hp.1 hp.2 (by omega)]
    by_cases heq : pc + (disassemble pc).toNat = offset
    · rw [if_pos heq]
      exact ⟨_, rfl⟩
    · rw [if_neg heq]
      by_cases hgo : 0 < (disassemble pc).toNat ∧ pc + (disassemble pc).toNat < size ∧
          pc + (disassemble pc).toNat < offset
      · rw [if_pos hgo]
        exact ih _ (by omega) (by omega)
      · rw [if_neg hgo]
        exact ⟨_, rfl⟩

/-- C29 (amended): when the disassembler never returns a negative length and
`min(size, offset) + INT_MAX` is below `2 ^ 64`, `is_aligned_buf` returns for every fuel
above `min(size, offset)`. From a position up to `min(size, offset)`: a zero length ends
the loop at once; a positive length moves `pc` strictly forward, and the loop goes on
from the new `pc` while it is below `min(size, offset)` and ends when it has reached or
passed it. -/
theorem decoding_terminates (bfd : Bfd) (size offset : Nat)
    (hlen : ∀ p, 0 ≤ bfd.disassemble p ∧ bfd.disassemble p ≤ INT_MAX)
    (hfit : min size offset + 2147483647 < 18446744073709551616) :
    (∀ fuel, min size offset < fuel →
      ∃ r, is_aligned_buf bfd size offset fuel = some r) ∧
    (∀ fuel pc, pc ≤ min size offset → bfd.disassemble pc = 0 →
      is_aligned_loop bfd.disassemble size offset (fuel + 1) pc =
        some (if pc = offset then AlignState.Ok else AlignState.NotAlign)) ∧
    (∀ fuel pc, pc ≤ min size offset → 0 < bfd.disassemble pc →
      pc < pc + (bfd.disassemble pc).toNat ∧
      (pc + (bfd.disassemble pc).toNat < min size offset →
        is_aligned_loop bfd.disassemble size offset (fuel + 1) pc =
          is_aligned_loop bfd.disassemble size offset fuel
            (pc + (bfd.disassemble pc).toNat)) ∧
      (min size offset ≤ pc + (bfd.disassemble pc).toNat →
        is_aligned_loop bfd.disassemble size offset (fuel + 1) pc =
          some (if pc + (bfd.disassemble pc).toNat = offset then AlignState.Ok
            else AlignState.NotAlign))) := by
  refine ⟨?_, ?_, ?_⟩
  · intro fuel hfuel
    unfold is_aligned_buf
    cases bfd.get_pid_exe with
    | none => exact ⟨_, rfl⟩
    | some tpath =>
      simp only []
      split
      · exact ⟨_, rfl⟩
      · split
        · exact ⟨_, rfl⟩
        · exact is_aligned_loop_ends bfd.disassemble size offset hlen hfit fuel 0
            (Nat.zero_le _) (by omega)
  · intro fuel pc hpc h0
    rw [is_aligned_loop_step bfd.disassemble size offset fuel pc (hlen pc).1 (hlen pc).2
      (by omega)]
    simp only [h0, Int.toNat_zero, Nat.add_zero, Nat.lt_irrefl, false_and, if_false]
    split <;> rfl
  · intro fuel pc hpc hpos
    have hstep := is_aligned_loop_step bfd.disassemble size offset fuel pc (hlen pc).1
      (hlen pc).2 (by omega)
    have hn : 0 < (bfd.disassemble pc).toNat := by omega
    refine ⟨by omega, ?_, ?_⟩
    · intro hlt
      rw [hstep, if_neg (by omega), if_pos ⟨hn, by omega, by omega⟩]
    · intro hge
      rw [hstep]
      by_cases heq : pc + (bfd.disassemble pc).toNat = offset
      · simp only [heq, if_true]
      · simp only [heq, if_false]
        rw [if_neg]
        intro h
        omega

/-- C29 (amended) at a binary whose instructions have 3 and 5 bytes, and at one whose
instruction at position 6 has length 0. -/
theorem decoding_terminates_witness :
    (∃ r, is_aligned_buf sample_bfd 100 9 10 = some r) ∧
    is_aligned_buf sample_bfd 100 9 10 = some AlignState.NotAlign ∧
    is_aligned_buf ⟨some [], fun _ => true, fun _ => true, fun pc => if pc < 6 then 3 else 0⟩
      100 50 3 = some AlignState.NotAlign :=
  ⟨(decoding_terminates sample_bfd 100 9
      (fun p => by
        show (0 : Int) ≤ (if p % 8 = 0 then 3 else 5) ∧
          (if p % 8 = 0 then (3 : Int) else 5) ≤ INT_MAX
        split <;> decide)
      (by decide)).1 10 (by decide),
    by decide, by decide⟩

/-- C29 as stated fails: with instructions of 4 bytes, none of negative length, and
`size = offset = 2 ^ 64 - 1`, the loop does not end whatever the fuel: `pc` wraps from
`2 ^ 64 - 4` to 0 and never reaches or passes `min(size, offset)`. -/
theorem decoding_counterexample :
    (∀ p : Nat, (0 : Int) ≤ (fun _ : Nat => (4 : Int)) p) ∧
    ∀ fuel, is_aligned_loop (fun _ => 4) 18446744073709551615 18446744073709551615
      fuel 0 = none := by
  refine ⟨fun _ => show (0 : Int) ≤ 4 by decide, ?_⟩
  intro fuel
  exact is_aligned_loop_even 4 rfl (by decide) (by decide) fuel 0 rfl

end bpftrace
